import Mathlib

/-!
# CicadaPlayer: decode negotiation and video-format derivation

A shallow embedding of `framework/codec/SimpleDecoder.cpp` and of the integer
rectangles of `framework/render/video/glRender/src/base/qrect.cpp`.

* Calls into the codec library and into the VLC-derived helpers
  (`avcodec_default_get_format`, `av_pix_fmt_desc_get`,
  `avcodec_align_dimensions2`, `av_image_fill_linesizes`, `FindVlcChroma`,
  `vlc_fourcc_GetChromaDescription`, `VideoAcceleration::createVA`, ...) are
  not part of the translated sources; they are the fields of `Engine`, and every
  theorem quantifies over them.
* Object state (`SimpleDecoder`) is passed explicitly.  The life cycle of
  `VideoAcceleration` objects is recorded in the ghost field `vaLog`.
* Values of the C type `int` are `Int`, values of `unsigned` are `Nat`; `/`
  and `%` on `int` are the truncating `Int.tdiv` and `Int.tmod`.  Where the
  source computes in 32 bits the width is explicit: the plane loop of
  `getVideoFormat` and `tw = linesize[0] / pixel_size` mix `int` with the
  `unsigned` fields of the chroma description, so they are evaluated modulo
  `2 ^ 32` (`toUnsigned`, `uadd`, `usub`, `umul`) and stored back as `int`
  (`toSigned`); `width += width & ~(width - 1)` is signed, and leaving the
  range of `int` there is undefined behaviour (`growWidth` has no result).
* A result `none` stands for an execution that does not return a defined
  result: the line-size loop of `getVideoFormat` not finishing within the given
  fuel, a division by zero, or a signed overflow in that loop.
* `assert` follows the release build (it is compiled out by `NDEBUG`); the
  asserted condition is kept as `pitch_assert`.
* The two threads that share `m_outputFrame` are a step function over the
  shared state (`Handoff`), one step per statement, with `m_frameMutex` taken
  only when it is free.
* `VideoFormat.h` declares the pixel-format conversions without their bodies;
  they are written after the specification over a catalogue parameter.  The
  same holds for `ShaderManager::prepareMaterial` of `VideoShader.h`.
* `qrect.cpp` calls `isNull()` and `QRect()` of `qrect.h`, a header outside the
  translated sources; they are the fields of `QRectHeader`, and the theorems on
  rectangles assume the conventions of Qt for them (`QtConventions`).
-/

namespace Cicada

/-! ## Types of the codec library -/

/-- The codec library's `enum AVPixelFormat`.  Only the members that
`SimpleDecoder.cpp` names are listed; every other member is `other tag`. -/
inductive AVPixelFormat where
  | AV_PIX_FMT_NONE
  | AV_PIX_FMT_YUV420P
  | AV_PIX_FMT_D3D11VA_VLD
  | AV_PIX_FMT_DXVA2_VLD
  | AV_PIX_FMT_VAAPI_VLD
  | AV_PIX_FMT_VDPAU
  | other (tag : Nat)
  deriving DecidableEq, Repr

open AVPixelFormat

/-- The members of `enum AVColorRange` named by the decoder. -/
inductive AVColorRange where
  | AVCOL_RANGE_UNSPECIFIED
  | AVCOL_RANGE_MPEG
  | AVCOL_RANGE_JPEG
  | other (tag : Nat)
  deriving DecidableEq, Repr

/-- The members of `enum AVColorSpace` named by the decoder. -/
inductive AVColorSpace where
  | AVCOL_SPC_BT709
  | AVCOL_SPC_SMPTE170M
  | AVCOL_SPC_BT470BG
  | AVCOL_SPC_BT2020_NCL
  | AVCOL_SPC_BT2020_CL
  | other (tag : Nat)
  deriving DecidableEq, Repr

/-- The members of `enum AVColorTransferCharacteristic` named by the decoder. -/
inductive AVColorTransferCharacteristic where
  | AVCOL_TRC_LINEAR
  | AVCOL_TRC_GAMMA22
  | AVCOL_TRC_BT709
  | AVCOL_TRC_SMPTE170M
  | AVCOL_TRC_BT2020_10
  | AVCOL_TRC_BT2020_12
  | AVCOL_TRC_ARIB_STD_B67
  | AVCOL_TRC_SMPTE2084
  | AVCOL_TRC_SMPTE240M
  | AVCOL_TRC_GAMMA28
  | other (tag : Nat)
  deriving DecidableEq, Repr

/-- The members of `enum AVColorPrimaries` named by the decoder. -/
inductive AVColorPrimaries where
  | AVCOL_PRI_BT709
  | AVCOL_PRI_BT470BG
  | AVCOL_PRI_SMPTE170M
  | AVCOL_PRI_SMPTE240M
  | AVCOL_PRI_BT2020
  | other (tag : Nat)
  deriving DecidableEq, Repr

/-- The members of `enum AVChromaLocation` named by the decoder. -/
inductive AVChromaLocation where
  | AVCHROMA_LOC_LEFT
  | AVCHROMA_LOC_CENTER
  | AVCHROMA_LOC_TOPLEFT
  | other (tag : Nat)
  deriving DecidableEq, Repr

/-- An `AVRational`. -/
structure AVRational where
  num : Int
  den : Int
  deriving DecidableEq, Repr

/-- The fields of `AVCodecContext` read or written by the decoder.
`draw_horiz_band` is a callback pointer, `none` being `NULL`. -/
structure AVCodecContext where
  coded_width : Int
  coded_height : Int
  width : Int
  height : Int
  profile : Int
  level : Int
  active_thread_type : Int
  draw_horiz_band : Option Nat
  sample_aspect_ratio : AVRational
  color_range : AVColorRange
  colorspace : AVColorSpace
  color_trc : AVColorTransferCharacteristic
  color_primaries : AVColorPrimaries
  chroma_sample_location : AVChromaLocation
  deriving DecidableEq, Repr

/-- The part of an `AVPixFmtDescriptor` the decoder looks at. -/
structure AVPixFmtDescriptor where
  flags : Nat
  deriving DecidableEq, Repr

/-- The flag `AV_PIX_FMT_FLAG_HWACCEL` (`1 << 3`). -/
def AV_PIX_FMT_FLAG_HWACCEL : Nat := 8

/-- What `&videoForamt` and other values of a frame's user pointer refer to. -/
inductive FrameRef where
  | videoForamt
  | foreign (tag : Nat)
  deriving DecidableEq, Repr

/-- The constant `AV_NUM_DATA_POINTERS`. -/
def AV_NUM_DATA_POINTERS : Nat := 8

/-- An `AVFrame`: `payload` stands for the picture and its properties,
`opaque_ptr` for the frame's user pointer (`none` being `NULL`), `data`,
`linesize` and `buf` for the arrays of that name (a `NULL` entry being
`none`). -/
structure AVFrame where
  payload : Nat
  decode_error_flags : Int
  flags : Int
  opaque_ptr : Option FrameRef
  data : List (Option Nat)
  linesize : List Int
  buf : List (Option Nat)
  deriving DecidableEq, Repr

/-- The fields of the `AVCodecContext` allocated by `setupDecoder` that the
function writes.  The three `bool` fields tell whether `get_format` is
`ffmpeg_GetFormat`, whether `get_buffer2` is `lavc_GetFrame` and whether the
user pointer of the context is `this`; `refcounted_frames` is the option set
through `av_opt_set_int`; `extradata` is `none` for `NULL`. -/
structure CodecContextSetup where
  get_format_installed : Bool
  get_buffer2_installed : Bool
  opaque_this : Bool
  thread_count : Int
  thread_safe_callbacks : Bool
  thread_type : Int
  refcounted_frames : Option Int
  extradata : Option (List Nat)
  extradata_size : Int
  deriving DecidableEq, Repr

/-- The error code `AVERROR_EOF`, `-MKTAG('E','O','F',' ')`. -/
def AVERROR_EOF : Int := -541478725

/-! ## Types of the VLC-derived helpers -/

/-- The status `VLC_SUCCESS`. -/
def VLC_SUCCESS : Int := 0

/-- A `vlc_rational_t` (unsigned numerator and denominator). -/
structure vlc_rational_t where
  num : Nat
  den : Nat
  deriving DecidableEq, Repr

/-- One entry of the array `p` of a chroma description. -/
structure chroma_plane_t where
  w : vlc_rational_t
  h : vlc_rational_t
  deriving DecidableEq, Repr

/-- A `vlc_chroma_description_t`. -/
structure vlc_chroma_description_t where
  plane_count : Nat
  p : List chroma_plane_t
  pixel_size : Nat
  deriving DecidableEq, Repr

inductive video_color_space_t where
  | COLOR_SPACE_UNDEF
  | COLOR_SPACE_BT601
  | COLOR_SPACE_BT709
  | COLOR_SPACE_BT2020
  deriving DecidableEq, Repr

inductive video_transfer_func_t where
  | TRANSFER_FUNC_UNDEF
  | TRANSFER_FUNC_LINEAR
  | TRANSFER_FUNC_SRGB
  | TRANSFER_FUNC_BT709
  | TRANSFER_FUNC_BT2020
  | TRANSFER_FUNC_ARIB_B67
  | TRANSFER_FUNC_SMPTE_ST2084
  | TRANSFER_FUNC_SMPTE_240
  | TRANSFER_FUNC_BT470_BG
  deriving DecidableEq, Repr

inductive video_color_primaries_t where
  | COLOR_PRIMARIES_UNDEF
  | COLOR_PRIMARIES_BT601_525
  | COLOR_PRIMARIES_BT601_625
  | COLOR_PRIMARIES_BT709
  | COLOR_PRIMARIES_BT2020
  deriving DecidableEq, Repr

inductive video_chroma_location_t where
  | CHROMA_LOCATION_UNDEF
  | CHROMA_LOCATION_LEFT
  | CHROMA_LOCATION_CENTER
  | CHROMA_LOCATION_TOP_LEFT
  deriving DecidableEq, Repr

/-- One entry of `videoForamt.plane`. -/
structure plane_t where
  i_lines : Int
  i_visible_lines : Int
  i_pitch : Int
  i_visible_pitch : Int
  i_pixel_pitch : Int
  deriving DecidableEq, Repr

/-- The `video_format_t` the decoder fills.  `decoder_p` tells whether the back
pointer refers to this decoder; `extra_info` is the render handle of the
acceleration back end (`none` being `NULL`). -/
structure video_format_t where
  i_chroma : Nat
  i_width : Int
  i_height : Int
  i_visible_width : Int
  i_visible_height : Int
  i_sar_num : Int
  i_sar_den : Int
  plane : List plane_t
  i_planes : Nat
  b_color_range_full : Bool
  space : video_color_space_t
  transfer : video_transfer_func_t
  primaries : video_color_primaries_t
  chroma_location : video_chroma_location_t
  extra_info : Option Nat
  decoder_p : Bool
  deriving DecidableEq, Repr

/-- A `VideoAcceleration` object: its identity and the format it was created
for. -/
structure VA where
  id : Nat
  fmt : AVPixelFormat
  deriving DecidableEq, Repr

/-- What happens to `VideoAcceleration` objects, in program order. -/
inductive VAEvent where
  | create (id : Nat)
  | opening (id : Nat)
  | close (id : Nat)
  | delete (id : Nat)
  deriving DecidableEq, Repr

/-! ## The environment -/

/-- The functions and build-time switches `SimpleDecoder.cpp` depends on and
that live outside the translated sources. -/
structure Engine where
  /-- `avcodec_default_get_format(ctx, fmts)`. -/
  avcodec_default_get_format : AVCodecContext → List AVPixelFormat → AVPixelFormat
  /-- `av_pix_fmt_desc_get(fmt)`, `none` being `NULL`. -/
  av_pix_fmt_desc_get : AVPixelFormat → Option AVPixFmtDescriptor
  /-- `avcodec_align_dimensions2(ctx, &width, &height, aligns)`: the new
  width, the new height and the contents of `aligns`. -/
  avcodec_align_dimensions2 : AVCodecContext → Int → Int → Int × Int × List Int
  /-- `av_image_fill_linesizes(linesize, fmt, width)`: the contents of
  `linesize` afterwards. -/
  av_image_fill_linesizes : AVPixelFormat → Int → List Int
  /-- `FindVlcChroma(fmt)`. -/
  FindVlcChroma : AVPixelFormat → Nat
  /-- `VideoAcceleration::vlc_va_GetChroma(hwfmt, swfmt)`. -/
  vlc_va_GetChroma : AVPixelFormat → AVPixelFormat → Nat
  /-- `vlc_fourcc_GetChromaDescription(chroma)`, `none` being `NULL`. -/
  vlc_fourcc_GetChromaDescription : Nat → Option vlc_chroma_description_t
  /-- `vlc_fourcc_IsYUV(chroma)`. -/
  vlc_fourcc_IsYUV : Nat → Bool
  /-- `video_format_Init(&fmt, chroma)`: the format afterwards. -/
  video_format_Init : video_format_t → Nat → video_format_t
  /-- Whether `VideoAcceleration::createVA(ctx, hwfmt)` returns an object. -/
  createVA : AVCodecContext → AVPixelFormat → Bool
  /-- The status returned by `va->open()` for the object created for
  `(ctx, hwfmt)`. -/
  va_open : AVCodecContext → AVPixelFormat → Int
  /-- `va->getExtraInfoForRender()`. -/
  getExtraInfoForRender : VA → Option Nat
  /-- Whether `_WIN32` is defined. -/
  WIN32 : Bool
  /-- Whether `LIBAVUTIL_VERSION_INT >= AV_VERSION_INT(52, 4, 0)`. -/
  HAVE_VDPAU : Bool
  /-- Whether `(LIBAVCODEC_VERSION_MICRO >= 100) &&
  (LIBAVCODEC_VERSION_INT < AV_VERSION_INT(57, 83, 101))`. -/
  THREAD_RESTRICTION : Bool

/-! ## The decoder -/

/-- The members of `SimpleDecoder` used by the translated functions, and two
ghost fields: `vaLog`, the history of `VideoAcceleration` objects, and
`flushCount`, the number of `avcodec_flush_buffers` calls.  `m_codec` and
`m_codecCont` are `none` for `nullptr`. -/
structure SimpleDecoder where
  pix_fmt : AVPixelFormat
  profile : Int
  level : Int
  width : Int
  height : Int
  m_useHW : Bool
  mVA : Option VA
  videoForamt : video_format_t
  m_decodedFrame : Option AVFrame
  m_outputFrame : Option AVFrame
  vaLog : List VAEvent
  flushCount : Nat
  m_codec : Option Nat
  m_codecCont : Option CodecContextSetup
  deriving DecidableEq, Repr

/-- The return statements of `getVideoFormat`: `return 0`, `return -1`
("invalid display size") and `return VLC_EGENERIC` (a non-zero error code). -/
inductive GVFStatus where
  | ok
  | invalidDisplaySize
  | egeneric
  deriving DecidableEq, Repr

/-- `SimpleDecoder::enableHWDecoder`. -/
def enableHWDecoder (s : SimpleDecoder) (enable : Bool) : SimpleDecoder :=
  { s with m_useHW := enable }

/-- `SimpleDecoder::close_va_decoder`. -/
def close_va_decoder (s : SimpleDecoder) : SimpleDecoder :=
  match s.mVA with
  | some va =>
    { s with mVA := none, vaLog := s.vaLog ++ [VAEvent.close va.id, VAEvent.delete va.id] }
  | none => s

/-- The largest value of the 32-bit type `int`. -/
def INT_MAX : Int := 2147483647

/-- The smallest value of the 32-bit type `int`. -/
def INT_MIN : Int := -2147483648

/-- Conversion of an `int` operand to `unsigned`, as the usual arithmetic
conversions do when the other operand is `unsigned`: the value modulo
`2 ^ 32`. -/
def toUnsigned (x : Int) : Nat := (x % 4294967296).toNat

/-- Conversion of an `unsigned` value to `int` (two's complement), as an
assignment to an `int` object does. -/
def toSigned (u : Nat) : Int :=
  if u % 4294967296 < 2147483648 then ((u % 4294967296 : Nat) : Int)
  else ((u % 4294967296 : Nat) : Int) - 4294967296

/-- The sum of two `unsigned` operands. -/
def uadd (a b : Nat) : Nat := (a + b) % 4294967296

/-- The difference of two `unsigned` operands. -/
def usub (a b : Nat) : Nat := (a + (4294967296 - b % 4294967296)) % 4294967296

/-- The product of two `unsigned` operands. -/
def umul (a b : Nat) : Nat := (a * b) % 4294967296

/-- The operator `&` on two `int` operands (two's complement, 32 bits). -/
def bitand (x y : Int) : Int := toSigned (Nat.land (toUnsigned x) (toUnsigned y))

/-- The operator `~` on an `int` operand. -/
def bitnot (x : Int) : Int := -x - 1

/-- The body of `for (int i = 0; i < 4; i++) unaligned |= linesize[i] % aligns[i];`
starting from `unaligned = 0`.  Arrays are read with `0` for the entries the
library left untouched. -/
def unalignedBits (linesize aligns : List Int) : Option Int :=
  if aligns.getD 0 0 = 0 ∨ aligns.getD 1 0 = 0 ∨ aligns.getD 2 0 = 0 ∨ aligns.getD 3 0 = 0 then
    none
  else
    some (Int.lor (Int.lor (Int.lor (Int.lor 0
      (Int.tmod (linesize.getD 0 0) (aligns.getD 0 0)))
      (Int.tmod (linesize.getD 1 0) (aligns.getD 1 0)))
      (Int.tmod (linesize.getD 2 0) (aligns.getD 2 0)))
      (Int.tmod (linesize.getD 3 0) (aligns.getD 3 0)))

/-- The statement `width += width & ~(width - 1);` of line 219, on the 32-bit
`int width`.  Both `width - 1` and the sum are signed: when either leaves the
range of `int` the behaviour is undefined and there is no result. -/
def growWidth (width : Int) : Option Int :=
  if width - 1 < INT_MIN then none
  else
    let width1 := width + bitand width (bitnot (width - 1))
    if INT_MAX < width1 then none else some width1

/-- The `do { ... } while (unaligned);` loop of `getVideoFormat`; the result is
the final contents of `linesize`.  Line 219 runs in every iteration, also in
the one that leaves the loop. -/
def linesizeLoop (E : Engine) (sw_pix_fmt : AVPixelFormat) (aligns : List Int) :
    Nat → Int → Option (List Int)
  | 0, _ => none
  | fuel + 1, width =>
    let linesize := E.av_image_fill_linesizes sw_pix_fmt width
    match growWidth width with
    | none => none
    | some width1 =>
      match unalignedBits linesize aligns with
      | none => none
      | some unaligned =>
        if unaligned ≠ 0 then linesizeLoop E sw_pix_fmt aligns fuel width1
        else some linesize

/-- The value of `tw` after lines 211-225.  In `linesize[0] / p_dsc->pixel_size`
the divisor is `unsigned`, so the division is the unsigned one. -/
def alignedWidth (E : Engine) (fuel : Nat) (ctx : AVCodecContext) (software_decoding : Bool)
    (sw_pix_fmt : AVPixelFormat) (width : Int) (aligns : List Int)
    (p_dsc : vlc_chroma_description_t) : Option Int :=
  if software_decoding then
    match linesizeLoop E sw_pix_fmt aligns fuel width with
    | none => none
    | some linesize =>
      if p_dsc.pixel_size = 0 then none
      else some (toSigned (toUnsigned (linesize.getD 0 0) / p_dsc.pixel_size))
  else some ctx.coded_width

/-- The body of the plane loop (lines 242-249) for one plane.  `num`, `den` and
`pixel_size` are `unsigned`, so every operation of lines 244-248 is an unsigned
one; the results are stored in the `int` fields of the plane. -/
def fillPlane (p_dsc : vlc_chroma_description_t) (cp : chroma_plane_t)
    (i_width_aligned i_height_aligned i_height_extra : Int)
    (i_visible_width i_visible_height : Int) : Option plane_t :=
  if cp.h.den = 0 ∨ cp.w.den = 0 then none
  else some
    { i_lines :=
        toSigned (umul (toUnsigned (i_height_aligned + i_height_extra)) cp.h.num / cp.h.den)
      i_visible_lines :=
        toSigned (umul (uadd (toUnsigned i_visible_height) (usub cp.h.den 1) / cp.h.den)
          cp.h.num)
      i_pitch :=
        toSigned (umul (umul (toUnsigned i_width_aligned) cp.w.num / cp.w.den)
          p_dsc.pixel_size)
      i_visible_pitch :=
        toSigned (umul (umul (uadd (toUnsigned i_visible_width) (usub cp.w.den 1) / cp.w.den)
          cp.w.num) p_dsc.pixel_size)
      i_pixel_pitch := toSigned p_dsc.pixel_size }

/-- The plane loop `for (unsigned i = 0; i < p_dsc->plane_count; i++)`, run over
the indices still to visit.  Reading `p_dsc->p[i]` past the end of the array
does not return. -/
def fillPlanes (p_dsc : vlc_chroma_description_t)
    (i_width_aligned i_height_aligned i_height_extra : Int)
    (i_visible_width i_visible_height : Int) : List Nat → Option (List plane_t)
  | [] => some []
  | i :: rest =>
    match p_dsc.p[i]? with
    | none => none
    | some cp =>
      match fillPlane p_dsc cp i_width_aligned i_height_aligned i_height_extra
          i_visible_width i_visible_height with
      | none => none
      | some pl =>
        match fillPlanes p_dsc i_width_aligned i_height_aligned i_height_extra
            i_visible_width i_visible_height rest with
        | none => none
        | some pls => some (pl :: pls)

/-- The `switch (ctx->color_range)` of `getVideoFormat`. -/
def map_color_range (E : Engine) (ctx : AVCodecContext) (f : video_format_t) : video_format_t :=
  match ctx.color_range with
  | .AVCOL_RANGE_JPEG => { f with b_color_range_full := true }
  | .AVCOL_RANGE_UNSPECIFIED => { f with b_color_range_full := !E.vlc_fourcc_IsYUV f.i_chroma }
  | _ => { f with b_color_range_full := false }

/-- The `switch (ctx->colorspace)` of `getVideoFormat`. -/
def map_colorspace (ctx : AVCodecContext) (f : video_format_t) : video_format_t :=
  match ctx.colorspace with
  | .AVCOL_SPC_BT709 => { f with space := .COLOR_SPACE_BT709 }
  | .AVCOL_SPC_SMPTE170M => { f with space := .COLOR_SPACE_BT601 }
  | .AVCOL_SPC_BT470BG => { f with space := .COLOR_SPACE_BT601 }
  | .AVCOL_SPC_BT2020_NCL => { f with space := .COLOR_SPACE_BT2020 }
  | .AVCOL_SPC_BT2020_CL => { f with space := .COLOR_SPACE_BT2020 }
  | _ => f

/-- The `switch (ctx->color_trc)` of `getVideoFormat`. -/
def map_color_trc (ctx : AVCodecContext) (f : video_format_t) : video_format_t :=
  match ctx.color_trc with
  | .AVCOL_TRC_LINEAR => { f with transfer := .TRANSFER_FUNC_LINEAR }
  | .AVCOL_TRC_GAMMA22 => { f with transfer := .TRANSFER_FUNC_SRGB }
  | .AVCOL_TRC_BT709 => { f with transfer := .TRANSFER_FUNC_BT709 }
  | .AVCOL_TRC_SMPTE170M => { f with transfer := .TRANSFER_FUNC_BT2020 }
  | .AVCOL_TRC_BT2020_10 => { f with transfer := .TRANSFER_FUNC_BT2020 }
  | .AVCOL_TRC_BT2020_12 => { f with transfer := .TRANSFER_FUNC_BT2020 }
  | .AVCOL_TRC_ARIB_STD_B67 => { f with transfer := .TRANSFER_FUNC_ARIB_B67 }
  | .AVCOL_TRC_SMPTE2084 => { f with transfer := .TRANSFER_FUNC_SMPTE_ST2084 }
  | .AVCOL_TRC_SMPTE240M => { f with transfer := .TRANSFER_FUNC_SMPTE_240 }
  | .AVCOL_TRC_GAMMA28 => { f with transfer := .TRANSFER_FUNC_BT470_BG }
  | _ => f

/-- The `switch (ctx->color_primaries)` of `getVideoFormat`. -/
def map_color_primaries (ctx : AVCodecContext) (f : video_format_t) : video_format_t :=
  match ctx.color_primaries with
  | .AVCOL_PRI_BT709 => { f with primaries := .COLOR_PRIMARIES_BT709 }
  | .AVCOL_PRI_BT470BG => { f with primaries := .COLOR_PRIMARIES_BT601_625 }
  | .AVCOL_PRI_SMPTE170M => { f with primaries := .COLOR_PRIMARIES_BT601_525 }
  | .AVCOL_PRI_SMPTE240M => { f with primaries := .COLOR_PRIMARIES_BT601_525 }
  | .AVCOL_PRI_BT2020 => { f with primaries := .COLOR_PRIMARIES_BT2020 }
  | _ => f

/-- The `switch (ctx->chroma_sample_location)` of `getVideoFormat`. -/
def map_chroma_location (ctx : AVCodecContext) (f : video_format_t) : video_format_t :=
  match ctx.chroma_sample_location with
  | .AVCHROMA_LOC_LEFT => { f with chroma_location := .CHROMA_LOCATION_LEFT }
  | .AVCHROMA_LOC_CENTER => { f with chroma_location := .CHROMA_LOCATION_CENTER }
  | .AVCHROMA_LOC_TOPLEFT => { f with chroma_location := .CHROMA_LOCATION_TOP_LEFT }
  | _ => f

/-- The dimensions `getVideoFormat` validates and the contents of `aligns`
(lines 188-200): the library-aligned coded dimensions for software decoding,
the coded dimensions themselves otherwise. -/
def validatedDims (E : Engine) (ctx : AVCodecContext) (software_decoding : Bool) :
    Int × Int × List Int :=
  if software_decoding then
    E.avcodec_align_dimensions2 ctx ctx.coded_width ctx.coded_height
  else (ctx.coded_width, ctx.coded_height, [])

/-- The test of line 204. -/
def invalidDisplaySize (ctx : AVCodecContext) (width height : Int) : Bool :=
  decide (width = 0 ∨ height = 0 ∨ width > 8192 ∨ height > 8192 ∨
    width < ctx.width ∨ height < ctx.height)

/-- The chroma stored at lines 199 and 202. -/
def selectedChroma (E : Engine) (software_decoding : Bool)
    (pix_fmt sw_pix_fmt : AVPixelFormat) : Nat :=
  if software_decoding then E.FindVlcChroma pix_fmt
  else E.vlc_va_GetChroma pix_fmt sw_pix_fmt

/-- Lines 227-349 of `getVideoFormat`: the format once `tw` and the planes are
known. -/
def finishFormat (E : Engine) (mVA : Option VA) (ctx : AVCodecContext) (f : video_format_t)
    (p_dsc : vlc_chroma_description_t) (tw : Int) (planes : List plane_t) : video_format_t :=
  let f1 : video_format_t := { f with
    i_width := tw
    i_height := ctx.coded_height
    i_visible_width := ctx.width
    i_visible_height := ctx.height
    i_sar_num := ctx.sample_aspect_ratio.num
    i_sar_den := ctx.sample_aspect_ratio.den }
  let f2 : video_format_t :=
    if f1.i_sar_num = 0 ∨ f1.i_sar_den = 0 then
      { f1 with
        i_sar_num := 1
        i_sar_den := 1 }
    else f1
  let f3 : video_format_t := { f2 with
    plane := planes ++ f2.plane.drop p_dsc.plane_count
    i_planes := p_dsc.plane_count }
  let f4 := map_chroma_location ctx (map_color_primaries ctx (map_color_trc ctx
    (map_colorspace ctx (map_color_range E ctx f3))))
  match mVA with
  | some va => { f4 with extra_info := E.getExtraInfoForRender va }
  | none => f4

/-- `SimpleDecoder::getVideoFormat`. -/
def getVideoFormat (E : Engine) (fuel : Nat) (s : SimpleDecoder) (ctx : AVCodecContext)
    (pix_fmt sw_pix_fmt : AVPixelFormat) : Option (GVFStatus × SimpleDecoder) :=
  let software_decoding : Bool := decide (pix_fmt = sw_pix_fmt)
  let dims := validatedDims E ctx software_decoding
  let f : video_format_t :=
    { E.video_format_Init s.videoForamt 0 with
      decoder_p := true
      i_chroma := selectedChroma E software_decoding pix_fmt sw_pix_fmt }
  if invalidDisplaySize ctx dims.1 dims.2.1 then
    some (GVFStatus.invalidDisplaySize, { s with videoForamt := f })
  else
    match E.vlc_fourcc_GetChromaDescription f.i_chroma with
    | none => some (GVFStatus.egeneric, { s with videoForamt := f })
    | some p_dsc =>
      match alignedWidth E fuel ctx software_decoding sw_pix_fmt dims.1 dims.2.2 p_dsc with
      | none => none
      | some tw =>
        match fillPlanes p_dsc tw ctx.coded_height 0 ctx.width ctx.height
            (List.range p_dsc.plane_count) with
        | none => none
        | some planes =>
          some (GVFStatus.ok,
            { s with videoForamt := finishFormat E s.mVA ctx f p_dsc tw planes })

/-! ### Format negotiation -/

/-- The entries of the array `pi_fmt` in front of its `AV_PIX_FMT_NONE`
terminator, which is what every loop over `pi_fmt` visits. -/
def candidates (pi_fmt : List AVPixelFormat) : List AVPixelFormat :=
  pi_fmt.takeWhile (fun f => decide (f ≠ AV_PIX_FMT_NONE))

/-- The value of `hwaccel` computed in the loop of lines 30-36 (`false` when
the format has no descriptor and the iteration is skipped). -/
def is_hwaccel (E : Engine) (f : AVPixelFormat) : Bool :=
  match E.av_pix_fmt_desc_get f with
  | none => false
  | some dsc => decide ((dsc.flags &&& AV_PIX_FMT_FLAG_HWACCEL) ≠ 0)

/-- The value of `can_hwaccel` after the loop of lines 30-36. -/
def can_hwaccel (E : Engine) (pi_fmt : List AVPixelFormat) : Bool :=
  (candidates pi_fmt).any (is_hwaccel E)

/-- The array `hwfmts` without its terminator. -/
def hwfmts (E : Engine) : List AVPixelFormat :=
  (if E.WIN32 then [AV_PIX_FMT_D3D11VA_VLD, AV_PIX_FMT_DXVA2_VLD] else []) ++
  [AV_PIX_FMT_VAAPI_VLD] ++
  (if E.HAVE_VDPAU then [AV_PIX_FMT_VDPAU] else [])

/-- The loop of lines 47-52 over the candidates still to visit: `true` when it
reaches `return decoder->pix_fmt`. -/
def reuseScan (E : Engine) (fuel : Nat) (ctx : AVCodecContext) (swfmt : AVPixelFormat) :
    SimpleDecoder → List AVPixelFormat → Option (Bool × SimpleDecoder)
  | s, [] => some (false, s)
  | s, f :: rest =>
    if f = s.pix_fmt then
      match getVideoFormat E fuel s ctx s.pix_fmt swfmt with
      | none => none
      | some (status, s1) =>
        if status = GVFStatus.ok then some (true, s1)
        else reuseScan E fuel ctx swfmt s1 rest
    else reuseScan E fuel ctx swfmt s rest

/-- Lines 38-52: `true` when the previously selected format is returned,
`false` when control reaches the label `no_reuse`. -/
def reuseAttempt (E : Engine) (fuel : Nat) (s : SimpleDecoder) (ctx : AVCodecContext)
    (pi_fmt : List AVPixelFormat) (swfmt : AVPixelFormat) : Option (Bool × SimpleDecoder) :=
  if s.pix_fmt = AV_PIX_FMT_NONE then some (false, s)
  else if s.width ≠ ctx.coded_width ∨ s.height ≠ ctx.coded_height then some (false, s)
  else if ctx.profile ≠ s.profile ∨ ctx.level > s.level then some (false, s)
  else reuseScan E fuel ctx swfmt s (candidates pi_fmt)

/-- The loop of lines 88-114 over the entries of `hwfmts` still to visit.  The
first component of the result is the format returned at line 113, or `none`
when the loop runs to its end. -/
def hwLoop (E : Engine) (fuel : Nat) (ctx : AVCodecContext) (pi_fmt : List AVPixelFormat)
    (swfmt : AVPixelFormat) :
    SimpleDecoder → List AVPixelFormat →
      Option (Option AVPixelFormat × SimpleDecoder × AVCodecContext)
  | s, [] => some (none, s, ctx)
  | s, h :: rest =>
    let hwfmt : AVPixelFormat :=
      if (candidates pi_fmt).contains h then h else AV_PIX_FMT_NONE
    if hwfmt = AV_PIX_FMT_NONE then hwLoop E fuel ctx pi_fmt swfmt s rest
    else
      let s1 : SimpleDecoder :=
        { s with videoForamt :=
            { s.videoForamt with i_chroma := E.vlc_va_GetChroma hwfmt swfmt } }
      if s1.videoForamt.i_chroma = 0 then hwLoop E fuel ctx pi_fmt swfmt s1 rest
      else if ctx.width = 0 ∨ ctx.height = 0 then hwLoop E fuel ctx pi_fmt swfmt s1 rest
      else if E.createVA ctx hwfmt = false then hwLoop E fuel ctx pi_fmt swfmt s1 rest
      else
        let va : VA := { id := s1.vaLog.length, fmt := hwfmt }
        let s2 : SimpleDecoder :=
          { s1 with vaLog := s1.vaLog ++ [VAEvent.create va.id, VAEvent.opening va.id] }
        if E.va_open ctx hwfmt ≠ VLC_SUCCESS then
          hwLoop E fuel ctx pi_fmt swfmt
            { s2 with vaLog := s2.vaLog ++ [VAEvent.delete va.id] } rest
        else
          let s3 : SimpleDecoder := { s2 with mVA := some va, pix_fmt := hwfmt }
          let ctx1 : AVCodecContext := { ctx with draw_horiz_band := none }
          match getVideoFormat E fuel s3 ctx1 hwfmt swfmt with
          | none => none
          | some (_, s4) => some (some hwfmt, s4, ctx1)

/-- Lines 117-119, also lines 63-65: build the software format, record it and
return it. -/
def softwareFallback (E : Engine) (fuel : Nat) (s : SimpleDecoder) (ctx : AVCodecContext)
    (swfmt : AVPixelFormat) : Option (AVPixelFormat × SimpleDecoder × AVCodecContext) :=
  match getVideoFormat E fuel s ctx swfmt swfmt with
  | none => none
  | some (_, s1) => some (swfmt, { s1 with pix_fmt := swfmt }, ctx)

/-- Whether the block of lines 68-73 is compiled in and its test succeeds. -/
def threadRestricted (E : Engine) (ctx : AVCodecContext) : Bool :=
  E.THREAD_RESTRICTION && decide (ctx.active_thread_type ≠ 0)

/-- Lines 57-60: record the profile, level and coded dimensions of the
stream. -/
def recordStream (s : SimpleDecoder) (ctx : AVCodecContext) : SimpleDecoder :=
  { s with
    profile := ctx.profile
    level := ctx.level
    width := ctx.coded_width
    height := ctx.coded_height }

/-- Lines 62-119 of `ffmpeg_GetFormat`: the choice between the software format
and a hardware format. -/
def selectFormat (E : Engine) (fuel : Nat) (s : SimpleDecoder) (ctx : AVCodecContext)
    (pi_fmt : List AVPixelFormat) (swfmt : AVPixelFormat) :
    Option (AVPixelFormat × SimpleDecoder × AVCodecContext) :=
  if can_hwaccel E pi_fmt = false then softwareFallback E fuel s ctx swfmt
  else if threadRestricted E ctx then some (swfmt, s, ctx)
  else if s.m_useHW then
    match hwLoop E fuel ctx pi_fmt swfmt s (hwfmts E) with
    | none => none
    | some (some hwfmt, s3, ctx1) => some (hwfmt, s3, ctx1)
    | some (none, s3, ctx1) => softwareFallback E fuel s3 ctx1 swfmt
  else softwareFallback E fuel s ctx swfmt

/-- The code of `ffmpeg_GetFormat` from the label `no_reuse` on. -/
def negotiate (E : Engine) (fuel : Nat) (s : SimpleDecoder) (ctx : AVCodecContext)
    (pi_fmt : List AVPixelFormat) (swfmt : AVPixelFormat) :
    Option (AVPixelFormat × SimpleDecoder × AVCodecContext) :=
  selectFormat E fuel (recordStream (close_va_decoder s) ctx) ctx pi_fmt swfmt

/-- `SimpleDecoder::ffmpeg_GetFormat`: the format returned, the decoder and the
codec context afterwards. -/
def ffmpeg_GetFormat (E : Engine) (fuel : Nat) (s : SimpleDecoder) (ctx : AVCodecContext)
    (pi_fmt : List AVPixelFormat) : Option (AVPixelFormat × SimpleDecoder × AVCodecContext) :=
  let swfmt := E.avcodec_default_get_format ctx pi_fmt
  match reuseAttempt E fuel s ctx pi_fmt swfmt with
  | none => none
  | some (true, s1) => some (s1.pix_fmt, s1, ctx)
  | some (false, s1) => negotiate E fuel s1 ctx pi_fmt swfmt

/-- Two calls of `ffmpeg_GetFormat` in a row, the second on the decoder and the
context the first one left: the results of both. -/
def callTwice (E : Engine) (fuel : Nat) (s : SimpleDecoder) (ctx : AVCodecContext)
    (pi_fmt : List AVPixelFormat) :
    Option ((AVPixelFormat × SimpleDecoder × AVCodecContext) ×
      (AVPixelFormat × SimpleDecoder × AVCodecContext)) :=
  (ffmpeg_GetFormat E fuel s ctx pi_fmt).bind
    (fun r => (ffmpeg_GetFormat E fuel r.2.1 r.2.2 pi_fmt).map (fun r2 => (r, r2)))

/-! ### Frame retrieval -/

/-- What `avcodec_receive_frame(m_codecCont, m_decodedFrame)` returns and what
it leaves in `m_decodedFrame`. -/
structure ReceiveResult where
  ret : Int
  frame : AVFrame
  deriving DecidableEq, Repr

/-- `av_frame_clone`: a new reference to the same picture, with the same
properties.  Allocation is taken to succeed. -/
def av_frame_clone (f : AVFrame) : AVFrame := f

/-- `SimpleDecoder::getDecodedFrame`, given the outcome of
`avcodec_receive_frame`. -/
def getDecodedFrame (s : SimpleDecoder) (r : ReceiveResult) : Int × SimpleDecoder :=
  let s1 : SimpleDecoder := { s with m_decodedFrame := some r.frame }
  if r.ret < 0 then
    if r.ret = AVERROR_EOF then
      (r.ret, { s1 with m_outputFrame := none, flushCount := s1.flushCount + 1 })
    else (r.ret, s1)
  else if r.frame.decode_error_flags ≠ 0 ∨ r.frame.flags ≠ 0 then (r.ret, s1)
  else
    (r.ret, { s1 with
      m_outputFrame :=
        some { av_frame_clone r.frame with opaque_ptr := some FrameRef.videoForamt } })

/-- A run of `getDecodedFrame` calls, one per outcome of the codec library. -/
def decodeRun (s : SimpleDecoder) : List ReceiveResult → SimpleDecoder
  | [] => s
  | r :: rest => decodeRun (getDecodedFrame s r).2 rest

/-- Whether the library delivered a frame that `getDecodedFrame` publishes: a
non-negative status, `decode_error_flags == 0` and `flags == 0`. -/
def delivered (r : ReceiveResult) : Bool :=
  decide (0 ≤ r.ret) && decide (r.frame.decode_error_flags = 0) && decide (r.frame.flags = 0)

/-- The most recent frame of a run that was delivered in the sense of
`delivered`. -/
def lastDelivered (rs : List ReceiveResult) : Option AVFrame :=
  ((rs.filter delivered).getLast?).map (fun r => r.frame)

/-- The clone `getDecodedFrame` publishes for the decoded frame `f`: a clone of
`f` whose user pointer is `&videoForamt`. -/
def published (f : AVFrame) : AVFrame :=
  { av_frame_clone f with opaque_ptr := some FrameRef.videoForamt }

/-! ### Auxiliary definitions for the statements -/

/-- The fields of a format that the colour `switch`es and the attachment of the
render handle leave alone. -/
def geometry (f : video_format_t) :
    Nat × Int × Int × Int × Int × Int × Int × List plane_t × Nat :=
  (f.i_chroma, f.i_width, f.i_height, f.i_visible_width, f.i_visible_height,
    f.i_sar_num, f.i_sar_den, f.plane, f.i_planes)

/-- The format `getVideoFormat` starts from (lines 192-202). -/
def initialFormat (E : Engine) (s : SimpleDecoder) (pix_fmt sw_pix_fmt : AVPixelFormat) :
    video_format_t :=
  { E.video_format_Init s.videoForamt 0 with
    decoder_p := true
    i_chroma := selectedChroma E (decide (pix_fmt = sw_pix_fmt)) pix_fmt sw_pix_fmt }

/-- The width `getVideoFormat` validates at line 204. -/
def validatedWidth (E : Engine) (ctx : AVCodecContext) (pix_fmt sw_pix_fmt : AVPixelFormat) :
    Int :=
  (validatedDims E ctx (decide (pix_fmt = sw_pix_fmt))).1

/-- The height `getVideoFormat` validates at line 204. -/
def validatedHeight (E : Engine) (ctx : AVCodecContext) (pix_fmt sw_pix_fmt : AVPixelFormat) :
    Int :=
  (validatedDims E ctx (decide (pix_fmt = sw_pix_fmt))).2.1

/-- Whether the attempt of the loop of lines 88-114 on the priority-list entry
`h` gets to line 109: `h` is among the candidates, its chroma mapping is not 0,
the visible dimensions are not 0, `createVA` returns an object and `open`
returns `VLC_SUCCESS`. -/
def hwViable (E : Engine) (ctx : AVCodecContext) (pi_fmt : List AVPixelFormat)
    (swfmt : AVPixelFormat) (h : AVPixelFormat) : Bool :=
  (candidates pi_fmt).contains h && decide (E.vlc_va_GetChroma h swfmt ≠ 0) &&
    decide (ctx.width ≠ 0 ∧ ctx.height ≠ 0) && E.createVA ctx h &&
    decide (E.va_open ctx h = VLC_SUCCESS)

/-- Every object created within `evs` is deleted within `evs`. -/
def Balanced (evs : List VAEvent) : Prop :=
  ∀ id, VAEvent.create id ∈ evs → VAEvent.delete id ∈ evs

/-- Every object created within `evs` is deleted within `evs` or is the one
held in `mVA`. -/
def NoLeak (evs : List VAEvent) (mVA : Option VA) : Prop :=
  ∀ id, VAEvent.create id ∈ evs → VAEvent.delete id ∈ evs ∨ ∃ va, mVA = some va ∧ va.id = id

/-- The codec context after line 111. -/
def clearDrawHorizBand (ctx : AVCodecContext) : AVCodecContext :=
  { ctx with draw_horiz_band := none }

/-- The decoder after lines 109-110 of a successful attempt on `h`, started in
state `s`. -/
def afterOpen (E : Engine) (s : SimpleDecoder) (h swfmt : AVPixelFormat) : SimpleDecoder :=
  { s with
    videoForamt := { s.videoForamt with i_chroma := E.vlc_va_GetChroma h swfmt }
    vaLog := s.vaLog ++ [VAEvent.create s.vaLog.length, VAEvent.opening s.vaLog.length]
    mVA := some { id := s.vaLog.length, fmt := h }
    pix_fmt := h }

/-! ## Sample environments

Concrete values used to evaluate the model. -/

/-- A `video_format_t` with every field zero. -/
def zeroFormat : video_format_t :=
  { i_chroma := 0, i_width := 0, i_height := 0, i_visible_width := 0, i_visible_height := 0
    i_sar_num := 0, i_sar_den := 0, plane := [], i_planes := 0, b_color_range_full := false
    space := .COLOR_SPACE_UNDEF, transfer := .TRANSFER_FUNC_UNDEF
    primaries := .COLOR_PRIMARIES_UNDEF, chroma_location := .CHROMA_LOCATION_UNDEF
    extra_info := none, decoder_p := false }

/-- The description of an 8-bit planar 4:2:0 chroma: three planes, the two
chroma planes subsampled by two in both directions, one byte per sample. -/
def planar420 : vlc_chroma_description_t :=
  { plane_count := 3
    p := [⟨⟨1, 1⟩, ⟨1, 1⟩⟩, ⟨⟨1, 2⟩, ⟨1, 2⟩⟩, ⟨⟨1, 2⟩, ⟨1, 2⟩⟩, ⟨⟨0, 0⟩, ⟨0, 0⟩⟩]
    pixel_size := 1 }

/-- Round `x` up to a multiple of `a`. -/
def alignUp (x a : Int) : Int := Int.tdiv (x + a - 1) a * a

/-- An environment with one software format (`AV_PIX_FMT_YUV420P`, chroma tag
`1`) and the four hardware formats (chroma tag `2` over
`AV_PIX_FMT_YUV420P`), both tags described as `planar420`.  Coded widths are
aligned to 16 and heights to 32, lines to 16 bytes.  `create` tells whether
`createVA` succeeds for `AV_PIX_FMT_VAAPI_VLD`, `status` is what `open` returns,
`restricted` turns the threaded-decode restriction on. -/
def sampleEngine (create : Bool) (status : Int) (restricted : Bool) : Engine :=
  { avcodec_default_get_format := fun _ fmts =>
      if fmts.contains AV_PIX_FMT_YUV420P then AV_PIX_FMT_YUV420P else AV_PIX_FMT_NONE
    av_pix_fmt_desc_get := fun f =>
      match f with
      | AV_PIX_FMT_YUV420P => some ⟨16⟩
      | AV_PIX_FMT_D3D11VA_VLD => some ⟨8⟩
      | AV_PIX_FMT_DXVA2_VLD => some ⟨8⟩
      | AV_PIX_FMT_VAAPI_VLD => some ⟨8⟩
      | AV_PIX_FMT_VDPAU => some ⟨8⟩
      | _ => none
    avcodec_align_dimensions2 := fun _ w h =>
      (alignUp w 16, alignUp h 32, [16, 16, 16, 16, 0, 0, 0, 0])
    av_image_fill_linesizes := fun f w =>
      match f with
      | AV_PIX_FMT_YUV420P => [w, Int.tdiv (w + 1) 2, Int.tdiv (w + 1) 2, 0]
      | _ => [0, 0, 0, 0]
    FindVlcChroma := fun f =>
      match f with
      | AV_PIX_FMT_YUV420P => 1
      | _ => 0
    vlc_va_GetChroma := fun hw sw =>
      match hw, sw with
      | AV_PIX_FMT_D3D11VA_VLD, AV_PIX_FMT_YUV420P => 2
      | AV_PIX_FMT_DXVA2_VLD, AV_PIX_FMT_YUV420P => 2
      | AV_PIX_FMT_VAAPI_VLD, AV_PIX_FMT_YUV420P => 2
      | AV_PIX_FMT_VDPAU, AV_PIX_FMT_YUV420P => 2
      | _, _ => 0
    vlc_fourcc_GetChromaDescription := fun c =>
      if c = 1 ∨ c = 2 then some planar420 else none
    vlc_fourcc_IsYUV := fun c => decide (c = 1 ∨ c = 2)
    video_format_Init := fun _ c => { zeroFormat with i_chroma := c }
    createVA := fun _ f => create && decide (f = AV_PIX_FMT_VAAPI_VLD)
    va_open := fun _ _ => status
    getExtraInfoForRender := fun va => some va.id
    WIN32 := false
    HAVE_VDPAU := true
    THREAD_RESTRICTION := restricted }

/-- A codec context with the given coded and visible dimensions, profile 100,
level 40, no threading and unspecified colour properties. -/
def sampleCtx (coded_width coded_height width height : Int) : AVCodecContext :=
  { coded_width := coded_width, coded_height := coded_height, width := width, height := height
    profile := 100, level := 40, active_thread_type := 0, draw_horiz_band := some 1
    sample_aspect_ratio := ⟨1, 1⟩
    color_range := .AVCOL_RANGE_UNSPECIFIED, colorspace := .other 2
    color_trc := .other 2, color_primaries := .other 2
    chroma_sample_location := .other 0 }

/-- A decoder on which no format has been negotiated yet. -/
def freshDecoder (useHW : Bool) : SimpleDecoder :=
  { pix_fmt := AV_PIX_FMT_NONE, profile := 0, level := 0, width := 0, height := 0
    m_useHW := useHW, mVA := none, videoForamt := zeroFormat
    m_decodedFrame := none, m_outputFrame := none, vaLog := [], flushCount := 0
    m_codec := none, m_codecCont := none }

/-- A frame with the given picture and flags, no user pointer and empty
arrays. -/
def sampleFrame (payload : Nat) (decode_error_flags flags : Int) : AVFrame :=
  { payload := payload, decode_error_flags := decode_error_flags, flags := flags
    opaque_ptr := none
    data := List.replicate AV_NUM_DATA_POINTERS none
    linesize := List.replicate AV_NUM_DATA_POINTERS 0
    buf := List.replicate AV_NUM_DATA_POINTERS none }

/-- The candidate list of the scenarios: `[VAAPI_VLD, YUV420P]` and the
terminator. -/
def sampleFormats : List AVPixelFormat :=
  [AV_PIX_FMT_VAAPI_VLD, AV_PIX_FMT_YUV420P, AV_PIX_FMT_NONE]

/-- A decoder that has negotiated `AV_PIX_FMT_VAAPI_VLD` for a 1920x1088
stream of profile 100 and level 40 and holds the object number 0. -/
def hwDecoder (useHW : Bool) : SimpleDecoder :=
  { freshDecoder useHW with
    pix_fmt := AV_PIX_FMT_VAAPI_VLD
    profile := 100
    level := 40
    width := 1920
    height := 1088
    mVA := some { id := 0, fmt := AV_PIX_FMT_VAAPI_VLD }
    vaLog := [VAEvent.create 0, VAEvent.opening 0] }

/-- The environment in which `createVA` and `open` succeed for VAAPI. -/
def vaapiEngine : Engine := sampleEngine true 0 false

/-- The environment in which `createVA` returns `NULL`. -/
def noVaapiEngine : Engine := sampleEngine false 0 false

/-- The environment built against a codec library of the restricted version
range, `createVA` returning `NULL`. -/
def restrictedEngine : Engine := sampleEngine false 0 true

/-- A 1920x1080 stream coded as 1920x1088. -/
def hdCtx : AVCodecContext := sampleCtx 1920 1088 1920 1080

/-- A 1920x1080 stream whose coded width is reported as 0. -/
def zeroWidthCtx : AVCodecContext := sampleCtx 0 1088 1920 1080

/-- A run of three calls: a delivered frame, a frame with error flags and a
failure of the codec library. -/
def sampleRun : List ReceiveResult :=
  [⟨0, sampleFrame 7 0 0⟩, ⟨0, sampleFrame 8 1 0⟩, ⟨-11, sampleFrame 0 0 0⟩]

/-! ## The buffer callback, set-up and tear-down -/

/-- The two functions `lavc_GetFrame` delegates to:
`avcodec_default_get_buffer2(ctx, frame, flags)` and `va->getFrame(frame)`, each
giving its return value and the frame afterwards. -/
structure FrameEngine where
  avcodec_default_get_buffer2 : AVCodecContext → AVFrame → Int → Int × AVFrame
  va_getFrame : VA → AVFrame → Int × AVFrame

/-- The call `lavc_GetFrame` ends with. -/
inductive BufferCall where
  | engine_default
  | va_getFrame (id : Nat)
  deriving DecidableEq, Repr

/-- The body of the loop of lines 8-12 for the index `i`. -/
def resetEntry (frame : AVFrame) (i : Nat) : AVFrame :=
  { frame with
    data := frame.data.set i none
    linesize := frame.linesize.set i 0
    buf := frame.buf.set i none }

/-- Lines 8-13 of `lavc_GetFrame`. -/
def resetFrame (frame : AVFrame) : AVFrame :=
  let f := (List.range AV_NUM_DATA_POINTERS).foldl resetEntry frame
  { f with opaque_ptr := none }

/-- `SimpleDecoder::lavc_GetFrame`: the value returned, the frame afterwards and
the call it delegated to. -/
def lavc_GetFrame (B : FrameEngine) (s : SimpleDecoder) (ctx : AVCodecContext)
    (frame : AVFrame) (flags : Int) : Int × AVFrame × List BufferCall :=
  let f := resetFrame frame
  match s.mVA with
  | none =>
    ((B.avcodec_default_get_buffer2 ctx f flags).1, (B.avcodec_default_get_buffer2 ctx f flags).2,
      [BufferCall.engine_default])
  | some va => ((B.va_getFrame va f).1, (B.va_getFrame va f).2, [BufferCall.va_getFrame va.id])

/-- The library calls of `setupDecoder`: `avcodec_find_decoder(id)` (`none` for
`NULL`), `avcodec_alloc_context3(codec)` (the fresh context, `none` for `NULL`),
whether `av_mallocz(size)` returns a buffer, the status of
`avcodec_open2(ctx, codec, nullptr)`, what `av_frame_alloc()` returns, and the
constant `AV_INPUT_BUFFER_PADDING_SIZE`. -/
structure SetupEngine where
  avcodec_find_decoder : Nat → Option Nat
  avcodec_alloc_context3 : Nat → Option CodecContextSetup
  av_mallocz : Int → Bool
  avcodec_open2 : CodecContextSetup → Nat → Int
  av_frame_alloc : Option AVFrame
  AV_INPUT_BUFFER_PADDING_SIZE : Nat

/-- The context after lines 141-153 of `setupDecoder`, the extradata buffer
having been allocated: the first `extra_data_size` bytes of `extra_data`
followed by the zeroed padding. -/
def configuredContext (L : SetupEngine) (c : CodecContextSetup) (extra_data : List Nat)
    (extra_data_size : Int) : CodecContextSetup :=
  { c with
    get_format_installed := true
    get_buffer2_installed := true
    opaque_this := true
    thread_count := 1
    thread_safe_callbacks := true
    thread_type := 0
    refcounted_frames := some 1
    extradata := some (extra_data.take extra_data_size.toNat ++
      List.replicate L.AV_INPUT_BUFFER_PADDING_SIZE 0)
    extradata_size := extra_data_size }

/-- `SimpleDecoder::setupDecoder`.  The result of `av_mallocz` is not tested
before `memcpy` writes `extra_data_size` bytes through it: with a `NULL` buffer
or a negative size (a huge `size_t`) the behaviour is undefined, which is the
result `none`. -/
def setupDecoder (L : SetupEngine) (s : SimpleDecoder) (id : Nat) (extra_data : List Nat)
    (extra_data_size : Int) : Option (Bool × SimpleDecoder) :=
  match L.avcodec_find_decoder id with
  | none => some (false, { s with m_codec := none })
  | some codec =>
    match L.avcodec_alloc_context3 codec with
    | none => some (false, { s with m_codec := some codec, m_codecCont := none })
    | some c =>
      if L.av_mallocz (extra_data_size + L.AV_INPUT_BUFFER_PADDING_SIZE) = false ∨
          extra_data_size < 0 then none
      else if L.avcodec_open2 (configuredContext L c extra_data extra_data_size) codec < 0 then
        some (false,
          { s with
            m_codec := some codec
            m_codecCont := some (configuredContext L c extra_data extra_data_size) })
      else
        some (true,
          { s with
            m_codec := some codec
            m_codecCont := some (configuredContext L c extra_data extra_data_size)
            m_decodedFrame := L.av_frame_alloc })

/-- Lines 163-172 of `closeDecoder`: the codec context is closed and freed, the
codec forgotten and both frames freed. -/
def releaseCodec (s : SimpleDecoder) : SimpleDecoder :=
  { s with
    m_codecCont := none
    m_codec := none
    m_decodedFrame := none
    m_outputFrame := none }

/-- `SimpleDecoder::closeDecoder`. -/
def closeDecoder (s : SimpleDecoder) : SimpleDecoder :=
  close_va_decoder (releaseCodec s)

/-! ### Sequences of calls -/

/-- A call that touches the `VideoAcceleration` object of the decoder; the
format callback comes with the environment and arguments of that call, so that
`createVA` and `open` may answer differently from call to call. -/
inductive DecoderCall where
  | getFormat (E : Engine) (fuel : Nat) (ctx : AVCodecContext) (pi_fmt : List AVPixelFormat)
  | close_va
  | closeDecoder

/-- The decoder after one call (`none` when the call does not return). -/
def callStep (s : SimpleDecoder) : DecoderCall → Option SimpleDecoder
  | DecoderCall.getFormat E fuel ctx pi_fmt =>
    (ffmpeg_GetFormat E fuel s ctx pi_fmt).map (fun r => r.2.1)
  | DecoderCall.close_va => some (close_va_decoder s)
  | DecoderCall.closeDecoder => some (closeDecoder s)

/-- The decoder after a sequence of calls. -/
def callRun (s : SimpleDecoder) : List DecoderCall → Option SimpleDecoder
  | [] => some s
  | c :: rest =>
    match callStep s c with
    | none => none
    | some s1 => callRun s1 rest

/-- The effect of one event on the list of live objects. -/
def liveStep (live : List Nat) : VAEvent → List Nat
  | VAEvent.create id => live ++ [id]
  | VAEvent.delete id => live.filter (fun j => decide (j ≠ id))
  | VAEvent.opening _ => live
  | VAEvent.close _ => live

/-- The objects created and not deleted since, in order of creation. -/
def liveVAs (log : List VAEvent) : List Nat :=
  log.foldl liveStep []

/-- The object the decoder holds in `mVA`, as a list. -/
def held (s : SimpleDecoder) : List Nat :=
  match s.mVA with
  | none => []
  | some va => [va.id]

/-- The events of a `close_va_decoder` call on an object. -/
def closeEvents (va : VA) : List VAEvent :=
  [VAEvent.close va.id, VAEvent.delete va.id]

/-- The events `close_va_decoder` adds to the log. -/
def closeLog (s : SimpleDecoder) : List VAEvent :=
  match s.mVA with
  | none => []
  | some va => closeEvents va

/-- Starting with the objects `live`, at most one object is live after each
of the events. -/
def orderly (live : List Nat) : List VAEvent → Bool
  | [] => true
  | e :: rest => decide ((liveStep live e).length ≤ 1) && orderly (liveStep live e) rest

/-- The events `evs` take the live objects from `live` to `live1` with at most
one object live after each event. -/
def Settles (live : List Nat) (evs : List VAEvent) (live1 : List Nat) : Prop :=
  orderly live evs = true ∧ evs.foldl liveStep live = live1

/-! ### The colour tables of the specification -/

/-- The row `space` of the mapping table of the specification; codec values
that are not listed give `unspecified`. -/
def table_space : AVColorSpace → video_color_space_t
  | .AVCOL_SPC_BT709 => .COLOR_SPACE_BT709
  | .AVCOL_SPC_SMPTE170M => .COLOR_SPACE_BT601
  | .AVCOL_SPC_BT470BG => .COLOR_SPACE_BT601
  | .AVCOL_SPC_BT2020_NCL => .COLOR_SPACE_BT2020
  | .AVCOL_SPC_BT2020_CL => .COLOR_SPACE_BT2020
  | .other _ => .COLOR_SPACE_UNDEF

/-- The rows `trc` of the mapping table of the specification. -/
def table_transfer : AVColorTransferCharacteristic → video_transfer_func_t
  | .AVCOL_TRC_LINEAR => .TRANSFER_FUNC_LINEAR
  | .AVCOL_TRC_GAMMA22 => .TRANSFER_FUNC_SRGB
  | .AVCOL_TRC_BT709 => .TRANSFER_FUNC_BT709
  | .AVCOL_TRC_SMPTE170M => .TRANSFER_FUNC_BT2020
  | .AVCOL_TRC_BT2020_10 => .TRANSFER_FUNC_BT2020
  | .AVCOL_TRC_BT2020_12 => .TRANSFER_FUNC_BT2020
  | .AVCOL_TRC_ARIB_STD_B67 => .TRANSFER_FUNC_ARIB_B67
  | .AVCOL_TRC_SMPTE2084 => .TRANSFER_FUNC_SMPTE_ST2084
  | .AVCOL_TRC_SMPTE240M => .TRANSFER_FUNC_SMPTE_240
  | .AVCOL_TRC_GAMMA28 => .TRANSFER_FUNC_BT470_BG
  | .other _ => .TRANSFER_FUNC_UNDEF

/-- The rows `primaries` of the mapping table of the specification. -/
def table_primaries : AVColorPrimaries → video_color_primaries_t
  | .AVCOL_PRI_BT709 => .COLOR_PRIMARIES_BT709
  | .AVCOL_PRI_BT470BG => .COLOR_PRIMARIES_BT601_625
  | .AVCOL_PRI_SMPTE170M => .COLOR_PRIMARIES_BT601_525
  | .AVCOL_PRI_SMPTE240M => .COLOR_PRIMARIES_BT601_525
  | .AVCOL_PRI_BT2020 => .COLOR_PRIMARIES_BT2020
  | .other _ => .COLOR_PRIMARIES_UNDEF

/-- The row `chroma` of the mapping table of the specification. -/
def table_chroma_location : AVChromaLocation → video_chroma_location_t
  | .AVCHROMA_LOC_LEFT => .CHROMA_LOCATION_LEFT
  | .AVCHROMA_LOC_CENTER => .CHROMA_LOCATION_CENTER
  | .AVCHROMA_LOC_TOPLEFT => .CHROMA_LOCATION_TOP_LEFT
  | .other _ => .CHROMA_LOCATION_UNDEF

/-- The colour range of the specification: full for JPEG, and for an
unspecified range when the chroma is not a YUV chroma. -/
def table_range_full (E : Engine) (range : AVColorRange) (chroma : Nat) : Bool :=
  decide (range = .AVCOL_RANGE_JPEG) ||
    (decide (range = .AVCOL_RANGE_UNSPECIFIED) && !E.vlc_fourcc_IsYUV chroma)

/-- The colour properties of a format. -/
def colour (f : video_format_t) :
    video_color_space_t × video_transfer_func_t × video_color_primaries_t ×
      video_chroma_location_t :=
  (f.space, f.transfer, f.primaries, f.chroma_location)

/-- What `getVideoFormat` relies on `video_format_Init` for: the initialised
format carries the `unspecified` colour properties (the function clears the
whole structure before it stores the chroma). -/
def InitClearsColour (E : Engine) : Prop :=
  ∀ f c, colour (E.video_format_Init f c) =
    (.COLOR_SPACE_UNDEF, .TRANSFER_FUNC_UNDEF, .COLOR_PRIMARIES_UNDEF, .CHROMA_LOCATION_UNDEF)

/-! ### Further sample values -/

/-- The stream of `hdCtx` signalled as full-range BT.709 with left-sited
chroma. -/
def bt709Ctx : AVCodecContext :=
  { hdCtx with
    color_range := .AVCOL_RANGE_JPEG
    colorspace := .AVCOL_SPC_BT709
    color_trc := .AVCOL_TRC_BT709
    color_primaries := .AVCOL_PRI_BT709
    chroma_sample_location := .AVCHROMA_LOC_LEFT }

/-- The stream of `hdCtx` with an unknown sample aspect ratio, reported as
`0/1`. -/
def unknownSarCtx : AVCodecContext :=
  { hdCtx with sample_aspect_ratio := ⟨0, 1⟩ }

/-- A frame whose arrays hold stale pointers and sizes. -/
def staleFrame : AVFrame :=
  { payload := 3, decode_error_flags := 0, flags := 0
    opaque_ptr := some (FrameRef.foreign 9)
    data := [some 1, some 2, some 3, none, none, none, none, none]
    linesize := [1920, 960, 960, 0, 0, 0, 0, 0]
    buf := [some 4, some 5, some 6, none, none, none, none, none] }

/-- Buffer functions that succeed: the default allocator stores the buffer 10
in plane 0 and returns 0, the hardware object stores its own identity and
returns `VLC_SUCCESS`. -/
def sampleFrameEngine : FrameEngine :=
  { avcodec_default_get_buffer2 := fun _ f _ => (0, { f with data := f.data.set 0 (some 10) })
    va_getFrame := fun va f => (VLC_SUCCESS, { f with data := f.data.set 0 (some (100 + va.id)) }) }

/-- A context as `avcodec_alloc_context3` returns it. -/
def blankContext : CodecContextSetup :=
  { get_format_installed := false, get_buffer2_installed := false, opaque_this := false
    thread_count := 0, thread_safe_callbacks := false, thread_type := 3
    refcounted_frames := none, extradata := none, extradata_size := 0 }

/-- A codec library that knows the codec 27 only; `frame` tells whether
`av_frame_alloc` succeeds, `status` is what `avcodec_open2` returns. -/
def sampleSetupEngine (frame : Bool) (status : Int) : SetupEngine :=
  { avcodec_find_decoder := fun id => if id = 27 then some 1 else none
    avcodec_alloc_context3 := fun _ => some blankContext
    av_mallocz := fun _ => true
    avcodec_open2 := fun _ _ => status
    av_frame_alloc := if frame then some (sampleFrame 0 0 0) else none
    AV_INPUT_BUFFER_PADDING_SIZE := 64 }

/-- A session: a negotiation that opens VAAPI, a second one on the same stream,
a renegotiation for a library in which `createVA` fails, a negotiation that
opens VAAPI again, and the tear-down. -/
def sampleCalls : List DecoderCall :=
  [DecoderCall.getFormat vaapiEngine 4 hdCtx sampleFormats,
    DecoderCall.getFormat vaapiEngine 4 hdCtx sampleFormats,
    DecoderCall.getFormat noVaapiEngine 4 (sampleCtx 1280 720 1280 720) sampleFormats,
    DecoderCall.getFormat vaapiEngine 4 hdCtx sampleFormats,
    DecoderCall.closeDecoder]


/-! ## The pixel-format catalogue

`VideoFormat.h` declares the enumeration and the two conversion functions;
their table and bodies are in a file that is not among the translated sources,
so the functions are written after the specification, over the catalogue as a
parameter. -/

/-- The members of `enum VideoFormat::PixelFormat`, in the order of the
header (`Format_Invalid` is -1, the others count up from 0). -/
inductive PixelFormat where
  | Format_Invalid
  | Format_ARGB32
  | Format_BGRA32
  | Format_ABGR32
  | Format_RGBA32
  | Format_RGB32
  | Format_BGR32
  | Format_RGB24
  | Format_BGR24
  | Format_RGB565
  | Format_BGR565
  | Format_RGB555
  | Format_BGR555
  | Format_AYUV444
  | Format_YUV444P
  | Format_YUV422P
  | Format_YUV420P
  | Format_YUV411P
  | Format_YUV410P
  | Format_YV12
  | Format_UYVY
  | Format_VYUY
  | Format_YUYV
  | Format_YVYU
  | Format_NV12
  | Format_NV21
  | Format_IMC1
  | Format_IMC2
  | Format_IMC3
  | Format_IMC4
  | Format_Y8
  | Format_Y16
  | Format_Jpeg
  | Format_YUV420P9LE
  | Format_YUV422P9LE
  | Format_YUV444P9LE
  | Format_YUV420P10LE
  | Format_YUV422P10LE
  | Format_YUV444P10LE
  | Format_YUV420P12LE
  | Format_YUV422P12LE
  | Format_YUV444P12LE
  | Format_YUV420P14LE
  | Format_YUV422P14LE
  | Format_YUV444P14LE
  | Format_YUV420P16LE
  | Format_YUV422P16LE
  | Format_YUV444P16LE
  | Format_YUV420P9BE
  | Format_YUV422P9BE
  | Format_YUV444P9BE
  | Format_YUV420P10BE
  | Format_YUV422P10BE
  | Format_YUV444P10BE
  | Format_YUV420P12BE
  | Format_YUV422P12BE
  | Format_YUV444P12BE
  | Format_YUV420P14BE
  | Format_YUV422P14BE
  | Format_YUV444P14BE
  | Format_YUV420P16BE
  | Format_YUV422P16BE
  | Format_YUV444P16BE
  | Format_RGB48
  | Format_RGB48LE
  | Format_RGB48BE
  | Format_BGR48
  | Format_BGR48LE
  | Format_BGR48BE
  | Format_RGBA64
  | Format_RGBA64LE
  | Format_RGBA64BE
  | Format_BGRA64
  | Format_BGRA64LE
  | Format_BGRA64BE
  | Format_VYU
  | Format_XYZ12
  | Format_XYZ12LE
  | Format_XYZ12BE
  | Format_User
  deriving DecidableEq, Repr

/-- Modelled from the spec: `to_native`, the codec-engine-native integer tag of
the first catalogue entry for `fmt`, and -1 (no native tag) for a format
without an entry.  The catalogue lists the formats with a codec-engine mapping
next to their native tags. -/
def pixelFormatToFFmpeg (catalogue : List (PixelFormat × Int)) (fmt : PixelFormat) : Int :=
  match catalogue.find? (fun e => decide (e.1 = fmt)) with
  | some e => e.2
  | none => -1

/-- Modelled from the spec: `from_native`, the format of the first catalogue
entry that carries the native tag `ff`; a tag without an entry gives
`Format_Invalid`. -/
def pixelFormatFromFFmpeg (catalogue : List (PixelFormat × Int)) (ff : Int) : PixelFormat :=
  match catalogue.find? (fun e => decide (e.2 = ff)) with
  | some e => e.1
  | none => PixelFormat.Format_Invalid

/-- A catalogue of three formats with three native tags. -/
def sampleCatalogue : List (PixelFormat × Int) :=
  [(PixelFormat.Format_YUV420P, 0), (PixelFormat.Format_RGB24, 2),
    (PixelFormat.Format_BGRA32, 28)]


/-! ## The hand-off of the output frame between the two threads

`getDecodedFrame` runs on the decode thread and `renderFrame` on the render
thread; both take `m_frameMutex` through a `std::lock_guard`.  The statements
of either function are the steps of its thread, and a schedule picks the thread
that moves next. -/

/-- The two threads. -/
inductive ThreadId where
  | decodeThread
  | renderThread
  deriving DecidableEq, Repr

/-- Where the decode thread stands in `getDecodedFrame`: between two calls;
after line 369, with the outcome of `avcodec_receive_frame`; after each of the
lines 372 (lock taken), 373 and 374 of the end-of-stream branch; after each of
the lines 383 (lock taken), 385, 386 and 387 of the publishing block. -/
inductive DecodePc where
  | idle
  | received (r : ReceiveResult)
  | eofLocked (r : ReceiveResult)
  | eofFreed (r : ReceiveResult)
  | eofFlushed (r : ReceiveResult)
  | pubLocked (r : ReceiveResult)
  | pubFreed (r : ReceiveResult)
  | pubCloned (r : ReceiveResult)
  | pubStamped (r : ReceiveResult)
  deriving DecidableEq, Repr

/-- Where the render thread stands in `renderFrame`: outside the function, or
inside the callback of line 364, which was handed the value `frame` of
`m_outputFrame`. -/
inductive RenderPc where
  | idle
  | inCallback (frame : Option AVFrame)
  deriving DecidableEq, Repr

/-- The state the two threads share, with two ghost fields: `history`, the
outcomes of `avcodec_receive_frame` so far, and `seen`, what the callback read
from the output slot so far. -/
structure Handoff where
  m_outputFrame : Option AVFrame
  m_frameMutex : Option ThreadId
  decode : DecodePc
  render : RenderPc
  history : List ReceiveResult
  seen : List (Option AVFrame)
  deriving DecidableEq, Repr

/-- One move of a schedule: the decode thread calls `avcodec_receive_frame`,
which answers `r`; the decode thread executes its next statement; the render
thread takes the lock and calls the callback; the callback reads the frame; the
callback returns and the lock is released. -/
inductive Move where
  | receive (r : ReceiveResult)
  | decodeStep
  | renderEnter
  | renderRead
  | renderExit
  deriving DecidableEq, Repr

/-- The constructor of `std::lock_guard` for the thread `t`: it goes through
only when the mutex is free. -/
def lockFor (s : Handoff) (t : ThreadId) : Option Handoff :=
  match s.m_frameMutex with
  | none => some { s with m_frameMutex := some t }
  | some _ => none

/-- The next statement of `getDecodedFrame` on the decode thread (`none` when
the thread is between two calls or waits for the mutex, or when line 387 writes
through a `NULL` clone). -/
def decodeStep (s : Handoff) : Option Handoff :=
  match s.decode with
  | DecodePc.idle => none
  | DecodePc.received r =>
    if r.ret < 0 then
      if r.ret = AVERROR_EOF then
        (lockFor s ThreadId.decodeThread).map (fun t => { t with decode := DecodePc.eofLocked r })
      else some { s with decode := DecodePc.idle }
    else if r.frame.decode_error_flags ≠ 0 ∨ r.frame.flags ≠ 0 then
      some { s with decode := DecodePc.idle }
    else
      (lockFor s ThreadId.decodeThread).map (fun t => { t with decode := DecodePc.pubLocked r })
  | DecodePc.eofLocked r => some { s with m_outputFrame := none, decode := DecodePc.eofFreed r }
  | DecodePc.eofFreed r => some { s with decode := DecodePc.eofFlushed r }
  | DecodePc.eofFlushed _ => some { s with m_frameMutex := none, decode := DecodePc.idle }
  | DecodePc.pubLocked r => some { s with m_outputFrame := none, decode := DecodePc.pubFreed r }
  | DecodePc.pubFreed r =>
    some { s with m_outputFrame := some (av_frame_clone r.frame), decode := DecodePc.pubCloned r }
  | DecodePc.pubCloned r =>
    match s.m_outputFrame with
    | none => none
    | some f =>
      some { s with
        m_outputFrame := some { f with opaque_ptr := some FrameRef.videoForamt }
        decode := DecodePc.pubStamped r }
  | DecodePc.pubStamped _ => some { s with m_frameMutex := none, decode := DecodePc.idle }

/-- One move of a schedule (`none` when the thread cannot make it). -/
def step (s : Handoff) : Move → Option Handoff
  | Move.receive r =>
    match s.decode with
    | DecodePc.idle => some { s with decode := DecodePc.received r, history := s.history ++ [r] }
    | _ => none
  | Move.decodeStep => decodeStep s
  | Move.renderEnter =>
    match s.render with
    | RenderPc.idle =>
      (lockFor s ThreadId.renderThread).map
        (fun t => { t with render := RenderPc.inCallback s.m_outputFrame })
    | RenderPc.inCallback _ => none
  | Move.renderRead =>
    match s.render with
    | RenderPc.idle => none
    | RenderPc.inCallback _ => some { s with seen := s.seen ++ [s.m_outputFrame] }
  | Move.renderExit =>
    match s.render with
    | RenderPc.idle => none
    | RenderPc.inCallback _ => some { s with m_frameMutex := none, render := RenderPc.idle }

/-- The state after a schedule. -/
def interleave (s : Handoff) : List Move → Option Handoff
  | [] => some s
  | m :: rest =>
    match step s m with
    | none => none
    | some s1 => interleave s1 rest

/-- Both threads outside their functions, the mutex free and the slot holding
`out`. -/
def restingHandoff (out : Option AVFrame) : Handoff :=
  { m_outputFrame := out, m_frameMutex := none, decode := DecodePc.idle
    render := RenderPc.idle, history := [], seen := [] }

/-- Whether the decode thread is between a lock and the matching unlock. -/
def decodeHolds : DecodePc → Bool
  | DecodePc.idle => false
  | DecodePc.received _ => false
  | _ => true

/-- The slot is empty or holds the published clone of a frame that
`avcodec_receive_frame` delivered. -/
def Whole (history : List ReceiveResult) (o : Option AVFrame) : Prop :=
  o = none ∨ ∃ r, r ∈ history ∧ delivered r = true ∧ o = some (published r.frame)

/-- What the position of the decode thread says about the slot and about the
outcome it works on. -/
def DecodeFacts (s : Handoff) : Prop :=
  match s.decode with
  | DecodePc.idle => Whole s.history s.m_outputFrame
  | DecodePc.received r => Whole s.history s.m_outputFrame ∧ r ∈ s.history
  | DecodePc.eofLocked _ => Whole s.history s.m_outputFrame
  | DecodePc.eofFreed _ => s.m_outputFrame = none
  | DecodePc.eofFlushed _ => s.m_outputFrame = none
  | DecodePc.pubLocked r =>
    Whole s.history s.m_outputFrame ∧ r ∈ s.history ∧ delivered r = true
  | DecodePc.pubFreed r => s.m_outputFrame = none ∧ r ∈ s.history ∧ delivered r = true
  | DecodePc.pubCloned r =>
    s.m_outputFrame = some (av_frame_clone r.frame) ∧ r ∈ s.history ∧ delivered r = true
  | DecodePc.pubStamped r =>
    s.m_outputFrame = some (published r.frame) ∧ r ∈ s.history ∧ delivered r = true

/-- The invariant of the hand-off: the mutex is held by the decode thread
exactly inside its two critical sections and by the render thread exactly
inside the callback, the slot is as the position of the decode thread says,
the callback still has the frame it was handed, and all it has read was
whole. -/
def HandoffInv (s : Handoff) : Prop :=
  (decodeHolds s.decode = true ↔ s.m_frameMutex = some ThreadId.decodeThread) ∧
    ((∃ a, s.render = RenderPc.inCallback a) ↔ s.m_frameMutex = some ThreadId.renderThread) ∧
    DecodeFacts s ∧
    (∀ a, s.render = RenderPc.inCallback a → s.m_outputFrame = a) ∧
    (∀ o, o ∈ s.seen → Whole s.history o)

/-- The moves of one `getDecodedFrame` call that nothing interrupts. -/
def decodeMoves (r : ReceiveResult) : List Move :=
  Move.receive r ::
    (if r.ret < 0 then
      if r.ret = AVERROR_EOF then List.replicate 4 Move.decodeStep else [Move.decodeStep]
    else if r.frame.decode_error_flags ≠ 0 ∨ r.frame.flags ≠ 0 then [Move.decodeStep]
    else List.replicate 5 Move.decodeStep)

/-- A schedule in which the decode thread publishes the frame 7 and the
callback then runs and reads the slot while the decode thread has received the
frame 8. -/
def sampleSchedule : List Move :=
  [Move.receive ⟨0, sampleFrame 7 0 0⟩, Move.decodeStep, Move.decodeStep, Move.decodeStep,
    Move.decodeStep, Move.decodeStep, Move.renderEnter, Move.receive ⟨0, sampleFrame 8 0 0⟩,
    Move.renderRead, Move.renderExit]

/-! ## The width-growing loop and the pitch of a plane -/

/-- The value of `width` after `k` executions of line 219, when each of them
is defined. -/
def widthAfter : Nat → Int → Option Int
  | 0, width => some width
  | k + 1, width =>
    match growWidth width with
    | none => none
    | some width1 => widthAfter k width1

/-- A `QPoint`, with its coordinates `x()` and `y()`. -/
structure QPoint where
  x : Int
  y : Int
  deriving DecidableEq, Repr

/-- The members of a `QRect`: the left, top, right and bottom edge, all
inclusive. -/
structure QRect where
  x1 : Int
  y1 : Int
  x2 : Int
  y2 : Int
  deriving DecidableEq, Repr

/-- What `qrect.cpp` uses of `qrect.h`, a header outside the translated
sources: the member function `isNull()` and the rectangle that the default
constructor `QRect()` builds. -/
structure QRectHeader where
  isNull : QRect → Bool
  defaultRect : QRect

/-- The conventions of Qt for the two: a rectangle is null when its right edge
is `x1 - 1` and its bottom edge is `y1 - 1`, and `QRect()` is `(0, 0, -1, -1)`. -/
def QtConventions (H : QRectHeader) : Prop :=
  (∀ r : QRect, H.isNull r = true ↔ (r.x2 = r.x1 - 1 ∧ r.y2 = r.y1 - 1)) ∧
    H.defaultRect = { x1 := 0, y1 := 0, x2 := -1, y2 := -1 }

/-- `QRect::normalized`. -/
def QRect.normalized (r : QRect) : QRect :=
  let xs : Int × Int := if r.x2 < r.x1 - 1 then (r.x2, r.x1) else (r.x1, r.x2)
  let ys : Int × Int := if r.y2 < r.y1 - 1 then (r.y2, r.y1) else (r.y1, r.y2)
  { x1 := xs.1, x2 := xs.2, y1 := ys.1, y2 := ys.2 }

/-- `QRect::contains(const QPoint &, bool)`. -/
def QRect.contains (r : QRect) (p : QPoint) (proper : Bool) : Bool :=
  let lr : Int × Int := if r.x2 < r.x1 - 1 then (r.x2, r.x1) else (r.x1, r.x2)
  if (if proper then decide (p.x ≤ lr.1 ∨ p.x ≥ lr.2)
      else decide (p.x < lr.1 ∨ p.x > lr.2)) then false
  else
    let tb : Int × Int := if r.y2 < r.y1 - 1 then (r.y2, r.y1) else (r.y1, r.y2)
    if (if proper then decide (p.y ≤ tb.1 ∨ p.y ≥ tb.2)
        else decide (p.y < tb.1 ∨ p.y > tb.2)) then false
    else true

/-- The block `int l1 = x1; int r1 = x1; if (x2 - x1 + 1 < 0) l1 = x2; else
r1 = x2;` that the four functions below repeat for each rectangle and axis:
the pair `(l1, r1)`. -/
def span (a b : Int) : Int × Int :=
  if b - a + 1 < 0 then (b, a) else (a, b)

/-- `QRect::contains(const QRect &, bool)`. -/
def QRect.containsRect (H : QRectHeader) (a r : QRect) (proper : Bool) : Bool :=
  if H.isNull a || H.isNull r then false
  else
    let h1 := span a.x1 a.x2
    let h2 := span r.x1 r.x2
    if (if proper then decide (h2.1 ≤ h1.1 ∨ h2.2 ≥ h1.2)
        else decide (h2.1 < h1.1 ∨ h2.2 > h1.2)) then false
    else
      let v1 := span a.y1 a.y2
      let v2 := span r.y1 r.y2
      if (if proper then decide (v2.1 ≤ v1.1 ∨ v2.2 ≥ v1.2)
          else decide (v2.1 < v1.1 ∨ v2.2 > v1.2)) then false
      else true

/-- `QRect::operator|`. -/
def QRect.operator_or (H : QRectHeader) (a r : QRect) : QRect :=
  if H.isNull a then r
  else if H.isNull r then a
  else
    let h1 := span a.x1 a.x2
    let h2 := span r.x1 r.x2
    let v1 := span a.y1 a.y2
    let v2 := span r.y1 r.y2
    { x1 := min h1.1 h2.1, x2 := max h1.2 h2.2, y1 := min v1.1 v2.1, y2 := max v1.2 v2.2 }

/-- `QRect::operator&`. -/
def QRect.operator_and (H : QRectHeader) (a r : QRect) : QRect :=
  if H.isNull a || H.isNull r then H.defaultRect
  else
    let h1 := span a.x1 a.x2
    let h2 := span r.x1 r.x2
    if h1.1 > h2.2 ∨ h2.1 > h1.2 then H.defaultRect
    else
      let v1 := span a.y1 a.y2
      let v2 := span r.y1 r.y2
      if v1.1 > v2.2 ∨ v2.1 > v1.2 then H.defaultRect
      else
        { x1 := max h1.1 h2.1, x2 := min h1.2 h2.2, y1 := max v1.1 v2.1, y2 := min v1.2 v2.2 }

/-- `QRect::intersects`. -/
def QRect.intersects (H : QRectHeader) (a r : QRect) : Bool :=
  if H.isNull a || H.isNull r then false
  else
    let h1 := span a.x1 a.x2
    let h2 := span r.x1 r.x2
    if h1.1 > h2.2 ∨ h2.1 > h1.2 then false
    else
      let v1 := span a.y1 a.y2
      let v2 := span r.y1 r.y2
      if v1.1 > v2.2 ∨ v2.1 > v1.2 then false
      else true

/-- The header of Qt. -/
def qtHeader : QRectHeader :=
  { isNull := fun r => decide (r.x2 = r.x1 - 1 ∧ r.y2 = r.y1 - 1)
    defaultRect := { x1 := 0, y1 := 0, x2 := -1, y2 := -1 } }

/-- The rectangle with corners (0, 0) and (9, 9). -/
def squareRect : QRect := { x1 := 0, y1 := 0, x2 := 9, y2 := 9 }

/-- A rectangle stored with its horizontal edges swapped: `x1 = 14`, `x2 = 5`
(width -8), rows 5 to 14.  It covers the columns 5 to 14. -/
def swappedRect : QRect := { x1 := 14, y1 := 5, x2 := 5, y2 := 14 }

/-! ## The shader cache

`VideoShader.h` declares `ShaderManager` with its member `shader_cache`; the
body of `prepareMaterial` is in a file outside the translated sources, so the
function is written after the specification. -/

/-- `ShaderManager`: the member `shader_cache`, a `std::map<int, VideoShader *>`
given by its entries (key, object), and the ghost field `created`, the number
of `VideoShader` objects created so far; objects are numbered in the order of
their creation. -/
structure ShaderManager where
  shader_cache : List (Int × Nat)
  created : Nat
  deriving DecidableEq, Repr

/-- The look-up of a key in the map. -/
def cacheFind (type : Int) : List (Int × Nat) → Option Nat
  | [] => none
  | (k, v) :: rest => if k = type then some v else cacheFind type rest

/-- Modelled from the spec: the effective type of a `prepareMaterial` call, the
override `materialType` when it is not -1 and the type of the material
otherwise. -/
def effectiveType (material_type materialType : Int) : Int :=
  if materialType ≠ -1 then materialType else material_type

/-- Modelled from the spec: `ShaderManager::prepareMaterial`, for a material
whose `type()` is `material_type`.  The cache is looked up by the effective
type; on a miss a new `VideoShader` is created and inserted.  The result is the
shader returned and the manager afterwards. -/
def prepareMaterial (m : ShaderManager) (material_type materialType : Int) :
    Nat × ShaderManager :=
  match cacheFind (effectiveType material_type materialType) m.shader_cache with
  | some shader => (shader, m)
  | none =>
    (m.created,
      { shader_cache :=
          (effectiveType material_type materialType, m.created) :: m.shader_cache
        created := m.created + 1 })

/-- A sequence of `prepareMaterial` calls, each given by the type of its
material and its override: the shaders returned and the manager afterwards. -/
def prepareRun (m : ShaderManager) : List (Int × Int) → List Nat × ShaderManager
  | [] => ([], m)
  | c :: rest =>
    ((prepareMaterial m c.1 c.2).1 :: (prepareRun (prepareMaterial m c.1 c.2).2 rest).1,
      (prepareRun (prepareMaterial m c.1 c.2).2 rest).2)

/-- A manager with an empty cache. -/
def emptyManager : ShaderManager := { shader_cache := [], created := 0 }

/-- The invariant of the cache: keys and objects are pairwise distinct and the
cache holds every object created. -/
def CacheInv (m : ShaderManager) : Prop :=
  (m.shader_cache.map Prod.fst).Nodup ∧ (m.shader_cache.map Prod.snd).Nodup ∧
    (∀ e, e ∈ m.shader_cache → e.2 < m.created) ∧ m.created = m.shader_cache.length

/-- Four calls: materials of type 3 and 5, a material of type 9 drawn with the
override 3, and a material of type 5 again. -/
def sampleRequests : List (Int × Int) :=
  [(3, -1), (5, -1), (9, 3), (5, -1)]

/-! ## Facts about `getVideoFormat` -/

theorem geometry_map_color_range (E : Engine) (ctx : AVCodecContext) (f : video_format_t) :
    geometry (map_color_range E ctx f) = geometry f := by
  unfold map_color_range; split <;> rfl

theorem geometry_map_colorspace (ctx : AVCodecContext) (f : video_format_t) :
    geometry (map_colorspace ctx f) = geometry f := by
  unfold map_colorspace; split <;> rfl

theorem geometry_map_color_trc (ctx : AVCodecContext) (f : video_format_t) :
    geometry (map_color_trc ctx f) = geometry f := by
  unfold map_color_trc; split <;> rfl

theorem geometry_map_color_primaries (ctx : AVCodecContext) (f : video_format_t) :
    geometry (map_color_primaries ctx f) = geometry f := by
  unfold map_color_primaries; split <;> rfl

theorem geometry_map_chroma_location (ctx : AVCodecContext) (f : video_format_t) :
    geometry (map_chroma_location ctx f) = geometry f := by
  unfold map_chroma_location; split <;> rfl

theorem geometry_finishFormat (E : Engine) (mVA : Option VA) (ctx : AVCodecContext)
    (f : video_format_t) (p_dsc : vlc_chroma_description_t) (tw : Int) (planes : List plane_t) :
    geometry (finishFormat E mVA ctx f p_dsc tw planes) =
      (f.i_chroma, tw, ctx.coded_height, ctx.width, ctx.height,
        (if ctx.sample_aspect_ratio.num = 0 ∨ ctx.sample_aspect_ratio.den = 0 then 1
          else ctx.sample_aspect_ratio.num),
        (if ctx.sample_aspect_ratio.num = 0 ∨ ctx.sample_aspect_ratio.den = 0 then 1
          else ctx.sample_aspect_ratio.den),
        planes ++ f.plane.drop p_dsc.plane_count, p_dsc.plane_count) := by
  have key : ∀ g : video_format_t,
      geometry (match mVA with
        | some va => { g with extra_info := E.getExtraInfoForRender va }
        | none => g) = geometry g := by
    intro g; cases mVA <;> rfl
  unfold finishFormat
  simp only []
  rw [key, geometry_map_chroma_location, geometry_map_color_primaries, geometry_map_color_trc,
    geometry_map_colorspace, geometry_map_color_range]
  by_cases h : ctx.sample_aspect_ratio.num = 0 ∨ ctx.sample_aspect_ratio.den = 0
  · simp [geometry, h]
  · simp [geometry, h]


theorem getVideoFormat_ok_inv (E : Engine) (fuel : Nat) (s s1 : SimpleDecoder)
    (ctx : AVCodecContext) (pix_fmt sw_pix_fmt : AVPixelFormat)
    (h : getVideoFormat E fuel s ctx pix_fmt sw_pix_fmt = some (GVFStatus.ok, s1)) :
    ∃ p_dsc tw planes,
      invalidDisplaySize ctx (validatedDims E ctx (decide (pix_fmt = sw_pix_fmt))).1
        (validatedDims E ctx (decide (pix_fmt = sw_pix_fmt))).2.1 = false ∧
      E.vlc_fourcc_GetChromaDescription
        (selectedChroma E (decide (pix_fmt = sw_pix_fmt)) pix_fmt sw_pix_fmt) = some p_dsc ∧
      alignedWidth E fuel ctx (decide (pix_fmt = sw_pix_fmt)) sw_pix_fmt
        (validatedDims E ctx (decide (pix_fmt = sw_pix_fmt))).1
        (validatedDims E ctx (decide (pix_fmt = sw_pix_fmt))).2.2 p_dsc = some tw ∧
      fillPlanes p_dsc tw ctx.coded_height 0 ctx.width ctx.height
        (List.range p_dsc.plane_count) = some planes ∧
      s1 = { s with videoForamt :=
        finishFormat E s.mVA ctx (initialFormat E s pix_fmt sw_pix_fmt) p_dsc tw planes } := by
  unfold getVideoFormat at h
  simp only [] at h
  split at h
  · simp at h
  · rename_i hinv
    split at h
    · simp at h
    · rename_i p_dsc hd
      split at h
      · simp at h
      · rename_i tw htw
        split at h
        · simp at h
        · rename_i planes hp
          refine ⟨p_dsc, tw, planes, by simpa using hinv, hd, htw, hp, ?_⟩
          simp only [Option.some.injEq, Prod.mk.injEq, true_and] at h
          exact h.symm

theorem fillPlanes_getElem (p_dsc : vlc_chroma_description_t) (tw ha hx vw vh : Int) :
    ∀ (idxs : List Nat) (pls : List plane_t),
      fillPlanes p_dsc tw ha hx vw vh idxs = some pls →
      ∀ k i : Nat, idxs[k]? = some i →
        ∃ cp pl, p_dsc.p[i]? = some cp ∧ fillPlane p_dsc cp tw ha hx vw vh = some pl ∧
          pls[k]? = some pl := by
  intro idxs
  induction idxs with
  | nil => intro pls _ k i hk; simp at hk
  | cons j rest ih =>
    intro pls h k i hk
    unfold fillPlanes at h
    split at h
    · simp at h
    · rename_i cp hcp
      split at h
      · simp at h
      · rename_i pl hpl
        split at h
        · simp at h
        · rename_i pls1 hrest
          simp only [Option.some.injEq] at h
          subst h
          cases k with
          | zero =>
            simp only [List.getElem?_cons_zero, Option.some.injEq] at hk
            subst hk
            exact ⟨cp, pl, hcp, hpl, by simp⟩
          | succ k =>
            simp only [List.getElem?_cons_succ] at hk
            obtain ⟨cp1, pl1, h1, h2, h3⟩ := ih pls1 hrest k i hk
            exact ⟨cp1, pl1, h1, h2, by simpa using h3⟩

theorem fillPlanes_length (p_dsc : vlc_chroma_description_t) (tw ha hx vw vh : Int) :
    ∀ (idxs : List Nat) (pls : List plane_t),
      fillPlanes p_dsc tw ha hx vw vh idxs = some pls → pls.length = idxs.length := by
  intro idxs
  induction idxs with
  | nil => intro pls h; simp [fillPlanes] at h; simp [← h]
  | cons j rest ih =>
    intro pls h
    unfold fillPlanes at h
    split at h
    · simp at h
    · split at h
      · simp at h
      · split at h
        · simp at h
        · rename_i pls1 hrest
          simp only [Option.some.injEq] at h
          subst h
          simp [ih pls1 hrest]

theorem toUnsigned_natCast (n : Nat) : toUnsigned (n : Int) = n % 4294967296 := by
  unfold toUnsigned
  omega

theorem toSigned_of_le (u : Nat) (h : u ≤ 2147483647) : toSigned u = u := by
  unfold toSigned
  rw [Nat.mod_eq_of_lt (by omega), if_pos (by omega)]

theorem umul_of_le (a b : Nat) (h : a * b ≤ 2147483647) : umul a b = a * b :=
  Nat.mod_eq_of_lt (by omega)

theorem round_up_div_le (V den k : Nat) (hden : den ≠ 0) (hV : V ≤ den * k) :
    (V + (den - 1)) / den ≤ k := by
  have hd : 0 < den := Nat.pos_of_ne_zero hden
  have : (V + (den - 1)) / den < k + 1 := by
    rw [Nat.div_lt_iff_lt_mul hd]
    have : (k + 1) * den = den * k + den := by ring
    omega
  omega

/-- The unsigned arithmetic of lines 246-248 when nothing wraps around: the
pitches are the exact quotients and products, and the visible pitch is at most
the pitch. -/
theorem unsigned_pitches (T V num den ps : Nat) (hden : den ≠ 0) (hV : V ≤ T)
    (hdvd : den ∣ T) (hb : T * num * ps ≤ 2147483647) :
    umul (umul (T % 4294967296) num / den) ps = T * num / den * ps ∧
    umul (umul (uadd (V % 4294967296) (usub den 1) / den) num) ps =
      (V + (den - 1)) / den * num * ps ∧
    (V + (den - 1)) / den * num * ps ≤ T * num / den * ps ∧
    T * num / den * ps ≤ 2147483647 := by
  have hd : 0 < den := Nat.pos_of_ne_zero hden
  obtain ⟨k, rfl⟩ := hdvd
  have hc : (V + (den - 1)) / den ≤ k := round_up_div_le V den k hden hV
  have e : den * k * num / den = k * num := by
    rw [Nat.mul_assoc, Nat.mul_div_cancel_left _ hd]
  rw [e]
  have hle : (V + (den - 1)) / den * num * ps ≤ k * num * ps :=
    Nat.mul_le_mul_right _ (Nat.mul_le_mul_right _ hc)
  have hk : k * num * ps ≤ den * k * num * ps := by
    have : k * num * ps ≤ den * (k * num * ps) := Nat.le_mul_of_pos_left _ hd
    calc k * num * ps ≤ den * (k * num * ps) := this
      _ = den * k * num * ps := by ring
  have hkM : k * num * ps ≤ 2147483647 := le_trans hk hb
  rcases Nat.eq_zero_or_pos ps with hps | hps
  · subst hps
    simp [umul]
  rcases Nat.eq_zero_or_pos num with hnum | hnum
  · subst hnum
    simp [umul]
  have hT : den * k ≤ 2147483647 := by
    have h1 : den * k ≤ den * k * num := Nat.le_mul_of_pos_right _ hnum
    have h2 : den * k * num ≤ den * k * num * ps := Nat.le_mul_of_pos_right _ hps
    omega
  have hTn : den * k * num ≤ 2147483647 := by
    have h2 : den * k * num ≤ den * k * num * ps := Nat.le_mul_of_pos_right _ hps
    omega
  have hkn : k * num ≤ 2147483647 := by
    have : k * num ≤ k * num * ps := Nat.le_mul_of_pos_right _ hps
    omega
  have hcn : (V + (den - 1)) / den * num ≤ 2147483647 :=
    le_trans (Nat.mul_le_mul_right _ hc) hkn
  have hv : uadd (V % 4294967296) (usub den 1) / den = (V + (den - 1)) / den := by
    rcases Nat.eq_zero_or_pos k with hk0 | hk0
    · subst hk0
      have hV0 : V = 0 := by omega
      subst hV0
      have h1 : uadd (0 % 4294967296) (usub den 1) < den := by
        unfold uadd usub
        omega
      rw [Nat.div_eq_of_lt h1, Nat.div_eq_of_lt (by omega)]
    · have hdk : den ≤ den * k := Nat.le_mul_of_pos_right _ hk0
      have : uadd (V % 4294967296) (usub den 1) = V + (den - 1) := by
        unfold uadd usub
        omega
      rw [this]
  refine ⟨?_, ?_, hle, hkM⟩
  · rw [Nat.mod_eq_of_lt (by omega), umul_of_le _ _ hTn, e, umul_of_le _ _ hkM]
  · rw [hv, umul_of_le _ _ hcn, umul_of_le _ _ (le_trans hle hkM)]

/-- Lines 246-248 on a plane whose `w.den` divides the aligned width, for a
visible width between 0 and the aligned width, when the pitch fits an `int`:
the stored values are those of the exact formulas, and the visible pitch is at
most the pitch. -/
theorem plane_pitches_in_range (tw vw : Int) (num den ps : Nat) (hden : den ≠ 0)
    (h0 : 0 ≤ vw) (hv : vw ≤ tw) (hdvd : (den : Int) ∣ tw)
    (hb : tw * num * ps ≤ INT_MAX) :
    toSigned (umul (umul (toUnsigned tw) num / den) ps) =
        Int.tdiv (tw * num) den * ps ∧
      toSigned (umul (umul (uadd (toUnsigned vw) (usub den 1) / den) num) ps) =
        Int.tdiv (vw + ((den : Int) - 1)) den * num * ps ∧
      toSigned (umul (umul (uadd (toUnsigned vw) (usub den 1) / den) num) ps) ≤
        toSigned (umul (umul (toUnsigned tw) num / den) ps) := by
  obtain ⟨T, rfl⟩ := Int.eq_ofNat_of_zero_le (le_trans h0 hv)
  obtain ⟨V, rfl⟩ := Int.eq_ofNat_of_zero_le h0
  have hd : 0 < den := Nat.pos_of_ne_zero hden
  have hVT : V ≤ T := by exact_mod_cast hv
  have hdvdN : den ∣ T := by exact_mod_cast hdvd
  have hbN : T * num * ps ≤ 2147483647 := by
    unfold INT_MAX at hb
    exact_mod_cast hb
  obtain ⟨e1, e2, hle, hM⟩ := unsigned_pitches T V num den ps hden hVT hdvdN hbN
  rw [toUnsigned_natCast, toUnsigned_natCast, e1, e2, toSigned_of_le _ hM,
    toSigned_of_le _ (le_trans hle hM)]
  have c1 : Int.tdiv ((T : Int) * num) den = ((T * num / den : Nat) : Int) := by
    rw [Int.tdiv_eq_ediv (by positivity) (by positivity)]
    push_cast
    rfl
  have c2 : Int.tdiv ((V : Int) + ((den : Int) - 1)) den = (((V + (den - 1)) / den : Nat) : Int) := by
    have : (V : Int) + ((den : Int) - 1) = ((V + (den - 1) : Nat) : Int) := by
      push_cast [Nat.cast_sub hd]
      rfl
    rw [this, Int.tdiv_eq_ediv (by positivity) (by positivity)]
    push_cast
    rfl
  rw [c1, c2]
  refine ⟨by push_cast; rfl, by push_cast; rfl, ?_⟩
  exact_mod_cast hle

theorem fillPlane_some (p_dsc : vlc_chroma_description_t) (cp : chroma_plane_t)
    (tw ha hx vw vh : Int) (pl : plane_t)
    (h : fillPlane p_dsc cp tw ha hx vw vh = some pl) :
    cp.w.den ≠ 0 ∧ cp.h.den ≠ 0 ∧
    pl.i_pitch =
      toSigned (umul (umul (toUnsigned tw) cp.w.num / cp.w.den) p_dsc.pixel_size) ∧
    pl.i_visible_pitch =
      toSigned (umul (umul (uadd (toUnsigned vw) (usub cp.w.den 1) / cp.w.den) cp.w.num)
        p_dsc.pixel_size) := by
  unfold fillPlane at h
  split at h
  · simp at h
  · rename_i hz
    simp only [Option.some.injEq] at h
    subst h
    simp only [not_or] at hz
    exact ⟨hz.2, hz.1, rfl, rfl⟩

/-- C8 (as amended): when `getVideoFormat` returns 0, every plane `i < i_planes`
carries the pitches lines 246-248 compute in unsigned 32-bit arithmetic.  When
`0 <= i_visible_width <= i_width`, the plane's `w.den` divides `i_width` and
`i_width * w.num * pixel_size` does not exceed `INT_MAX`, nothing wraps around:
the pitch is `i_width * w.num / w.den * pixel_size`, the visible pitch is
`(i_visible_width + w.den - 1) / w.den * w.num * pixel_size`, and the visible
pitch is at most the pitch.  On the hardware path `i_visible_width <= i_width`
always holds. -/
theorem getVideoFormat_visible_pitch_le (E : Engine) (fuel : Nat) (s s1 : SimpleDecoder)
    (ctx : AVCodecContext) (pix_fmt sw_pix_fmt : AVPixelFormat)
    (h : getVideoFormat E fuel s ctx pix_fmt sw_pix_fmt = some (GVFStatus.ok, s1)) :
    ∃ p_dsc, E.vlc_fourcc_GetChromaDescription s1.videoForamt.i_chroma = some p_dsc ∧
      s1.videoForamt.i_planes = p_dsc.plane_count ∧
      (pix_fmt ≠ sw_pix_fmt → s1.videoForamt.i_visible_width ≤ s1.videoForamt.i_width) ∧
      ∀ i : Nat, i < s1.videoForamt.i_planes →
        ∃ cp pl, p_dsc.p[i]? = some cp ∧ s1.videoForamt.plane[i]? = some pl ∧
          pl.i_pitch =
            toSigned (umul (umul (toUnsigned s1.videoForamt.i_width) cp.w.num / cp.w.den)
              p_dsc.pixel_size) ∧
          pl.i_visible_pitch =
            toSigned (umul (umul (uadd (toUnsigned s1.videoForamt.i_visible_width)
              (usub cp.w.den 1) / cp.w.den) cp.w.num) p_dsc.pixel_size) ∧
          (0 ≤ s1.videoForamt.i_visible_width →
            s1.videoForamt.i_visible_width ≤ s1.videoForamt.i_width →
            (cp.w.den : Int) ∣ s1.videoForamt.i_width →
            s1.videoForamt.i_width * cp.w.num * p_dsc.pixel_size ≤ INT_MAX →
            pl.i_pitch =
              Int.tdiv (s1.videoForamt.i_width * cp.w.num) cp.w.den * p_dsc.pixel_size ∧
            pl.i_visible_pitch =
              Int.tdiv (s1.videoForamt.i_visible_width + ((cp.w.den : Int) - 1)) cp.w.den
                * cp.w.num * p_dsc.pixel_size ∧
            pl.i_visible_pitch ≤ pl.i_pitch) := by
  obtain ⟨p_dsc, tw, planes, hinv, hd, htw, hp, rfl⟩ :=
    getVideoFormat_ok_inv E fuel s s1 ctx pix_fmt sw_pix_fmt h
  have hg := geometry_finishFormat E s.mVA ctx (initialFormat E s pix_fmt sw_pix_fmt)
    p_dsc tw planes
  simp only [geometry, Prod.mk.injEq] at hg
  obtain ⟨hc, hw, -, hvw, -, -, -, hpl, hn⟩ := hg
  simp only [hc, hw, hvw, hpl, hn]
  refine ⟨p_dsc, ?_, rfl, ?_, ?_⟩
  · simpa [initialFormat] using hd
  · intro hne
    have hsw : decide (pix_fmt = sw_pix_fmt) = false := by simpa using hne
    rw [hsw] at htw hinv
    simp only [alignedWidth, Bool.false_eq_true, if_false, Option.some.injEq] at htw
    simp only [validatedDims, Bool.false_eq_true, if_false, invalidDisplaySize,
      decide_eq_false_iff_not, not_or, not_lt] at hinv
    omega
  · intro i hi
    have hr : (List.range p_dsc.plane_count)[i]? = some i := List.getElem?_range hi
    obtain ⟨cp, pl, h1, h2, h3⟩ :=
      fillPlanes_getElem p_dsc tw ctx.coded_height 0 ctx.width ctx.height _ planes hp i i hr
    obtain ⟨hden, -, e1, e2⟩ := fillPlane_some p_dsc cp tw ctx.coded_height 0 ctx.width
      ctx.height pl h2
    have hlen := fillPlanes_length p_dsc tw ctx.coded_height 0 ctx.width ctx.height _ planes hp
    have hil : i < planes.length := by simpa [hlen] using hi
    refine ⟨cp, pl, h1, ?_, e1, e2, ?_⟩
    · rw [List.getElem?_append_left hil]; exact h3
    · intro h0 hv hdvd hb
      rw [e1, e2]
      exact plane_pitches_in_range tw ctx.width cp.w.num cp.w.den p_dsc.pixel_size hden h0 hv
        hdvd hb


theorem getVideoFormat_status_invalid (E : Engine) (fuel : Nat) (s : SimpleDecoder)
    (ctx : AVCodecContext) (pix_fmt sw_pix_fmt : AVPixelFormat) :
    (getVideoFormat E fuel s ctx pix_fmt sw_pix_fmt).map Prod.fst =
        some GVFStatus.invalidDisplaySize ↔
      invalidDisplaySize ctx (validatedWidth E ctx pix_fmt sw_pix_fmt)
        (validatedHeight E ctx pix_fmt sw_pix_fmt) = true := by
  unfold getVideoFormat validatedWidth validatedHeight
  simp only []
  split
  · rename_i h; simp [h]
  · rename_i h
    simp only [h, Bool.false_eq_true, iff_false]
    split
    · simp
    · split
      · simp
      · split <;> simp

/-- C6 (as amended): `getVideoFormat` returns the invalid-display-size error
exactly when the validated dimensions `(w, h)` satisfy
`w == 0 || h == 0 || w > 8192 || h > 8192 || w < ctx.width || h < ctx.height`;
for a context whose visible width and height are not negative this is the
condition `NOT (0 < w <= 8192 and 0 < h <= 8192 and w >= ctx.width and
h >= ctx.height)`. -/
theorem getVideoFormat_invalid_iff (E : Engine) (fuel : Nat) (s : SimpleDecoder)
    (ctx : AVCodecContext) (pix_fmt sw_pix_fmt : AVPixelFormat) :
    ((getVideoFormat E fuel s ctx pix_fmt sw_pix_fmt).map Prod.fst =
        some GVFStatus.invalidDisplaySize ↔
      (validatedWidth E ctx pix_fmt sw_pix_fmt = 0 ∨
        validatedHeight E ctx pix_fmt sw_pix_fmt = 0 ∨
        validatedWidth E ctx pix_fmt sw_pix_fmt > 8192 ∨
        validatedHeight E ctx pix_fmt sw_pix_fmt > 8192 ∨
        validatedWidth E ctx pix_fmt sw_pix_fmt < ctx.width ∨
        validatedHeight E ctx pix_fmt sw_pix_fmt < ctx.height)) ∧
    (0 ≤ ctx.width → 0 ≤ ctx.height →
      ((getVideoFormat E fuel s ctx pix_fmt sw_pix_fmt).map Prod.fst =
          some GVFStatus.invalidDisplaySize ↔
        ¬ (0 < validatedWidth E ctx pix_fmt sw_pix_fmt ∧
            validatedWidth E ctx pix_fmt sw_pix_fmt ≤ 8192 ∧
            0 < validatedHeight E ctx pix_fmt sw_pix_fmt ∧
            validatedHeight E ctx pix_fmt sw_pix_fmt ≤ 8192 ∧
            validatedWidth E ctx pix_fmt sw_pix_fmt ≥ ctx.width ∧
            validatedHeight E ctx pix_fmt sw_pix_fmt ≥ ctx.height))) := by
  have key := getVideoFormat_status_invalid E fuel s ctx pix_fmt sw_pix_fmt
  simp only [invalidDisplaySize, decide_eq_true_eq] at key
  refine ⟨key, ?_⟩
  intro hw hh
  rw [key]
  constructor
  · intro h; omega
  · intro h; omega

/-- C6 at software decoding of a stream whose coded width is 0 and whose visible
size is 1920x1080: the call fails, and the validated width is not positive. -/
theorem getVideoFormat_invalid_iff_witness :
    (getVideoFormat (sampleEngine true 0 false) 8 (freshDecoder true) (sampleCtx 0 1088 1920 1080)
        AV_PIX_FMT_YUV420P AV_PIX_FMT_YUV420P).map Prod.fst =
          some GVFStatus.invalidDisplaySize ↔
      ¬ (0 < validatedWidth (sampleEngine true 0 false) (sampleCtx 0 1088 1920 1080)
            AV_PIX_FMT_YUV420P AV_PIX_FMT_YUV420P ∧
          validatedWidth (sampleEngine true 0 false) (sampleCtx 0 1088 1920 1080)
            AV_PIX_FMT_YUV420P AV_PIX_FMT_YUV420P ≤ 8192 ∧
          0 < validatedHeight (sampleEngine true 0 false) (sampleCtx 0 1088 1920 1080)
            AV_PIX_FMT_YUV420P AV_PIX_FMT_YUV420P ∧
          validatedHeight (sampleEngine true 0 false) (sampleCtx 0 1088 1920 1080)
            AV_PIX_FMT_YUV420P AV_PIX_FMT_YUV420P ≤ 8192 ∧
          validatedWidth (sampleEngine true 0 false) (sampleCtx 0 1088 1920 1080)
            AV_PIX_FMT_YUV420P AV_PIX_FMT_YUV420P ≥ (sampleCtx 0 1088 1920 1080).width ∧
          validatedHeight (sampleEngine true 0 false) (sampleCtx 0 1088 1920 1080)
            AV_PIX_FMT_YUV420P AV_PIX_FMT_YUV420P ≥ (sampleCtx 0 1088 1920 1080).height) :=
  (getVideoFormat_invalid_iff (sampleEngine true 0 false) 8 (freshDecoder true)
    (sampleCtx 0 1088 1920 1080) AV_PIX_FMT_YUV420P AV_PIX_FMT_YUV420P).2
    (by decide) (by decide)

/-- C6 (counterexample): hardware decoding with coded and visible dimensions
`-16 x -16`.  None of the tests of line 204 fires, `getVideoFormat` goes on and
returns 0, although `0 < w` fails. -/
theorem getVideoFormat_negative_size_accepted :
    (getVideoFormat (sampleEngine true 0 false) 0 (freshDecoder true)
        (sampleCtx (-16) (-16) (-16) (-16)) AV_PIX_FMT_VAAPI_VLD AV_PIX_FMT_YUV420P).map
          Prod.fst = some GVFStatus.ok ∧
      ¬ ((getVideoFormat (sampleEngine true 0 false) 0 (freshDecoder true)
          (sampleCtx (-16) (-16) (-16) (-16)) AV_PIX_FMT_VAAPI_VLD AV_PIX_FMT_YUV420P).map
            Prod.fst = some GVFStatus.invalidDisplaySize ↔
        ¬ (0 < validatedWidth (sampleEngine true 0 false) (sampleCtx (-16) (-16) (-16) (-16))
              AV_PIX_FMT_VAAPI_VLD AV_PIX_FMT_YUV420P ∧
            validatedWidth (sampleEngine true 0 false) (sampleCtx (-16) (-16) (-16) (-16))
              AV_PIX_FMT_VAAPI_VLD AV_PIX_FMT_YUV420P ≤ 8192 ∧
            0 < validatedHeight (sampleEngine true 0 false) (sampleCtx (-16) (-16) (-16) (-16))
              AV_PIX_FMT_VAAPI_VLD AV_PIX_FMT_YUV420P ∧
            validatedHeight (sampleEngine true 0 false) (sampleCtx (-16) (-16) (-16) (-16))
              AV_PIX_FMT_VAAPI_VLD AV_PIX_FMT_YUV420P ≤ 8192 ∧
            validatedWidth (sampleEngine true 0 false) (sampleCtx (-16) (-16) (-16) (-16))
              AV_PIX_FMT_VAAPI_VLD AV_PIX_FMT_YUV420P ≥
                (sampleCtx (-16) (-16) (-16) (-16)).width ∧
            validatedHeight (sampleEngine true 0 false) (sampleCtx (-16) (-16) (-16) (-16))
              AV_PIX_FMT_VAAPI_VLD AV_PIX_FMT_YUV420P ≥
                (sampleCtx (-16) (-16) (-16) (-16)).height)) := by
  decide

/-- C8 (counterexample): software decoding of a stream coded as 16x16 whose
visible width is -5, with the 8-bit 4:2:0 description.  Line 204 accepts the
sizes (it only compares the visible width with the aligned coded width), the
loop ends with `tw = 32`, and for the two chroma planes line 247 computes
`(-5 + 1) / 2` in unsigned arithmetic: the visible pitch is 2147483646, the
pitch 16. -/
theorem getVideoFormat_visible_pitch_exceeds :
    (getVideoFormat (sampleEngine true 0 false) 4 (freshDecoder true) (sampleCtx 16 16 (-5) 16)
        AV_PIX_FMT_YUV420P AV_PIX_FMT_YUV420P).map
      (fun r => (r.1, r.2.videoForamt.i_width, r.2.videoForamt.i_visible_width,
        r.2.videoForamt.i_planes,
        r.2.videoForamt.plane.map (fun p => (p.i_visible_pitch, p.i_pitch)))) =
      some (GVFStatus.ok, 32, -5, 3, [(-5, 32), (2147483646, 16), (2147483646, 16)]) :=
  rfl

/-- C8 at the software format of a 1920x1080 stream coded as 1920x1088: the
three planes get the visible pitches 1920, 960 and 960, equal to their
pitches. -/
theorem getVideoFormat_visible_pitch_le_witness :
    ∃ s1, getVideoFormat (sampleEngine true 0 false) 4 (freshDecoder true)
        (sampleCtx 1920 1088 1920 1080) AV_PIX_FMT_YUV420P AV_PIX_FMT_YUV420P =
          some (GVFStatus.ok, s1) ∧
      s1.videoForamt.plane.map (fun p => (p.i_visible_pitch, p.i_pitch)) =
        [(1920, 1920), (960, 960), (960, 960)] ∧
      ∃ p_dsc, (sampleEngine true 0 false).vlc_fourcc_GetChromaDescription
          s1.videoForamt.i_chroma = some p_dsc ∧
        s1.videoForamt.i_planes = p_dsc.plane_count ∧
        (AV_PIX_FMT_YUV420P ≠ AV_PIX_FMT_YUV420P →
          s1.videoForamt.i_visible_width ≤ s1.videoForamt.i_width) ∧
        ∀ i : Nat, i < s1.videoForamt.i_planes →
          ∃ cp pl, p_dsc.p[i]? = some cp ∧ s1.videoForamt.plane[i]? = some pl ∧
            pl.i_pitch =
              toSigned (umul (umul (toUnsigned s1.videoForamt.i_width) cp.w.num / cp.w.den)
                p_dsc.pixel_size) ∧
            pl.i_visible_pitch =
              toSigned (umul (umul (uadd (toUnsigned s1.videoForamt.i_visible_width)
                (usub cp.w.den 1) / cp.w.den) cp.w.num) p_dsc.pixel_size) ∧
            (0 ≤ s1.videoForamt.i_visible_width →
              s1.videoForamt.i_visible_width ≤ s1.videoForamt.i_width →
              (cp.w.den : Int) ∣ s1.videoForamt.i_width →
              s1.videoForamt.i_width * cp.w.num * p_dsc.pixel_size ≤ INT_MAX →
              pl.i_pitch =
                Int.tdiv (s1.videoForamt.i_width * cp.w.num) cp.w.den * p_dsc.pixel_size ∧
              pl.i_visible_pitch =
                Int.tdiv (s1.videoForamt.i_visible_width + ((cp.w.den : Int) - 1)) cp.w.den
                  * cp.w.num * p_dsc.pixel_size ∧
              pl.i_visible_pitch ≤ pl.i_pitch) := by
  have h : ∃ s1, getVideoFormat (sampleEngine true 0 false) 4 (freshDecoder true)
        (sampleCtx 1920 1088 1920 1080) AV_PIX_FMT_YUV420P AV_PIX_FMT_YUV420P =
          some (GVFStatus.ok, s1) := ⟨_, rfl⟩
  have hv : (getVideoFormat (sampleEngine true 0 false) 4 (freshDecoder true)
        (sampleCtx 1920 1088 1920 1080) AV_PIX_FMT_YUV420P AV_PIX_FMT_YUV420P).map
      (fun r => r.2.videoForamt.plane.map (fun p => (p.i_visible_pitch, p.i_pitch))) =
      some [(1920, 1920), (960, 960), (960, 960)] := by decide
  obtain ⟨s1, h1⟩ := h
  rw [h1] at hv
  simp only [Option.map_some', Option.some.injEq] at hv
  exact ⟨s1, h1, hv, getVideoFormat_visible_pitch_le _ _ _ _ _ _ _ h1⟩

/-! ## Facts about the negotiation -/

theorem getVideoFormat_frame (E : Engine) (fuel : Nat) (s s1 : SimpleDecoder)
    (ctx : AVCodecContext) (pix_fmt sw_pix_fmt : AVPixelFormat) (st : GVFStatus)
    (h : getVideoFormat E fuel s ctx pix_fmt sw_pix_fmt = some (st, s1)) :
    ∃ f, s1 = { s with videoForamt := f } := by
  unfold getVideoFormat at h
  simp only [] at h
  split at h
  · simp only [Option.some.injEq, Prod.mk.injEq] at h
    exact ⟨_, h.2.symm⟩
  · split at h
    · simp only [Option.some.injEq, Prod.mk.injEq] at h
      exact ⟨_, h.2.symm⟩
    · split at h
      · simp at h
      · split at h
        · simp at h
        · simp only [Option.some.injEq, Prod.mk.injEq] at h
          exact ⟨_, h.2.symm⟩

theorem getVideoFormat_status_indep (E : Engine) (fuel : Nat) (s s0 : SimpleDecoder)
    (ctx : AVCodecContext) (pix_fmt sw_pix_fmt : AVPixelFormat) :
    (getVideoFormat E fuel s ctx pix_fmt sw_pix_fmt).map Prod.fst =
      (getVideoFormat E fuel s0 ctx pix_fmt sw_pix_fmt).map Prod.fst := by
  unfold getVideoFormat
  simp only []
  split
  · rfl
  · split
    · rfl
    · split
      · rfl
      · split <;> rfl

theorem getVideoFormat_isSome_indep (E : Engine) (fuel : Nat) (s s0 : SimpleDecoder)
    (ctx : AVCodecContext) (pix_fmt sw_pix_fmt : AVPixelFormat) :
    (getVideoFormat E fuel s ctx pix_fmt sw_pix_fmt).isSome =
      (getVideoFormat E fuel s0 ctx pix_fmt sw_pix_fmt).isSome := by
  have h := getVideoFormat_status_indep E fuel s s0 ctx pix_fmt sw_pix_fmt
  have e : ∀ o : Option (GVFStatus × SimpleDecoder), o.isSome = (o.map Prod.fst).isSome := by
    intro o; cases o <;> rfl
  rw [e, e, h]

/-- The outcome of a `getVideoFormat` call whose status is known, from any
state. -/
theorem getVideoFormat_of_status (E : Engine) (fuel : Nat) (s s0 : SimpleDecoder)
    (ctx : AVCodecContext) (pix_fmt sw_pix_fmt : AVPixelFormat) (st : GVFStatus)
    (h : (getVideoFormat E fuel s0 ctx pix_fmt sw_pix_fmt).map Prod.fst = some st) :
    ∃ f, getVideoFormat E fuel s ctx pix_fmt sw_pix_fmt =
      some (st, { s with videoForamt := f }) := by
  rw [getVideoFormat_status_indep E fuel s0 s] at h
  cases hg : getVideoFormat E fuel s ctx pix_fmt sw_pix_fmt with
  | none => simp [hg] at h
  | some r =>
    obtain ⟨st1, s1⟩ := r
    simp only [hg, Option.map_some', Option.some.injEq] at h
    subst h
    obtain ⟨f, rfl⟩ := getVideoFormat_frame E fuel s s1 ctx pix_fmt sw_pix_fmt _ hg
    exact ⟨f, rfl⟩

/-- The outcome of a `getVideoFormat` call that returns, from any state. -/
theorem getVideoFormat_of_isSome (E : Engine) (fuel : Nat) (s s0 : SimpleDecoder)
    (ctx : AVCodecContext) (pix_fmt sw_pix_fmt : AVPixelFormat)
    (h : (getVideoFormat E fuel s0 ctx pix_fmt sw_pix_fmt).isSome = true) :
    ∃ st f, getVideoFormat E fuel s ctx pix_fmt sw_pix_fmt =
      some (st, { s with videoForamt := f }) := by
  rw [getVideoFormat_isSome_indep E fuel s0 s] at h
  cases hg : getVideoFormat E fuel s ctx pix_fmt sw_pix_fmt with
  | none => simp [hg] at h
  | some r =>
    obtain ⟨st1, s1⟩ := r
    obtain ⟨f, rfl⟩ := getVideoFormat_frame E fuel s s1 ctx pix_fmt sw_pix_fmt _ hg
    exact ⟨st1, f, rfl⟩

theorem reuseScan_hit (E : Engine) (fuel : Nat) (ctx : AVCodecContext) (swfmt : AVPixelFormat)
    (s : SimpleDecoder)
    (hok : (getVideoFormat E fuel s ctx s.pix_fmt swfmt).map Prod.fst = some GVFStatus.ok) :
    ∀ l : List AVPixelFormat, s.pix_fmt ∈ l →
      ∃ f, reuseScan E fuel ctx swfmt s l = some (true, { s with videoForamt := f }) := by
  intro l
  induction l with
  | nil => intro h; simp at h
  | cons a rest ih =>
    intro hmem
    unfold reuseScan
    by_cases ha : a = s.pix_fmt
    · obtain ⟨f, hf⟩ := getVideoFormat_of_status E fuel s s ctx s.pix_fmt swfmt _ hok
      simp only [ha, if_true, hf]
      exact ⟨f, rfl⟩
    · simp only [ha, if_false]
      apply ih
      rcases List.mem_cons.mp hmem with h | h
      · exact absurd h.symm ha
      · exact h

theorem reuseScan_miss (E : Engine) (fuel : Nat) (ctx : AVCodecContext) (swfmt : AVPixelFormat)
    (st : GVFStatus) (hst : st ≠ GVFStatus.ok) :
    ∀ (l : List AVPixelFormat) (s : SimpleDecoder),
      (getVideoFormat E fuel s ctx s.pix_fmt swfmt).map Prod.fst = some st →
      ∃ f, reuseScan E fuel ctx swfmt s l = some (false, { s with videoForamt := f }) := by
  intro l
  induction l with
  | nil => intro s _; exact ⟨s.videoForamt, by simp [reuseScan]⟩
  | cons a rest ih =>
    intro s h
    unfold reuseScan
    by_cases ha : a = s.pix_fmt
    · obtain ⟨f, hf⟩ := getVideoFormat_of_status E fuel s s ctx s.pix_fmt swfmt _ h
      simp only [ha, if_true, hf, hst, if_false]
      have h2 : (getVideoFormat E fuel { s with videoForamt := f } ctx
          ({ s with videoForamt := f } : SimpleDecoder).pix_fmt swfmt).map Prod.fst = some st := by
        rw [getVideoFormat_status_indep E fuel _ s]; exact h
      obtain ⟨g, hg⟩ := ih { s with videoForamt := f } h2
      exact ⟨g, by rw [hg]⟩
    · simp only [ha, if_false]
      exact ih s h

theorem reuseScan_not_mem (E : Engine) (fuel : Nat) (ctx : AVCodecContext)
    (swfmt : AVPixelFormat) (s : SimpleDecoder) :
    ∀ l : List AVPixelFormat, s.pix_fmt ∉ l →
      reuseScan E fuel ctx swfmt s l = some (false, s) := by
  intro l
  induction l with
  | nil => intro _; simp [reuseScan]
  | cons a rest ih =>
    intro h
    unfold reuseScan
    have ha : ¬ a = s.pix_fmt := fun e => h (by simp [e])
    simp only [ha, if_false]
    exact ih (fun hm => h (List.mem_cons_of_mem _ hm))

theorem reuseScan_frame (E : Engine) (fuel : Nat) (ctx : AVCodecContext)
    (swfmt : AVPixelFormat) :
    ∀ (l : List AVPixelFormat) (s s1 : SimpleDecoder) (b : Bool),
      reuseScan E fuel ctx swfmt s l = some (b, s1) →
      ∃ f, s1 = { s with videoForamt := f } := by
  intro l
  induction l with
  | nil =>
    intro s s1 b h
    simp only [reuseScan, Option.some.injEq, Prod.mk.injEq] at h
    exact ⟨s.videoForamt, h.2.symm⟩
  | cons a rest ih =>
    intro s s1 b h
    unfold reuseScan at h
    split at h
    · split at h
      · simp at h
      · rename_i st s2 hg
        obtain ⟨f, rfl⟩ := getVideoFormat_frame E fuel s s2 ctx _ swfmt _ hg
        split at h
        · simp only [Option.some.injEq, Prod.mk.injEq] at h
          exact ⟨f, h.2.symm⟩
        · obtain ⟨g, hg2⟩ := ih _ s1 b h
          exact ⟨g, hg2⟩
    · exact ih s s1 b h

theorem reuseAttempt_frame (E : Engine) (fuel : Nat) (s s1 : SimpleDecoder)
    (ctx : AVCodecContext) (pi_fmt : List AVPixelFormat) (swfmt : AVPixelFormat) (b : Bool)
    (h : reuseAttempt E fuel s ctx pi_fmt swfmt = some (b, s1)) :
    ∃ f, s1 = { s with videoForamt := f } := by
  unfold reuseAttempt at h
  split at h
  · simp only [Option.some.injEq, Prod.mk.injEq] at h; exact ⟨s.videoForamt, h.2.symm⟩
  · split at h
    · simp only [Option.some.injEq, Prod.mk.injEq] at h; exact ⟨s.videoForamt, h.2.symm⟩
    · split at h
      · simp only [Option.some.injEq, Prod.mk.injEq] at h; exact ⟨s.videoForamt, h.2.symm⟩
      · exact reuseScan_frame E fuel ctx swfmt _ s s1 b h
theorem candidates_ne_none (pi_fmt : List AVPixelFormat) (h : AVPixelFormat)
    (hm : h ∈ candidates pi_fmt) : h ≠ AV_PIX_FMT_NONE := by
  unfold candidates at hm
  have := List.mem_takeWhile_imp hm
  simpa using this

theorem balanced_nil : Balanced [] := by
  intro id h; simp at h

theorem balanced_triple (id : Nat) :
    Balanced [VAEvent.create id, VAEvent.opening id, VAEvent.delete id] := by
  intro j h
  simp only [List.mem_cons, VAEvent.create.injEq, List.mem_singleton, reduceCtorEq,
    or_false, List.not_mem_nil] at h
  subst h
  simp

theorem balanced_append {a b : List VAEvent} (ha : Balanced a) (hb : Balanced b) :
    Balanced (a ++ b) := by
  intro id h
  rcases List.mem_append.mp h with h | h
  · exact List.mem_append_left _ (ha id h)
  · exact List.mem_append_right _ (hb id h)

/-- One iteration of the hardware loop on an entry that is not viable: the
loop goes on, having at most created, opened and deleted one object. -/
theorem hwLoop_step_skip (E : Engine) (fuel : Nat) (ctx : AVCodecContext)
    (pi_fmt : List AVPixelFormat) (swfmt : AVPixelFormat) (s : SimpleDecoder)
    (h : AVPixelFormat) (rest : List AVPixelFormat)
    (hv : hwViable E ctx pi_fmt swfmt h = false) :
    ∃ f evs, Balanced evs ∧
      hwLoop E fuel ctx pi_fmt swfmt s (h :: rest) =
        hwLoop E fuel ctx pi_fmt swfmt
          { s with videoForamt := f, vaLog := s.vaLog ++ evs } rest := by
  by_cases hc : (candidates pi_fmt).contains h = true
  · have hne : h ≠ AV_PIX_FMT_NONE :=
      candidates_ne_none pi_fmt h (by simpa using hc)
    by_cases h1 : E.vlc_va_GetChroma h swfmt = 0
    · refine ⟨{ s.videoForamt with i_chroma := E.vlc_va_GetChroma h swfmt }, [],
        balanced_nil, ?_⟩
      rw [hwLoop]
      simp only [hc, if_true, hne, if_false, h1, List.append_nil]
    · by_cases h2 : ctx.width = 0 ∨ ctx.height = 0
      · refine ⟨{ s.videoForamt with i_chroma := E.vlc_va_GetChroma h swfmt }, [],
          balanced_nil, ?_⟩
        rw [hwLoop]
        simp only [hc, if_true, hne, if_false, h1, h2, List.append_nil]
      · by_cases h3 : E.createVA ctx h = false
        · refine ⟨{ s.videoForamt with i_chroma := E.vlc_va_GetChroma h swfmt }, [],
            balanced_nil, ?_⟩
          rw [hwLoop]
          simp only [hc, if_true, hne, if_false, h1, h2, h3, List.append_nil]
        · by_cases h4 : E.va_open ctx h ≠ VLC_SUCCESS
          · refine ⟨{ s.videoForamt with i_chroma := E.vlc_va_GetChroma h swfmt },
              [VAEvent.create s.vaLog.length, VAEvent.opening s.vaLog.length,
                VAEvent.delete s.vaLog.length],
              balanced_triple s.vaLog.length, ?_⟩
            have h3' : E.createVA ctx h = true := by simpa using h3
            rw [hwLoop]
            simp only [hc, if_true, hne, if_false, h1, h2, h3', h4, List.append_assoc,
              List.cons_append, List.nil_append, Bool.true_eq_false, ne_eq,
              not_false_eq_true]
          · exfalso
            simp only [hwViable, hc, Bool.true_and, Bool.and_eq_false_imp, Bool.and_eq_true,
              decide_eq_true_eq, decide_eq_false_iff_not] at hv
            simp only [not_or] at h2
            simp only [Bool.not_eq_false] at h3
            simp only [ne_eq, not_not] at h4
            exact hv ⟨⟨h1, h2⟩, h3⟩ h4
  · refine ⟨s.videoForamt, [], balanced_nil, ?_⟩
    rw [hwLoop]
    simp only [hc, Bool.false_eq_true, if_false, if_true, List.append_nil]

/-- One iteration of the hardware loop on a viable entry: lines 101-113. -/
theorem hwLoop_step_hit (E : Engine) (fuel : Nat) (ctx : AVCodecContext)
    (pi_fmt : List AVPixelFormat) (swfmt : AVPixelFormat) (s : SimpleDecoder)
    (h : AVPixelFormat) (rest : List AVPixelFormat)
    (hv : hwViable E ctx pi_fmt swfmt h = true) :
    hwLoop E fuel ctx pi_fmt swfmt s (h :: rest) =
      match getVideoFormat E fuel (afterOpen E s h swfmt) (clearDrawHorizBand ctx) h swfmt with
      | none => none
      | some (_, s4) => some (some h, s4, clearDrawHorizBand ctx) := by
  simp only [hwViable, Bool.and_eq_true, decide_eq_true_eq] at hv
  obtain ⟨⟨⟨⟨hc, h1⟩, h2⟩, h3⟩, h4⟩ := hv
  have hne : h ≠ AV_PIX_FMT_NONE := candidates_ne_none pi_fmt h (by simpa using hc)
  have h2' : ¬ (ctx.width = 0 ∨ ctx.height = 0) := by
    intro hh; rcases hh with hh | hh
    · exact h2.1 hh
    · exact h2.2 hh
  rw [hwLoop]
  simp only [hc, if_true, hne, if_false, h1, h2', h3, h4, ne_eq, not_true_eq_false,
    Bool.true_eq_false]
  rfl
/-- What a returning run of the hardware loop leaves behind. -/
theorem hwLoop_spec (E : Engine) (fuel : Nat) (ctx : AVCodecContext)
    (pi_fmt : List AVPixelFormat) (swfmt : AVPixelFormat) :
    ∀ (l : List AVPixelFormat) (s s1 : SimpleDecoder) (r : Option AVPixelFormat)
      (ctx1 : AVCodecContext),
      hwLoop E fuel ctx pi_fmt swfmt s l = some (r, s1, ctx1) →
      r = l.find? (hwViable E ctx pi_fmt swfmt) ∧
      match r with
      | none => ctx1 = ctx ∧ ∃ f evs, Balanced evs ∧
          s1 = { s with videoForamt := f, vaLog := s.vaLog ++ evs }
      | some h => ctx1 = clearDrawHorizBand ctx ∧ ∃ f evs id, Balanced evs ∧
          s1 = { s with
            videoForamt := f
            vaLog := s.vaLog ++ evs ++ [VAEvent.create id, VAEvent.opening id]
            mVA := some { id := id, fmt := h }
            pix_fmt := h } := by
  intro l
  induction l with
  | nil =>
    intro s s1 r ctx1 h
    simp only [hwLoop, Option.some.injEq, Prod.mk.injEq] at h
    obtain ⟨rfl, rfl, rfl⟩ := h
    refine ⟨rfl, rfl, s.videoForamt, [], balanced_nil, ?_⟩
    simp
  | cons a rest ih =>
    intro s s1 r ctx1 h
    by_cases hv : hwViable E ctx pi_fmt swfmt a = true
    · rw [hwLoop_step_hit E fuel ctx pi_fmt swfmt s a rest hv] at h
      split at h
      · simp at h
      · rename_i st s4 hg
        simp only [Option.some.injEq, Prod.mk.injEq] at h
        obtain ⟨rfl, rfl, rfl⟩ := h
        obtain ⟨f, rfl⟩ := getVideoFormat_frame E fuel _ s4 _ _ _ _ hg
        refine ⟨by simp [List.find?, hv], rfl, f, [], s.vaLog.length, balanced_nil, ?_⟩
        simp [afterOpen]
    · have hv' : hwViable E ctx pi_fmt swfmt a = false := by simpa using hv
      obtain ⟨f0, evs0, hb0, hstep⟩ := hwLoop_step_skip E fuel ctx pi_fmt swfmt s a rest hv'
      rw [hstep] at h
      obtain ⟨hr, hres⟩ := ih _ s1 r ctx1 h
      refine ⟨by simp [List.find?, hv', hr], ?_⟩
      cases r with
      | none =>
        obtain ⟨hc, f, evs, hb, rfl⟩ := hres
        refine ⟨hc, f, evs0 ++ evs, balanced_append hb0 hb, ?_⟩
        simp
      | some hh =>
        obtain ⟨hc, f, evs, id, hb, rfl⟩ := hres
        refine ⟨hc, f, evs0 ++ evs, id, balanced_append hb0 hb, ?_⟩
        simp

theorem hwLoop_isSome_of_none (E : Engine) (fuel : Nat) (ctx : AVCodecContext)
    (pi_fmt : List AVPixelFormat) (swfmt : AVPixelFormat) :
    ∀ (l : List AVPixelFormat) (s : SimpleDecoder),
      l.find? (hwViable E ctx pi_fmt swfmt) = none →
      (hwLoop E fuel ctx pi_fmt swfmt s l).isSome = true := by
  intro l
  induction l with
  | nil => intro s _; simp [hwLoop]
  | cons a rest ih =>
    intro s h
    have hv : hwViable E ctx pi_fmt swfmt a = false := by
      by_contra hne
      simp only [Bool.not_eq_false] at hne
      simp [List.find?, hne] at h
    obtain ⟨f0, evs0, _, hstep⟩ := hwLoop_step_skip E fuel ctx pi_fmt swfmt s a rest hv
    rw [hstep]
    apply ih
    simpa [List.find?, hv] using h

theorem hwLoop_isSome_of_some (E : Engine) (fuel : Nat) (ctx : AVCodecContext)
    (pi_fmt : List AVPixelFormat) (swfmt : AVPixelFormat) (hw : AVPixelFormat)
    (s0 : SimpleDecoder)
    (hterm : (getVideoFormat E fuel s0 (clearDrawHorizBand ctx) hw swfmt).isSome = true) :
    ∀ (l : List AVPixelFormat) (s : SimpleDecoder),
      l.find? (hwViable E ctx pi_fmt swfmt) = some hw →
      (hwLoop E fuel ctx pi_fmt swfmt s l).isSome = true := by
  intro l
  induction l with
  | nil => intro s h; simp at h
  | cons a rest ih =>
    intro s h
    by_cases hv : hwViable E ctx pi_fmt swfmt a = true
    · have ha : a = hw := by simpa [List.find?, hv] using h
      subst ha
      rw [hwLoop_step_hit E fuel ctx pi_fmt swfmt s a rest hv]
      obtain ⟨st, f, hg⟩ := getVideoFormat_of_isSome E fuel (afterOpen E s a swfmt) s0
        (clearDrawHorizBand ctx) a swfmt hterm
      rw [hg]
      rfl
    · have hv' : hwViable E ctx pi_fmt swfmt a = false := by simpa using hv
      obtain ⟨f0, evs0, _, hstep⟩ := hwLoop_step_skip E fuel ctx pi_fmt swfmt s a rest hv'
      rw [hstep]
      apply ih
      simpa [List.find?, hv'] using h
theorem close_va_decoder_format (s : SimpleDecoder) (f : video_format_t) :
    close_va_decoder { s with videoForamt := f } =
      { close_va_decoder s with videoForamt := f } := by
  cases s with
  | mk pix_fmt profile level width height m_useHW mVA videoForamt dec out vaLog flushCount
      codec cont =>
    cases mVA <;> rfl

theorem close_va_decoder_fields (s : SimpleDecoder) :
    (close_va_decoder s).mVA = none ∧ (close_va_decoder s).m_useHW = s.m_useHW ∧
      (close_va_decoder s).pix_fmt = s.pix_fmt ∧
      ∃ evs, (close_va_decoder s).vaLog = s.vaLog ++ evs ∧ Balanced evs := by
  unfold close_va_decoder
  cases h : s.mVA with
  | none => exact ⟨h, rfl, rfl, [], by simp, balanced_nil⟩
  | some va =>
    refine ⟨rfl, rfl, rfl, _, rfl, ?_⟩
    intro id hm
    simp at hm

theorem softwareFallback_of_isSome (E : Engine) (fuel : Nat) (s s0 : SimpleDecoder)
    (ctx : AVCodecContext) (swfmt : AVPixelFormat)
    (hterm : (getVideoFormat E fuel s0 ctx swfmt swfmt).isSome = true) :
    ∃ f, softwareFallback E fuel s ctx swfmt =
      some (swfmt, { s with videoForamt := f, pix_fmt := swfmt }, ctx) := by
  obtain ⟨st, f, hg⟩ := getVideoFormat_of_isSome E fuel s s0 ctx swfmt swfmt hterm
  exact ⟨f, by simp [softwareFallback, hg]⟩

/-- The state recorded at lines 55-60. -/
theorem ffmpeg_GetFormat_no_reuse (E : Engine) (fuel : Nat) (s : SimpleDecoder)
    (ctx : AVCodecContext) (pi_fmt : List AVPixelFormat)
    (hre : (reuseAttempt E fuel s ctx pi_fmt (E.avcodec_default_get_format ctx pi_fmt)).map
      Prod.fst = some false) :
    ∃ f, ffmpeg_GetFormat E fuel s ctx pi_fmt =
      negotiate E fuel { s with videoForamt := f } ctx pi_fmt
        (E.avcodec_default_get_format ctx pi_fmt) := by
  cases hr : reuseAttempt E fuel s ctx pi_fmt (E.avcodec_default_get_format ctx pi_fmt) with
  | none => simp [hr] at hre
  | some r =>
    obtain ⟨b, s1⟩ := r
    simp only [hr, Option.map_some', Option.some.injEq] at hre
    subst hre
    obtain ⟨f, rfl⟩ := reuseAttempt_frame E fuel s s1 ctx pi_fmt _ _ hr
    exact ⟨f, by simp [ffmpeg_GetFormat, hr]⟩

/-- The software outcome of lines 62-119: no hardware attempt gets through,
and the threaded-decode block does not return early. -/
theorem selectFormat_software (E : Engine) (fuel : Nat) (s s0 : SimpleDecoder)
    (ctx : AVCodecContext) (pi_fmt : List AVPixelFormat) (swfmt : AVPixelFormat)
    (hthr : can_hwaccel E pi_fmt = false ∨ threadRestricted E ctx = false)
    (hfail : s.m_useHW = false ∨ (hwfmts E).find? (hwViable E ctx pi_fmt swfmt) = none)
    (hterm : (getVideoFormat E fuel s0 ctx swfmt swfmt).isSome = true) :
    ∃ f evs, selectFormat E fuel s ctx pi_fmt swfmt =
        some (swfmt, { s with videoForamt := f, vaLog := s.vaLog ++ evs, pix_fmt := swfmt },
          ctx) ∧
      Balanced evs ∧ (s.m_useHW = false → evs = []) := by
  unfold selectFormat
  by_cases hcan : can_hwaccel E pi_fmt = false
  · rw [if_pos hcan]
    obtain ⟨f, hf⟩ := softwareFallback_of_isSome E fuel s s0 ctx swfmt hterm
    rw [hf]
    exact ⟨f, [], by simp, balanced_nil, fun _ => rfl⟩
  · have hthr' : threadRestricted E ctx = false := by
      rcases hthr with h | h
      · exact absurd h hcan
      · exact h
    have hthr2 : ¬ threadRestricted E ctx = true := by simp [hthr']
    rw [if_neg hcan, if_neg hthr2]
    by_cases huse : s.m_useHW = true
    · have hnone : (hwfmts E).find? (hwViable E ctx pi_fmt swfmt) = none := by
        rcases hfail with h | h
        · rw [huse] at h; simp at h
        · exact h
      rw [if_pos huse]
      have hsome := hwLoop_isSome_of_none E fuel ctx pi_fmt swfmt (hwfmts E) s hnone
      cases hl : hwLoop E fuel ctx pi_fmt swfmt s (hwfmts E) with
      | none => simp [hl] at hsome
      | some res =>
        obtain ⟨r, s3, ctx3⟩ := res
        obtain ⟨hr, hres⟩ := hwLoop_spec E fuel ctx pi_fmt swfmt _ _ s3 r ctx3 hl
        rw [hnone] at hr
        subst hr
        obtain ⟨hc3, f, evs, hb, rfl⟩ := hres
        subst ctx3
        simp only []
        obtain ⟨g, hg⟩ := softwareFallback_of_isSome E fuel
          { s with videoForamt := f, vaLog := s.vaLog ++ evs } s0 ctx swfmt hterm
        rw [hg]
        exact ⟨g, evs, by simp, hb, fun h => by rw [huse] at h; simp at h⟩
    · rw [if_neg huse]
      obtain ⟨f, hf⟩ := softwareFallback_of_isSome E fuel s s0 ctx swfmt hterm
      rw [hf]
      exact ⟨f, [], by simp, balanced_nil, fun _ => rfl⟩

/-- The hardware outcome of lines 62-119. -/
theorem selectFormat_hardware (E : Engine) (fuel : Nat) (s s0 : SimpleDecoder)
    (ctx : AVCodecContext) (pi_fmt : List AVPixelFormat) (swfmt hw : AVPixelFormat)
    (huse : s.m_useHW = true)
    (hcan : can_hwaccel E pi_fmt = true)
    (hthr : threadRestricted E ctx = false)
    (hfirst : (hwfmts E).find? (hwViable E ctx pi_fmt swfmt) = some hw)
    (hterm : (getVideoFormat E fuel s0 (clearDrawHorizBand ctx) hw swfmt).isSome = true) :
    ∃ f evs id, selectFormat E fuel s ctx pi_fmt swfmt =
        some (hw,
          { s with
            videoForamt := f
            vaLog := s.vaLog ++ evs ++ [VAEvent.create id, VAEvent.opening id]
            mVA := some { id := id, fmt := hw }
            pix_fmt := hw },
          clearDrawHorizBand ctx) ∧
      Balanced evs := by
  unfold selectFormat
  have hcan2 : ¬ can_hwaccel E pi_fmt = false := by simp [hcan]
  have hthr2 : ¬ threadRestricted E ctx = true := by simp [hthr]
  rw [if_neg hcan2, if_neg hthr2, if_pos huse]
  have hsome := hwLoop_isSome_of_some E fuel ctx pi_fmt swfmt hw s0 hterm (hwfmts E) s hfirst
  cases hl : hwLoop E fuel ctx pi_fmt swfmt s (hwfmts E) with
  | none => simp [hl] at hsome
  | some res =>
    obtain ⟨r, s3, ctx3⟩ := res
    obtain ⟨hr, hres⟩ := hwLoop_spec E fuel ctx pi_fmt swfmt _ _ s3 r ctx3 hl
    rw [hfirst] at hr
    subst hr
    obtain ⟨hc3, f, evs, id, hb, rfl⟩ := hres
    subst ctx3
    exact ⟨f, evs, id, by simp, hb⟩
theorem selectFormat_restricted (E : Engine) (fuel : Nat) (s : SimpleDecoder)
    (ctx : AVCodecContext) (pi_fmt : List AVPixelFormat) (swfmt : AVPixelFormat)
    (hcan : can_hwaccel E pi_fmt = true) (hthr : threadRestricted E ctx = true) :
    selectFormat E fuel s ctx pi_fmt swfmt = some (swfmt, s, ctx) := by
  unfold selectFormat
  have hcan2 : ¬ can_hwaccel E pi_fmt = false := by simp [hcan]
  rw [if_neg hcan2, if_pos hthr]

theorem close_va_decoder_creates_nothing (s : SimpleDecoder) (id : Nat)
    (h : VAEvent.create id ∈ (close_va_decoder s).vaLog) : VAEvent.create id ∈ s.vaLog := by
  unfold close_va_decoder at h
  cases hm : s.mVA with
  | none => simpa [hm] using h
  | some va => simpa [hm] using h

/-- The state in which lines 62-119 start when the reuse path is not taken. -/
theorem ffmpeg_GetFormat_eq_selectFormat (E : Engine) (fuel : Nat) (s : SimpleDecoder)
    (ctx : AVCodecContext) (pi_fmt : List AVPixelFormat)
    (hre : (reuseAttempt E fuel s ctx pi_fmt (E.avcodec_default_get_format ctx pi_fmt)).map
      Prod.fst = some false) :
    ∃ s2, ffmpeg_GetFormat E fuel s ctx pi_fmt =
        selectFormat E fuel s2 ctx pi_fmt (E.avcodec_default_get_format ctx pi_fmt) ∧
      s2.m_useHW = s.m_useHW ∧ s2.mVA = none ∧ s2.vaLog = (close_va_decoder s).vaLog ∧
      s2.profile = ctx.profile ∧ s2.level = ctx.level ∧ s2.width = ctx.coded_width ∧
      s2.height = ctx.coded_height := by
  obtain ⟨f, hf⟩ := ffmpeg_GetFormat_no_reuse E fuel s ctx pi_fmt hre
  obtain ⟨hm, hu, -, -⟩ := close_va_decoder_fields s
  refine ⟨recordStream (close_va_decoder { s with videoForamt := f }) ctx, ?_, ?_, ?_, ?_,
    rfl, rfl, rfl, rfl⟩
  · rw [hf]; rfl
  · rw [close_va_decoder_format]; exact hu
  · rw [close_va_decoder_format]; exact hm
  · rw [close_va_decoder_format]; rfl

theorem find_hwViable_none (E : Engine) (ctx : AVCodecContext) (pi_fmt : List AVPixelFormat)
    (swfmt : AVPixelFormat)
    (hfail : ∀ h ∈ hwfmts E, h ∈ candidates pi_fmt →
      E.vlc_va_GetChroma h swfmt = 0 ∨ ctx.width = 0 ∨ ctx.height = 0 ∨
        E.createVA ctx h = false ∨ E.va_open ctx h ≠ VLC_SUCCESS) :
    (hwfmts E).find? (hwViable E ctx pi_fmt swfmt) = none := by
  rw [List.find?_eq_none]
  intro h hmem hv
  simp only [hwViable, Bool.and_eq_true, decide_eq_true_eq] at hv
  obtain ⟨⟨⟨⟨hc, h1⟩, h2⟩, h3⟩, h4⟩ := hv
  rcases hfail h hmem (by simpa using hc) with e | e | e | e | e
  · exact h1 e
  · exact h2.1 e
  · exact h2.2 e
  · rw [h3] at e; simp at e
  · exact e h4

/-- The reuse path, for C1 and for the second of two calls. -/
theorem ffmpeg_GetFormat_reuse_core (E : Engine) (fuel : Nat) (s : SimpleDecoder)
    (ctx : AVCodecContext) (pi_fmt : List AVPixelFormat)
    (h1 : s.pix_fmt ≠ AV_PIX_FMT_NONE)
    (h2 : s.width = ctx.coded_width) (h3 : s.height = ctx.coded_height)
    (h4 : s.profile = ctx.profile) (h5 : ctx.level ≤ s.level)
    (h6 : s.pix_fmt ∈ candidates pi_fmt)
    (h7 : (getVideoFormat E fuel s ctx s.pix_fmt
      (E.avcodec_default_get_format ctx pi_fmt)).map Prod.fst = some GVFStatus.ok) :
    ∃ f, ffmpeg_GetFormat E fuel s ctx pi_fmt =
      some (s.pix_fmt, { s with videoForamt := f }, ctx) := by
  obtain ⟨f, hf⟩ := reuseScan_hit E fuel ctx _ s h7 (candidates pi_fmt) h6
  have hg : ¬ (s.width ≠ ctx.coded_width ∨ s.height ≠ ctx.coded_height) := by
    simp [h2, h3]
  have hp : ¬ (ctx.profile ≠ s.profile ∨ ctx.level > s.level) := by
    simp only [h4, ne_eq, not_true_eq_false, false_or, gt_iff_lt, not_lt]; exact h5
  refine ⟨f, ?_⟩
  unfold ffmpeg_GetFormat reuseAttempt
  simp only []
  rw [if_neg h1, if_neg hg, if_neg hp, hf]

/-- C1: when a format is recorded, the recorded width, height and profile are
those of the context, the context's level does not exceed the recorded one, the
recorded format is among the candidates and `getVideoFormat` returns 0 for it,
`ffmpeg_GetFormat` returns the recorded format; no `VideoAcceleration` object is
closed, deleted or created, `mVA` is kept, and the recorded format, profile,
level, width and height are unchanged. -/
theorem ffmpeg_GetFormat_reuse (E : Engine) (fuel : Nat) (s : SimpleDecoder)
    (ctx : AVCodecContext) (pi_fmt : List AVPixelFormat)
    (h1 : s.pix_fmt ≠ AV_PIX_FMT_NONE)
    (h2 : s.width = ctx.coded_width) (h3 : s.height = ctx.coded_height)
    (h4 : s.profile = ctx.profile) (h5 : ctx.level ≤ s.level)
    (h6 : s.pix_fmt ∈ candidates pi_fmt)
    (h7 : (getVideoFormat E fuel s ctx s.pix_fmt
      (E.avcodec_default_get_format ctx pi_fmt)).map Prod.fst = some GVFStatus.ok) :
    ∃ s1, ffmpeg_GetFormat E fuel s ctx pi_fmt = some (s.pix_fmt, s1, ctx) ∧
      s1.vaLog = s.vaLog ∧ s1.mVA = s.mVA ∧ s1.pix_fmt = s.pix_fmt ∧
      s1.profile = s.profile ∧ s1.level = s.level ∧ s1.width = s.width ∧
      s1.height = s.height := by
  obtain ⟨f, hf⟩ := ffmpeg_GetFormat_reuse_core E fuel s ctx pi_fmt h1 h2 h3 h4 h5 h6 h7
  exact ⟨_, hf, rfl, rfl, rfl, rfl, rfl, rfl, rfl⟩

/-- C3: when the reuse path is not taken, `m_useHW` is set, a candidate carries
the hardware flag, the threaded-decode block does not return early, and `hw` is
the first entry of the priority list that is among the candidates with a
non-zero chroma mapping, non-zero visible dimensions and `createVA` and `open`
succeeding, `ffmpeg_GetFormat` returns `hw` (provided its final `getVideoFormat`
call returns): `mVA` holds the object created last in this call, which was
opened and not deleted, the recorded format is `hw`, `draw_horiz_band` is
`NULL`, and every object created before it in the call has been deleted. -/
theorem ffmpeg_GetFormat_hw_success (E : Engine) (fuel : Nat) (s : SimpleDecoder)
    (ctx : AVCodecContext) (pi_fmt : List AVPixelFormat) (hw : AVPixelFormat)
    (hre : (reuseAttempt E fuel s ctx pi_fmt (E.avcodec_default_get_format ctx pi_fmt)).map
      Prod.fst = some false)
    (huse : s.m_useHW = true)
    (hcan : can_hwaccel E pi_fmt = true)
    (hthr : threadRestricted E ctx = false)
    (hfirst : (hwfmts E).find?
      (hwViable E ctx pi_fmt (E.avcodec_default_get_format ctx pi_fmt)) = some hw)
    (hterm : (getVideoFormat E fuel s (clearDrawHorizBand ctx) hw
      (E.avcodec_default_get_format ctx pi_fmt)).isSome = true) :
    ∃ s1 ctx1 va evs, ffmpeg_GetFormat E fuel s ctx pi_fmt = some (hw, s1, ctx1) ∧
      s1.mVA = some va ∧ va.fmt = hw ∧ s1.pix_fmt = hw ∧ ctx1.draw_horiz_band = none ∧
      ctx1 = clearDrawHorizBand ctx ∧
      s1.vaLog = (close_va_decoder s).vaLog ++ evs ++
        [VAEvent.create va.id, VAEvent.opening va.id] ∧
      Balanced evs := by
  obtain ⟨s2, he, hu, -, hl, -⟩ := ffmpeg_GetFormat_eq_selectFormat E fuel s ctx pi_fmt hre
  obtain ⟨f, evs, id, hsel, hb⟩ := selectFormat_hardware E fuel s2 s ctx pi_fmt _ hw
    (hu.trans huse) hcan hthr hfirst hterm
  refine ⟨_, _, ⟨id, hw⟩, evs, he.trans hsel, rfl, rfl, rfl, rfl, rfl, ?_, hb⟩
  simp [hl]

/-- C4: when the reuse path is not taken and every attempt on a priority-list
format that is among the candidates fails, `ffmpeg_GetFormat` returns the
library's default format `swfmt`, records it as `pix_fmt` and leaves `mVA`
null; every object created during the call has been deleted.  The hardware
attempts of lines 87-115 are reached: the threaded-decode block of lines 68-73
does not return (`setupDecoder` leaves threading off, so `active_thread_type`
is 0), and the `getVideoFormat` call that precedes the return (line 63 or line
117) returns. -/
theorem ffmpeg_GetFormat_hw_rejected (E : Engine) (fuel : Nat) (s : SimpleDecoder)
    (ctx : AVCodecContext) (pi_fmt : List AVPixelFormat)
    (hre : (reuseAttempt E fuel s ctx pi_fmt (E.avcodec_default_get_format ctx pi_fmt)).map
      Prod.fst = some false)
    (hthr : can_hwaccel E pi_fmt = false ∨ threadRestricted E ctx = false)
    (hfail : ∀ h ∈ hwfmts E, h ∈ candidates pi_fmt →
      E.vlc_va_GetChroma h (E.avcodec_default_get_format ctx pi_fmt) = 0 ∨
        ctx.width = 0 ∨ ctx.height = 0 ∨
        E.createVA ctx h = false ∨ E.va_open ctx h ≠ VLC_SUCCESS)
    (hterm : (getVideoFormat E fuel s ctx (E.avcodec_default_get_format ctx pi_fmt)
      (E.avcodec_default_get_format ctx pi_fmt)).isSome = true) :
    ∃ s1 evs, ffmpeg_GetFormat E fuel s ctx pi_fmt =
        some (E.avcodec_default_get_format ctx pi_fmt, s1, ctx) ∧
      s1.pix_fmt = E.avcodec_default_get_format ctx pi_fmt ∧ s1.mVA = none ∧
      s1.vaLog = (close_va_decoder s).vaLog ++ evs ∧ Balanced evs := by
  obtain ⟨s2, he, -, hm, hl, -⟩ := ffmpeg_GetFormat_eq_selectFormat E fuel s ctx pi_fmt hre
  obtain ⟨f, evs, hsel, hb, -⟩ := selectFormat_software E fuel s2 s ctx pi_fmt _ hthr
    (Or.inr (find_hwViable_none E ctx pi_fmt _ hfail)) hterm
  refine ⟨_, evs, he.trans hsel, rfl, hm, ?_, hb⟩
  simp [hl]

/-- C5 (as amended): with `m_useHW` false, whenever the reuse path is not taken
`ffmpeg_GetFormat` returns the library's default format `swfmt` (provided its
final `getVideoFormat` call returns), which is not hardware accelerated when
the library's choice is not; `mVA` is null afterwards and no
`VideoAcceleration` object is created. -/
theorem ffmpeg_GetFormat_hw_disabled (E : Engine) (fuel : Nat) (s : SimpleDecoder)
    (ctx : AVCodecContext) (pi_fmt : List AVPixelFormat)
    (hre : (reuseAttempt E fuel s ctx pi_fmt (E.avcodec_default_get_format ctx pi_fmt)).map
      Prod.fst = some false)
    (huse : s.m_useHW = false)
    (hsw : is_hwaccel E (E.avcodec_default_get_format ctx pi_fmt) = false)
    (hterm : (getVideoFormat E fuel s ctx (E.avcodec_default_get_format ctx pi_fmt)
      (E.avcodec_default_get_format ctx pi_fmt)).isSome = true) :
    ∃ fmt s1, ffmpeg_GetFormat E fuel s ctx pi_fmt = some (fmt, s1, ctx) ∧
      fmt = E.avcodec_default_get_format ctx pi_fmt ∧ is_hwaccel E fmt = false ∧
      s1.mVA = none ∧ s1.vaLog = (close_va_decoder s).vaLog ∧
      ∀ id, VAEvent.create id ∈ s1.vaLog → VAEvent.create id ∈ s.vaLog := by
  obtain ⟨s2, he, hu, hm, hl, -⟩ := ffmpeg_GetFormat_eq_selectFormat E fuel s ctx pi_fmt hre
  by_cases hgate : can_hwaccel E pi_fmt = false ∨ threadRestricted E ctx = false
  · obtain ⟨f, evs, hsel, -, hnil⟩ := selectFormat_software E fuel s2 s ctx pi_fmt _ hgate
      (Or.inl (hu.trans huse)) hterm
    have hev : evs = [] := hnil (hu.trans huse)
    subst hev
    refine ⟨_, _, he.trans hsel, rfl, hsw, hm, by simp [hl], ?_⟩
    intro id hid
    apply close_va_decoder_creates_nothing
    simpa [hl] using hid
  · simp only [not_or, Bool.not_eq_false] at hgate
    have hsel := selectFormat_restricted E fuel s2 ctx pi_fmt
      (E.avcodec_default_get_format ctx pi_fmt) hgate.1 hgate.2
    refine ⟨_, _, he.trans hsel, rfl, hsw, hm, hl, ?_⟩
    intro id hid
    apply close_va_decoder_creates_nothing
    simpa [hl] using hid
/-- C1 at a decoder that holds a VAAPI object for the 1920x1088 stream it is asked
about again. -/
theorem ffmpeg_GetFormat_reuse_witness :
    ∃ s1, ffmpeg_GetFormat vaapiEngine 4 (hwDecoder true) (clearDrawHorizBand hdCtx)
        sampleFormats = some ((hwDecoder true).pix_fmt, s1, clearDrawHorizBand hdCtx) ∧
      s1.vaLog = (hwDecoder true).vaLog ∧ s1.mVA = (hwDecoder true).mVA ∧
      s1.pix_fmt = (hwDecoder true).pix_fmt ∧ s1.profile = (hwDecoder true).profile ∧
      s1.level = (hwDecoder true).level ∧ s1.width = (hwDecoder true).width ∧
      s1.height = (hwDecoder true).height :=
  ffmpeg_GetFormat_reuse vaapiEngine 4 (hwDecoder true) (clearDrawHorizBand hdCtx) sampleFormats
    (by decide) (by decide) (by decide) (by decide) (by decide) (by decide) (by decide)

/-- C3 at the scenario `[VAAPI_VLD, YUV420P]` with `use_hw = true`: the call
returns `AV_PIX_FMT_VAAPI_VLD`. -/
theorem ffmpeg_GetFormat_hw_success_witness :
    ∃ s1 ctx1 va evs, ffmpeg_GetFormat vaapiEngine 4 (freshDecoder true) hdCtx sampleFormats =
        some (AV_PIX_FMT_VAAPI_VLD, s1, ctx1) ∧
      s1.mVA = some va ∧ va.fmt = AV_PIX_FMT_VAAPI_VLD ∧ s1.pix_fmt = AV_PIX_FMT_VAAPI_VLD ∧
      ctx1.draw_horiz_band = none ∧ ctx1 = clearDrawHorizBand hdCtx ∧
      s1.vaLog = (close_va_decoder (freshDecoder true)).vaLog ++ evs ++
        [VAEvent.create va.id, VAEvent.opening va.id] ∧
      Balanced evs :=
  ffmpeg_GetFormat_hw_success vaapiEngine 4 (freshDecoder true) hdCtx sampleFormats
    AV_PIX_FMT_VAAPI_VLD (by decide) (by decide) (by decide) (by decide) (by decide) (by decide)

/-- C4 at the scenario `[VAAPI_VLD, YUV420P]` with `createVA` returning `NULL`:
the call falls back to `AV_PIX_FMT_YUV420P`. -/
theorem ffmpeg_GetFormat_hw_rejected_witness :
    ∃ s1 evs, ffmpeg_GetFormat noVaapiEngine 4 (freshDecoder true) hdCtx sampleFormats =
        some (AV_PIX_FMT_YUV420P, s1, hdCtx) ∧
      s1.pix_fmt = AV_PIX_FMT_YUV420P ∧
      s1.mVA = none ∧
      s1.vaLog = (close_va_decoder (freshDecoder true)).vaLog ++ evs ∧ Balanced evs :=
  ffmpeg_GetFormat_hw_rejected noVaapiEngine 4 (freshDecoder true) hdCtx sampleFormats
    (by decide) (by decide) (by decide) (by decide)

/-- C5 at a decoder with `m_useHW` false on which no format is recorded yet. -/
theorem ffmpeg_GetFormat_hw_disabled_witness :
    ∃ fmt s1, ffmpeg_GetFormat vaapiEngine 4 (freshDecoder false) hdCtx sampleFormats =
        some (fmt, s1, hdCtx) ∧
      fmt = AV_PIX_FMT_YUV420P ∧
      is_hwaccel vaapiEngine fmt = false ∧
      s1.mVA = none ∧ s1.vaLog = (close_va_decoder (freshDecoder false)).vaLog ∧
      ∀ id, VAEvent.create id ∈ s1.vaLog → VAEvent.create id ∈ (freshDecoder false).vaLog :=
  ffmpeg_GetFormat_hw_disabled vaapiEngine 4 (freshDecoder false) hdCtx sampleFormats
    (by decide) (by decide) (by decide) (by decide)

/-- C5 (counterexample): a decoder that negotiated VAAPI and then had
`enableHWDecoder(false)` called.  With `m_useHW` false and a software default
format, the next `ffmpeg_GetFormat` call for the same stream takes the reuse
path: it returns the hardware format `AV_PIX_FMT_VAAPI_VLD` and `mVA` is not
null. -/
theorem ffmpeg_GetFormat_disabled_reuses_hw :
    (enableHWDecoder (hwDecoder true) false).m_useHW = false ∧
      is_hwaccel vaapiEngine
        (vaapiEngine.avcodec_default_get_format (clearDrawHorizBand hdCtx) sampleFormats) =
          false ∧
      (ffmpeg_GetFormat vaapiEngine 4 (enableHWDecoder (hwDecoder true) false)
          (clearDrawHorizBand hdCtx) sampleFormats).map
          (fun r => (r.1, is_hwaccel vaapiEngine r.1, r.2.1.mVA)) =
        some (AV_PIX_FMT_VAAPI_VLD, true, some ⟨0, AV_PIX_FMT_VAAPI_VLD⟩) := by
  decide
theorem selectFormat_no_hwaccel (E : Engine) (fuel : Nat) (s s0 : SimpleDecoder)
    (ctx : AVCodecContext) (pi_fmt : List AVPixelFormat) (swfmt : AVPixelFormat)
    (hcan : can_hwaccel E pi_fmt = false)
    (hterm : (getVideoFormat E fuel s0 ctx swfmt swfmt).isSome = true) :
    ∃ f, selectFormat E fuel s ctx pi_fmt swfmt =
      some (swfmt, { s with videoForamt := f, pix_fmt := swfmt }, ctx) := by
  unfold selectFormat
  rw [if_pos hcan]
  exact softwareFallback_of_isSome E fuel s s0 ctx swfmt hterm

theorem isSome_of_map_eq_some {α β : Type} (o : Option α) (g : α → β) (b : β)
    (h : o.map g = some b) : o.isSome = true := by
  cases o with
  | none => simp at h
  | some a => rfl

theorem reuseAttempt_of_status (E : Engine) (fuel : Nat) (s : SimpleDecoder)
    (ctx : AVCodecContext) (pi_fmt : List AVPixelFormat) (swfmt : AVPixelFormat)
    (st : GVFStatus) (hst : st ≠ GVFStatus.ok)
    (h : (getVideoFormat E fuel s ctx s.pix_fmt swfmt).map Prod.fst = some st) :
    (reuseAttempt E fuel s ctx pi_fmt swfmt).map Prod.fst = some false := by
  unfold reuseAttempt
  split
  · rfl
  · split
    · rfl
    · split
      · rfl
      · obtain ⟨f, hf⟩ := reuseScan_miss E fuel ctx swfmt st hst (candidates pi_fmt) s h
        rw [hf]; rfl

/-- C9 (as amended): for a context with `coded_width == 0` whose width the
library's alignment leaves at 0 (no alignment is applied on the hardware path),
`getVideoFormat` returns the invalid-display-size error for every pair of
formats, `ffmpeg_GetFormat` does not take the reuse path, and, unless a
hardware attempt gets through, it returns the library's default format `swfmt`
with `mVA` null. -/
theorem ffmpeg_GetFormat_zero_coded_width (E : Engine) (fuel : Nat) (s : SimpleDecoder)
    (ctx : AVCodecContext) (pi_fmt : List AVPixelFormat)
    (hcw : ctx.coded_width = 0)
    (halign : (E.avcodec_align_dimensions2 ctx ctx.coded_width ctx.coded_height).1 = 0) :
    (∀ pix_fmt sw_pix_fmt, (getVideoFormat E fuel s ctx pix_fmt sw_pix_fmt).map Prod.fst =
        some GVFStatus.invalidDisplaySize) ∧
      (reuseAttempt E fuel s ctx pi_fmt (E.avcodec_default_get_format ctx pi_fmt)).map
        Prod.fst = some false ∧
      ((s.m_useHW = false ∨ can_hwaccel E pi_fmt = false ∨ threadRestricted E ctx = true ∨
          (hwfmts E).find?
            (hwViable E ctx pi_fmt (E.avcodec_default_get_format ctx pi_fmt)) = none) →
        ∃ s1, ffmpeg_GetFormat E fuel s ctx pi_fmt =
            some (E.avcodec_default_get_format ctx pi_fmt, s1, ctx) ∧
          s1.mVA = none) := by
  have hinv : ∀ pix_fmt sw_pix_fmt,
      (getVideoFormat E fuel s ctx pix_fmt sw_pix_fmt).map Prod.fst =
        some GVFStatus.invalidDisplaySize := by
    intro pix_fmt sw_pix_fmt
    rw [getVideoFormat_status_invalid]
    have hw : validatedWidth E ctx pix_fmt sw_pix_fmt = 0 := by
      unfold validatedWidth validatedDims
      split
      · exact halign
      · exact hcw
    simp [invalidDisplaySize, hw]
  have hre := reuseAttempt_of_status E fuel s ctx pi_fmt
    (E.avcodec_default_get_format ctx pi_fmt) GVFStatus.invalidDisplaySize (by decide)
    (hinv _ _)
  refine ⟨hinv, hre, ?_⟩
  intro hcond
  have hterm := isSome_of_map_eq_some _ _ _
    (hinv (E.avcodec_default_get_format ctx pi_fmt) (E.avcodec_default_get_format ctx pi_fmt))
  obtain ⟨s2, he, hu, hm, -, -⟩ := ffmpeg_GetFormat_eq_selectFormat E fuel s ctx pi_fmt hre
  by_cases hcan : can_hwaccel E pi_fmt = false
  · obtain ⟨f, hf⟩ := selectFormat_no_hwaccel E fuel s2 s ctx pi_fmt _ hcan hterm
    exact ⟨_, he.trans hf, hm⟩
  · by_cases hthr : threadRestricted E ctx = true
    · have hsel := selectFormat_restricted E fuel s2 ctx pi_fmt
        (E.avcodec_default_get_format ctx pi_fmt) (by simpa using hcan) hthr
      exact ⟨_, he.trans hsel, hm⟩
    · have hfail : s2.m_useHW = false ∨ (hwfmts E).find?
          (hwViable E ctx pi_fmt (E.avcodec_default_get_format ctx pi_fmt)) = none := by
        rcases hcond with h | h | h | h
        · exact Or.inl (hu.trans h)
        · exact absurd h hcan
        · exact absurd h hthr
        · exact Or.inr h
      obtain ⟨f, evs, hsel, -, -⟩ := selectFormat_software E fuel s2 s ctx pi_fmt _
        (Or.inr (by simpa using hthr)) hfail hterm
      exact ⟨_, he.trans hsel, hm⟩

/-- C9 at a stream whose coded width is 0, `createVA` returning `NULL`. -/
theorem ffmpeg_GetFormat_zero_coded_width_witness :
    (∀ pix_fmt sw_pix_fmt, (getVideoFormat noVaapiEngine 4 (freshDecoder true) zeroWidthCtx
        pix_fmt sw_pix_fmt).map Prod.fst = some GVFStatus.invalidDisplaySize) ∧
      (reuseAttempt noVaapiEngine 4 (freshDecoder true) zeroWidthCtx sampleFormats
        (noVaapiEngine.avcodec_default_get_format zeroWidthCtx sampleFormats)).map
        Prod.fst = some false ∧
      ((((freshDecoder true).m_useHW = false ∨ can_hwaccel noVaapiEngine sampleFormats = false ∨
          threadRestricted noVaapiEngine zeroWidthCtx = true ∨
          (hwfmts noVaapiEngine).find?
            (hwViable noVaapiEngine zeroWidthCtx sampleFormats
              (noVaapiEngine.avcodec_default_get_format zeroWidthCtx sampleFormats)) = none)) →
        ∃ s1, ffmpeg_GetFormat noVaapiEngine 4 (freshDecoder true) zeroWidthCtx sampleFormats =
            some (AV_PIX_FMT_YUV420P, s1, zeroWidthCtx) ∧
          s1.mVA = none) :=
  ffmpeg_GetFormat_zero_coded_width noVaapiEngine 4 (freshDecoder true) zeroWidthCtx
    sampleFormats (by decide) (by decide)

/-- C9 (counterexample): `coded_width == 0` with a visible size of 1920x1080,
`m_useHW` set and VAAPI available.  `getVideoFormat` fails with the
invalid-display-size error, yet `ffmpeg_GetFormat` returns
`AV_PIX_FMT_VAAPI_VLD`, not the software format `AV_PIX_FMT_YUV420P`, and `mVA`
holds the new object: line 112 ignores the result of `getVideoFormat`. -/
theorem ffmpeg_GetFormat_zero_coded_width_hw :
    zeroWidthCtx.coded_width = 0 ∧
      (getVideoFormat vaapiEngine 4 (freshDecoder true) zeroWidthCtx AV_PIX_FMT_VAAPI_VLD
        AV_PIX_FMT_YUV420P).map Prod.fst = some GVFStatus.invalidDisplaySize ∧
      vaapiEngine.avcodec_default_get_format zeroWidthCtx sampleFormats =
        AV_PIX_FMT_YUV420P ∧
      (ffmpeg_GetFormat vaapiEngine 4 (freshDecoder true) zeroWidthCtx sampleFormats).map
          (fun r => (r.1, r.2.1.mVA)) =
        some (AV_PIX_FMT_VAAPI_VLD, some ⟨0, AV_PIX_FMT_VAAPI_VLD⟩) := by
  decide
theorem softwareFallback_inv (E : Engine) (fuel : Nat) (s s1 : SimpleDecoder)
    (ctx ctx1 : AVCodecContext) (swfmt fmt : AVPixelFormat)
    (h : softwareFallback E fuel s ctx swfmt = some (fmt, s1, ctx1)) :
    fmt = swfmt ∧ ctx1 = ctx ∧ ∃ f, s1 = { s with videoForamt := f, pix_fmt := swfmt } := by
  unfold softwareFallback at h
  split at h
  · simp at h
  · rename_i st s3 hg
    obtain ⟨f, rfl⟩ := getVideoFormat_frame E fuel s s3 ctx swfmt swfmt st hg
    simp only [Option.some.injEq, Prod.mk.injEq] at h
    obtain ⟨rfl, rfl, rfl⟩ := h
    exact ⟨rfl, rfl, f, rfl⟩

theorem reuseAttempt_true (E : Engine) (fuel : Nat) (s s1 : SimpleDecoder)
    (ctx : AVCodecContext) (pi_fmt : List AVPixelFormat) (swfmt : AVPixelFormat)
    (h : reuseAttempt E fuel s ctx pi_fmt swfmt = some (true, s1)) :
    s.width = ctx.coded_width ∧ s.height = ctx.coded_height ∧ s.profile = ctx.profile ∧
      ctx.level ≤ s.level := by
  unfold reuseAttempt at h
  split at h
  · simp at h
  · split at h
    · simp at h
    · rename_i hg
      split at h
      · simp at h
      · rename_i hp
        simp only [ne_eq, not_or, not_not] at hg
        simp only [ne_eq, gt_iff_lt, not_or, not_not, not_lt] at hp
        exact ⟨hg.1, hg.2, hp.1.symm, hp.2⟩

theorem noLeak_nil (m : Option VA) : NoLeak [] m := by
  intro id h; simp at h

theorem noLeak_of_balanced {evs : List VAEvent} (m : Option VA) (h : Balanced evs) :
    NoLeak evs m := fun id hid => Or.inl (h id hid)

theorem noLeak_created {evs : List VAEvent} (h : Balanced evs) (id : Nat) (fmt : AVPixelFormat) :
    NoLeak (evs ++ [VAEvent.create id, VAEvent.opening id]) (some { id := id, fmt := fmt }) := by
  intro j hj
  rcases List.mem_append.mp hj with hj | hj
  · exact Or.inl (List.mem_append_left _ (h j hj))
  · simp only [List.mem_cons, VAEvent.create.injEq, reduceCtorEq, List.mem_singleton,
      or_false, List.not_mem_nil] at hj
    exact Or.inr ⟨_, rfl, hj.symm⟩

/-- What a returning run of lines 62-119 leaves behind. -/
theorem selectFormat_inv (E : Engine) (fuel : Nat) (s s1 : SimpleDecoder)
    (ctx ctx1 : AVCodecContext) (pi_fmt : List AVPixelFormat) (swfmt fmt : AVPixelFormat)
    (h : selectFormat E fuel s ctx pi_fmt swfmt = some (fmt, s1, ctx1)) :
    (ctx1 = ctx ∨ ctx1 = clearDrawHorizBand ctx) ∧
      s1.width = s.width ∧ s1.height = s.height ∧ s1.profile = s.profile ∧
      s1.level = s.level ∧
      (threadRestricted E ctx = false → s1.pix_fmt = fmt) ∧
      ∃ evs, s1.vaLog = s.vaLog ++ evs ∧ (s.mVA = none → NoLeak evs s1.mVA) := by
  unfold selectFormat at h
  split at h
  · obtain ⟨rfl, rfl, f, rfl⟩ := softwareFallback_inv E fuel s s1 ctx ctx1 swfmt fmt h
    exact ⟨Or.inl rfl, rfl, rfl, rfl, rfl, fun _ => rfl, [], by simp, fun _ => noLeak_nil _⟩
  · split at h
    · rename_i hthr
      simp only [Option.some.injEq, Prod.mk.injEq] at h
      obtain ⟨rfl, rfl, rfl⟩ := h
      exact ⟨Or.inl rfl, rfl, rfl, rfl, rfl, fun hf => by rw [hthr] at hf; simp at hf, [],
        by simp, fun _ => noLeak_nil _⟩
    · split at h
      · split at h
        · simp at h
        · rename_i hwfmt s3 ctx3 hl
          simp only [Option.some.injEq, Prod.mk.injEq] at h
          obtain ⟨rfl, rfl, rfl⟩ := h
          obtain ⟨-, hres⟩ := hwLoop_spec E fuel ctx pi_fmt swfmt _ _ _ _ _ hl
          obtain ⟨hc, f, evs, id, hb, rfl⟩ := hres
          exact ⟨Or.inr hc, rfl, rfl, rfl, rfl, fun _ => rfl, _,
            by simp, fun _ => noLeak_created hb id _⟩
        · rename_i s3 ctx3 hl
          obtain ⟨-, hres⟩ := hwLoop_spec E fuel ctx pi_fmt swfmt _ _ _ _ _ hl
          obtain ⟨hc, f, evs, hb, rfl⟩ := hres
          obtain ⟨rfl, rfl, g, rfl⟩ := softwareFallback_inv E fuel _ s1 ctx3 ctx1 swfmt fmt h
          exact ⟨Or.inl hc, rfl, rfl, rfl, rfl, fun _ => rfl, evs, rfl,
            fun _ => noLeak_of_balanced _ hb⟩
      · obtain ⟨rfl, rfl, f, rfl⟩ := softwareFallback_inv E fuel s s1 ctx ctx1 swfmt fmt h
        exact ⟨Or.inl rfl, rfl, rfl, rfl, rfl, fun _ => rfl, [], by simp,
          fun _ => noLeak_nil _⟩

theorem noLeak_after_close (s : SimpleDecoder) (evs : List VAEvent) (m : Option VA)
    (log : List VAEvent) (hlog : log = (close_va_decoder s).vaLog ++ evs)
    (h : NoLeak evs m) : ∃ evs1, log = s.vaLog ++ evs1 ∧ NoLeak evs1 m := by
  obtain ⟨-, -, -, evs0, hl0, hb0⟩ := close_va_decoder_fields s
  refine ⟨evs0 ++ evs, by rw [hlog, hl0, List.append_assoc], ?_⟩
  intro id hid
  rcases List.mem_append.mp hid with hid | hid
  · exact Or.inl (List.mem_append_left _ (hb0 id hid))
  · rcases h id hid with hd | hd
    · exact Or.inl (List.mem_append_right _ hd)
    · exact Or.inr hd

/-- What a returning call of `ffmpeg_GetFormat` leaves behind. -/
theorem ffmpeg_GetFormat_inv (E : Engine) (fuel : Nat) (s s1 : SimpleDecoder)
    (ctx ctx1 : AVCodecContext) (pi_fmt : List AVPixelFormat) (fmt : AVPixelFormat)
    (h : ffmpeg_GetFormat E fuel s ctx pi_fmt = some (fmt, s1, ctx1)) :
    (ctx1 = ctx ∨ ctx1 = clearDrawHorizBand ctx) ∧
      s1.width = ctx.coded_width ∧ s1.height = ctx.coded_height ∧
      s1.profile = ctx.profile ∧ ctx.level ≤ s1.level ∧
      (threadRestricted E ctx = false → s1.pix_fmt = fmt) ∧
      ∃ evs, s1.vaLog = s.vaLog ++ evs ∧ NoLeak evs s1.mVA := by
  unfold ffmpeg_GetFormat at h
  simp only [] at h
  split at h
  · simp at h
  · rename_i s2 hr
    simp only [Option.some.injEq, Prod.mk.injEq] at h
    obtain ⟨rfl, rfl, rfl⟩ := h
    obtain ⟨hw, hh, hp, hl⟩ := reuseAttempt_true E fuel s s2 ctx pi_fmt _ hr
    obtain ⟨f, rfl⟩ := reuseAttempt_frame E fuel s s2 ctx pi_fmt _ _ hr
    exact ⟨Or.inl rfl, hw, hh, hp, hl, fun _ => rfl, [], by simp, noLeak_nil _⟩
  · rename_i s2 hr
    obtain ⟨f, rfl⟩ := reuseAttempt_frame E fuel s s2 ctx pi_fmt _ _ hr
    unfold negotiate at h
    obtain ⟨hc, hw, hh, hp, hl, hpf, evs, hlog, hnl⟩ :=
      selectFormat_inv E fuel _ s1 ctx ctx1 pi_fmt _ fmt h
    rw [close_va_decoder_format] at hw hh hp hl hlog hnl
    obtain ⟨hm, -, -, -⟩ := close_va_decoder_fields s
    refine ⟨hc, hw, hh, hp, ?_, hpf, ?_⟩
    · have : s1.level = ctx.level := hl
      omega
    · exact noLeak_after_close s evs s1.mVA s1.vaLog hlog (hnl hm)
theorem reuseAttempt_hit (E : Engine) (fuel : Nat) (s : SimpleDecoder)
    (ctx : AVCodecContext) (pi_fmt : List AVPixelFormat)
    (h1 : s.pix_fmt ≠ AV_PIX_FMT_NONE)
    (h2 : s.width = ctx.coded_width) (h3 : s.height = ctx.coded_height)
    (h4 : s.profile = ctx.profile) (h5 : ctx.level ≤ s.level)
    (h6 : s.pix_fmt ∈ candidates pi_fmt)
    (h7 : (getVideoFormat E fuel s ctx s.pix_fmt
      (E.avcodec_default_get_format ctx pi_fmt)).map Prod.fst = some GVFStatus.ok) :
    (reuseAttempt E fuel s ctx pi_fmt (E.avcodec_default_get_format ctx pi_fmt)).map
      Prod.fst = some true := by
  obtain ⟨f, hf⟩ := reuseScan_hit E fuel ctx _ s h7 (candidates pi_fmt) h6
  have hg : ¬ (s.width ≠ ctx.coded_width ∨ s.height ≠ ctx.coded_height) := by
    simp [h2, h3]
  have hp : ¬ (ctx.profile ≠ s.profile ∨ ctx.level > s.level) := by
    simp only [h4, ne_eq, not_true_eq_false, false_or, gt_iff_lt, not_lt]; exact h5
  unfold reuseAttempt
  rw [if_neg h1, if_neg hg, if_neg hp, hf]
  rfl

/-- C2 (as amended): if a call of `ffmpeg_GetFormat` returns `fmt`, the
threaded-decode block did not return early, `fmt` is not `AV_PIX_FMT_NONE` and
is among the candidates, and `getVideoFormat` returns 0 for `fmt` on the
context the call left, then a second call with that context and the same
candidates takes the reuse path and returns `fmt` again without closing,
deleting or creating a `VideoAcceleration` object; every object created
during the two calls has been deleted or is the one held in `mVA`. -/
theorem ffmpeg_GetFormat_twice (E : Engine) (fuel : Nat) (s s1 : SimpleDecoder)
    (ctx ctx1 : AVCodecContext) (pi_fmt : List AVPixelFormat) (fmt : AVPixelFormat)
    (hfirst : ffmpeg_GetFormat E fuel s ctx pi_fmt = some (fmt, s1, ctx1))
    (hthr : threadRestricted E ctx = false)
    (hne : fmt ≠ AV_PIX_FMT_NONE)
    (hmem : fmt ∈ candidates pi_fmt)
    (hok : (getVideoFormat E fuel s1 ctx1 fmt
      (E.avcodec_default_get_format ctx1 pi_fmt)).map Prod.fst = some GVFStatus.ok) :
    ∃ s2, ffmpeg_GetFormat E fuel s1 ctx1 pi_fmt = some (fmt, s2, ctx1) ∧
      (reuseAttempt E fuel s1 ctx1 pi_fmt (E.avcodec_default_get_format ctx1 pi_fmt)).map
        Prod.fst = some true ∧
      s2.vaLog = s1.vaLog ∧ s2.mVA = s1.mVA ∧ s2.pix_fmt = fmt ∧
      ∃ evs, s2.vaLog = s.vaLog ++ evs ∧ NoLeak evs s2.mVA := by
  obtain ⟨hc, hw, hh, hp, hl, hpf, evs, hlog, hnl⟩ :=
    ffmpeg_GetFormat_inv E fuel s s1 ctx ctx1 pi_fmt fmt hfirst
  have hpf' : s1.pix_fmt = fmt := hpf hthr
  have hcw : ctx1.coded_width = ctx.coded_width ∧ ctx1.coded_height = ctx.coded_height ∧
      ctx1.profile = ctx.profile ∧ ctx1.level = ctx.level := by
    rcases hc with rfl | rfl
    · exact ⟨rfl, rfl, rfl, rfl⟩
    · exact ⟨rfl, rfl, rfl, rfl⟩
  obtain ⟨e1, e2, e3, e4⟩ := hcw
  have g1 : s1.pix_fmt ≠ AV_PIX_FMT_NONE := by rw [hpf']; exact hne
  have g2 : s1.width = ctx1.coded_width := by rw [e1]; exact hw
  have g3 : s1.height = ctx1.coded_height := by rw [e2]; exact hh
  have g4 : s1.profile = ctx1.profile := by rw [e3]; exact hp
  have g5 : ctx1.level ≤ s1.level := by rw [e4]; exact hl
  have g6 : s1.pix_fmt ∈ candidates pi_fmt := by rw [hpf']; exact hmem
  have g7 : (getVideoFormat E fuel s1 ctx1 s1.pix_fmt
      (E.avcodec_default_get_format ctx1 pi_fmt)).map Prod.fst = some GVFStatus.ok := by
    rw [hpf']; exact hok
  obtain ⟨f, hf⟩ := ffmpeg_GetFormat_reuse_core E fuel s1 ctx1 pi_fmt g1 g2 g3 g4 g5 g6 g7
  rw [hpf'] at hf
  exact ⟨_, hf, reuseAttempt_hit E fuel s1 ctx1 pi_fmt g1 g2 g3 g4 g5 g6 g7, rfl, rfl, rfl,
    evs, hlog, hnl⟩

/-- C2 at the scenario `[VAAPI_VLD, YUV420P]` with `use_hw = true`: the second
call returns `AV_PIX_FMT_VAAPI_VLD` through the reuse path. -/
theorem ffmpeg_GetFormat_twice_witness :
    ∃ s1 s2, ffmpeg_GetFormat vaapiEngine 4 (freshDecoder true) hdCtx sampleFormats =
        some (AV_PIX_FMT_VAAPI_VLD, s1, clearDrawHorizBand hdCtx) ∧
      ffmpeg_GetFormat vaapiEngine 4 s1 (clearDrawHorizBand hdCtx) sampleFormats =
        some (AV_PIX_FMT_VAAPI_VLD, s2, clearDrawHorizBand hdCtx) ∧
      (reuseAttempt vaapiEngine 4 s1 (clearDrawHorizBand hdCtx) sampleFormats
        (vaapiEngine.avcodec_default_get_format (clearDrawHorizBand hdCtx) sampleFormats)).map
        Prod.fst = some true ∧
      s2.vaLog = s1.vaLog ∧ s2.mVA = s1.mVA ∧ s2.pix_fmt = AV_PIX_FMT_VAAPI_VLD ∧
      ∃ evs, s2.vaLog = (freshDecoder true).vaLog ++ evs ∧ NoLeak evs s2.mVA := by
  have h : ∃ s1, ffmpeg_GetFormat vaapiEngine 4 (freshDecoder true) hdCtx sampleFormats =
      some (AV_PIX_FMT_VAAPI_VLD, s1, clearDrawHorizBand hdCtx) := ⟨_, rfl⟩
  obtain ⟨s1, h1⟩ := h
  have hok : (getVideoFormat vaapiEngine 4 s1 (clearDrawHorizBand hdCtx) AV_PIX_FMT_VAAPI_VLD
      (vaapiEngine.avcodec_default_get_format (clearDrawHorizBand hdCtx) sampleFormats)).map
        Prod.fst = some GVFStatus.ok := by
    rw [getVideoFormat_status_indep vaapiEngine 4 s1 (freshDecoder true)]
    decide
  obtain ⟨s2, h2⟩ := ffmpeg_GetFormat_twice vaapiEngine 4 (freshDecoder true) s1 hdCtx
    (clearDrawHorizBand hdCtx) sampleFormats AV_PIX_FMT_VAAPI_VLD h1 (by decide) (by decide)
    (by decide) hok
  exact ⟨s1, s2, h1, h2⟩

/-- C2 (counterexample): a stream whose coded width is reported as 0, VAAPI
available.  The first call returns `AV_PIX_FMT_VAAPI_VLD` and holds object 0;
`getVideoFormat` fails for it, so the second call with the context the first
one left does not take the reuse path: it closes and deletes object 0 and
creates object 1. -/
theorem ffmpeg_GetFormat_twice_recreates :
    (callTwice vaapiEngine 4 (freshDecoder true) zeroWidthCtx sampleFormats).map
        (fun p => (p.1.1, p.1.2.1.mVA, p.1.2.1.vaLog)) =
      some (AV_PIX_FMT_VAAPI_VLD, some ⟨0, AV_PIX_FMT_VAAPI_VLD⟩,
        [VAEvent.create 0, VAEvent.opening 0]) ∧
    (callTwice vaapiEngine 4 (freshDecoder true) zeroWidthCtx sampleFormats).map
        (fun p => (reuseAttempt vaapiEngine 4 p.1.2.1 p.1.2.2 sampleFormats
          (vaapiEngine.avcodec_default_get_format p.1.2.2 sampleFormats)).map Prod.fst) =
      some (some false) ∧
    (callTwice vaapiEngine 4 (freshDecoder true) zeroWidthCtx sampleFormats).map
        (fun p => (p.2.1, p.2.2.1.mVA, p.2.2.1.vaLog)) =
      some (AV_PIX_FMT_VAAPI_VLD, some ⟨4, AV_PIX_FMT_VAAPI_VLD⟩,
        [VAEvent.create 0, VAEvent.opening 0, VAEvent.close 0, VAEvent.delete 0,
          VAEvent.create 4, VAEvent.opening 4]) := by
  decide

/-! ## Facts about frame retrieval -/

theorem decodeRun_append (s : SimpleDecoder) (rs : List ReceiveResult) (r : ReceiveResult) :
    decodeRun s (rs ++ [r]) = (getDecodedFrame (decodeRun s rs) r).2 := by
  induction rs generalizing s with
  | nil => rfl
  | cons a rest ih => simp only [List.cons_append, decodeRun]; exact ih _

theorem lastDelivered_append (rs : List ReceiveResult) (r : ReceiveResult) :
    lastDelivered (rs ++ [r]) = if delivered r then some r.frame else lastDelivered rs := by
  unfold lastDelivered
  by_cases h : delivered r = true
  · simp [List.filter_append, h]
  · simp [List.filter_append, h]

theorem getDecodedFrame_output (s : SimpleDecoder) (r : ReceiveResult) :
    (getDecodedFrame s r).2.m_outputFrame =
      if delivered r then some (published r.frame)
      else if r.ret = AVERROR_EOF then none
      else s.m_outputFrame := by
  unfold getDecodedFrame
  simp only []
  by_cases h1 : r.ret < 0
  · have hd : delivered r = false := by
      have h0 : ¬ (0 ≤ r.ret) := by omega
      simp [delivered, h0]
    rw [if_pos h1, hd]
    by_cases h2 : r.ret = AVERROR_EOF
    · rw [if_pos h2, if_neg (by simp), if_pos h2]
    · rw [if_neg h2, if_neg (by simp), if_neg h2]
  · have h0 : 0 ≤ r.ret := by omega
    have hne : r.ret ≠ AVERROR_EOF := by
      intro e; rw [e] at h0; revert h0; decide
    rw [if_neg h1]
    by_cases h3 : r.frame.decode_error_flags ≠ 0 ∨ r.frame.flags ≠ 0
    · have hd : delivered r = false := by
        rcases h3 with h | h
        · simp [delivered, h]
        · simp [delivered, h]
      rw [if_pos h3, hd, if_neg (by simp), if_neg hne]
    · have h4 : r.frame.decode_error_flags = 0 ∧ r.frame.flags = 0 := by
        simp only [not_or, ne_eq, not_not] at h3; exact h3
      have hd : delivered r = true := by simp [delivered, h0, h4.1, h4.2]
      rw [if_neg h3, hd, if_pos rfl]
      rfl

/-- C10: over every run of `getDecodedFrame` calls that starts with an empty
output slot, `m_outputFrame` is either empty or the clone of the most recent
frame the library delivered with a non-negative status, `decode_error_flags ==
0` and `flags == 0`, its user pointer being `&videoForamt`. -/
theorem decodeRun_output_slot (s : SimpleDecoder) (rs : List ReceiveResult)
    (h : s.m_outputFrame = none) :
    (decodeRun s rs).m_outputFrame = none ∨
      ∃ f, lastDelivered rs = some f ∧
        (decodeRun s rs).m_outputFrame = some (published f) ∧
        (published f).opaque_ptr = some FrameRef.videoForamt ∧
        (published f).payload = f.payload := by
  induction rs using List.reverseRecOn with
  | nil => exact Or.inl h
  | append_singleton rs r ih =>
    rw [decodeRun_append, getDecodedFrame_output, lastDelivered_append]
    by_cases hd : delivered r = true
    · simp only [hd, if_true]
      exact Or.inr ⟨r.frame, rfl, rfl, rfl, rfl⟩
    · simp only [hd, Bool.false_eq_true, if_false]
      by_cases he : r.ret = AVERROR_EOF
      · simp only [he, if_true]
        exact Or.inl trivial
      · simp only [he, if_false]
        exact ih

/-- C10 at a run of a delivered frame, a frame with error flags and a failure:
the slot holds the clone of the first frame. -/
theorem decodeRun_output_slot_witness :
    (decodeRun (freshDecoder true)
        sampleRun).m_outputFrame = none ∨
      ∃ f, lastDelivered sampleRun =
          some f ∧
        (decodeRun (freshDecoder true)
          sampleRun).m_outputFrame =
            some (published f) ∧
        (published f).opaque_ptr = some FrameRef.videoForamt ∧
        (published f).payload = f.payload :=
  decodeRun_output_slot (freshDecoder true)
    sampleRun (by decide)
theorem getDecodedFrame_ret (s : SimpleDecoder) (r : ReceiveResult) :
    (getDecodedFrame s r).1 = r.ret := by
  unfold getDecodedFrame
  simp only []
  split
  · split <;> rfl
  · split <;> rfl

theorem getDecodedFrame_flushCount (s : SimpleDecoder) (r : ReceiveResult) :
    (getDecodedFrame s r).2.flushCount =
      if r.ret = AVERROR_EOF then s.flushCount + 1 else s.flushCount := by
  unfold getDecodedFrame
  simp only []
  by_cases h1 : r.ret < 0
  · rw [if_pos h1]
    by_cases h2 : r.ret = AVERROR_EOF
    · rw [if_pos h2, if_pos h2]
    · rw [if_neg h2, if_neg h2]
  · have hne : r.ret ≠ AVERROR_EOF := by
      intro e; rw [e] at h1; revert h1; decide
    rw [if_neg h1, if_neg hne]
    split <;> rfl

/-- C11: when `avcodec_receive_frame` returns a negative status other than
`AVERROR_EOF`, or a non-negative status with a frame whose
`decode_error_flags` or `flags` is not 0, `getDecodedFrame` returns that
status, leaves `m_outputFrame` as it was and does not flush the buffers of the
codec library. -/
theorem getDecodedFrame_no_publish (s : SimpleDecoder) (r : ReceiveResult)
    (h : (r.ret < 0 ∧ r.ret ≠ AVERROR_EOF) ∨
      (0 ≤ r.ret ∧ (r.frame.decode_error_flags ≠ 0 ∨ r.frame.flags ≠ 0))) :
    (getDecodedFrame s r).1 = r.ret ∧
      (getDecodedFrame s r).2.m_outputFrame = s.m_outputFrame ∧
      (getDecodedFrame s r).2.flushCount = s.flushCount := by
  have hne : r.ret ≠ AVERROR_EOF := by
    rcases h with h | h
    · exact h.2
    · intro e; have h0 := h.1; rw [e] at h0; revert h0; decide
  have hd : delivered r = false := by
    rcases h with h | h
    · have h0 : ¬ (0 ≤ r.ret) := by omega
      simp [delivered, h0]
    · rcases h.2 with h2 | h2
      · simp [delivered, h2]
      · simp [delivered, h2]
  refine ⟨getDecodedFrame_ret s r, ?_, ?_⟩
  · rw [getDecodedFrame_output, hd, if_neg (by simp), if_neg hne]
  · rw [getDecodedFrame_flushCount, if_neg hne]

/-- C11 at a frame delivered with error flags while the slot holds a frame. -/
theorem getDecodedFrame_no_publish_witness :
    (getDecodedFrame (decodeRun (freshDecoder true) [⟨0, sampleFrame 7 0 0⟩])
        ⟨0, sampleFrame 8 1 0⟩).1 = 0 ∧
      (getDecodedFrame (decodeRun (freshDecoder true) [⟨0, sampleFrame 7 0 0⟩])
        ⟨0, sampleFrame 8 1 0⟩).2.m_outputFrame =
          (decodeRun (freshDecoder true) [⟨0, sampleFrame 7 0 0⟩]).m_outputFrame ∧
      (getDecodedFrame (decodeRun (freshDecoder true) [⟨0, sampleFrame 7 0 0⟩])
        ⟨0, sampleFrame 8 1 0⟩).2.flushCount =
          (decodeRun (freshDecoder true) [⟨0, sampleFrame 7 0 0⟩]).flushCount :=
  getDecodedFrame_no_publish (decodeRun (freshDecoder true) [⟨0, sampleFrame 7 0 0⟩])
    ⟨0, sampleFrame 8 1 0⟩ (by decide)

/-- C12: when `avcodec_receive_frame` returns `AVERROR_EOF`, `getDecodedFrame`
returns `AVERROR_EOF`, `m_outputFrame` is null afterwards and
`avcodec_flush_buffers` has been called once; for every other status it is not
called. -/
theorem getDecodedFrame_eof (s : SimpleDecoder) (r : ReceiveResult) :
    (r.ret = AVERROR_EOF →
      (getDecodedFrame s r).1 = AVERROR_EOF ∧
        (getDecodedFrame s r).2.m_outputFrame = none ∧
        (getDecodedFrame s r).2.flushCount = s.flushCount + 1) ∧
    (r.ret ≠ AVERROR_EOF → (getDecodedFrame s r).2.flushCount = s.flushCount) := by
  constructor
  · intro he
    have hd : delivered r = false := by
      have h0 : ¬ (0 ≤ r.ret) := by rw [he]; decide
      simp [delivered, h0]
    refine ⟨by rw [getDecodedFrame_ret, he], ?_, ?_⟩
    · rw [getDecodedFrame_output, hd, if_neg (by simp), if_pos he]
    · rw [getDecodedFrame_flushCount, if_pos he]
  · intro hne
    rw [getDecodedFrame_flushCount, if_neg hne]

/-- C12 at the end of a stream whose last frame is in the slot: the slot is
emptied and the buffers are flushed once. -/
theorem getDecodedFrame_eof_witness :
    (getDecodedFrame (decodeRun (freshDecoder true) [⟨0, sampleFrame 7 0 0⟩])
        ⟨AVERROR_EOF, sampleFrame 0 0 0⟩).1 = AVERROR_EOF ∧
      (decodeRun (freshDecoder true) [⟨0, sampleFrame 7 0 0⟩]).m_outputFrame =
        some (published (sampleFrame 7 0 0)) ∧
      (getDecodedFrame (decodeRun (freshDecoder true) [⟨0, sampleFrame 7 0 0⟩])
        ⟨AVERROR_EOF, sampleFrame 0 0 0⟩).2.m_outputFrame = none ∧
      (getDecodedFrame (decodeRun (freshDecoder true) [⟨0, sampleFrame 7 0 0⟩])
        ⟨AVERROR_EOF, sampleFrame 0 0 0⟩).2.flushCount =
          (decodeRun (freshDecoder true) [⟨0, sampleFrame 7 0 0⟩]).flushCount + 1 :=
  ⟨((getDecodedFrame_eof (decodeRun (freshDecoder true) [⟨0, sampleFrame 7 0 0⟩])
      ⟨AVERROR_EOF, sampleFrame 0 0 0⟩).1 rfl).1,
    by decide,
    ((getDecodedFrame_eof (decodeRun (freshDecoder true) [⟨0, sampleFrame 7 0 0⟩])
      ⟨AVERROR_EOF, sampleFrame 0 0 0⟩).1 rfl).2.1,
    ((getDecodedFrame_eof (decodeRun (freshDecoder true) [⟨0, sampleFrame 7 0 0⟩])
      ⟨AVERROR_EOF, sampleFrame 0 0 0⟩).1 rfl).2.2⟩

/-! ## The colour properties and the aspect ratio of the built format -/

theorem map_colorspace_space (ctx : AVCodecContext) (f : video_format_t) :
    (map_colorspace ctx f).space =
      if table_space ctx.colorspace = .COLOR_SPACE_UNDEF then f.space
      else table_space ctx.colorspace := by
  unfold map_colorspace
  cases ctx.colorspace <;> rfl

theorem map_color_trc_transfer (ctx : AVCodecContext) (f : video_format_t) :
    (map_color_trc ctx f).transfer =
      if table_transfer ctx.color_trc = .TRANSFER_FUNC_UNDEF then f.transfer
      else table_transfer ctx.color_trc := by
  unfold map_color_trc
  cases ctx.color_trc <;> rfl

theorem map_color_primaries_primaries (ctx : AVCodecContext) (f : video_format_t) :
    (map_color_primaries ctx f).primaries =
      if table_primaries ctx.color_primaries = .COLOR_PRIMARIES_UNDEF then f.primaries
      else table_primaries ctx.color_primaries := by
  unfold map_color_primaries
  cases ctx.color_primaries <;> rfl

theorem map_chroma_location_location (ctx : AVCodecContext) (f : video_format_t) :
    (map_chroma_location ctx f).chroma_location =
      if table_chroma_location ctx.chroma_sample_location = .CHROMA_LOCATION_UNDEF then
        f.chroma_location
      else table_chroma_location ctx.chroma_sample_location := by
  unfold map_chroma_location
  cases ctx.chroma_sample_location <;> rfl

theorem map_color_range_full (E : Engine) (ctx : AVCodecContext) (f : video_format_t) :
    (map_color_range E ctx f).b_color_range_full = table_range_full E ctx.color_range f.i_chroma ∧
      colour (map_color_range E ctx f) = colour f := by
  unfold map_color_range table_range_full
  cases ctx.color_range <;> simp [colour]

theorem map_color_range_space (E : Engine) (ctx : AVCodecContext) (f : video_format_t) :
    (map_color_range E ctx f).space = f.space := by
  unfold map_color_range; split <;> rfl

theorem map_color_range_transfer (E : Engine) (ctx : AVCodecContext) (f : video_format_t) :
    (map_color_range E ctx f).transfer = f.transfer := by
  unfold map_color_range; split <;> rfl

theorem map_color_range_primaries (E : Engine) (ctx : AVCodecContext) (f : video_format_t) :
    (map_color_range E ctx f).primaries = f.primaries := by
  unfold map_color_range; split <;> rfl

theorem map_color_range_location (E : Engine) (ctx : AVCodecContext) (f : video_format_t) :
    (map_color_range E ctx f).chroma_location = f.chroma_location := by
  unfold map_color_range; split <;> rfl

theorem map_colorspace_rest (ctx : AVCodecContext) (f : video_format_t) :
    (map_colorspace ctx f).b_color_range_full = f.b_color_range_full ∧
      (map_colorspace ctx f).transfer = f.transfer ∧
      (map_colorspace ctx f).primaries = f.primaries ∧
      (map_colorspace ctx f).chroma_location = f.chroma_location := by
  unfold map_colorspace
  cases ctx.colorspace <;> exact ⟨rfl, rfl, rfl, rfl⟩

theorem map_color_trc_rest (ctx : AVCodecContext) (f : video_format_t) :
    (map_color_trc ctx f).b_color_range_full = f.b_color_range_full ∧
      (map_color_trc ctx f).space = f.space ∧
      (map_color_trc ctx f).primaries = f.primaries ∧
      (map_color_trc ctx f).chroma_location = f.chroma_location := by
  unfold map_color_trc
  cases ctx.color_trc <;> exact ⟨rfl, rfl, rfl, rfl⟩

theorem map_color_primaries_rest (ctx : AVCodecContext) (f : video_format_t) :
    (map_color_primaries ctx f).b_color_range_full = f.b_color_range_full ∧
      (map_color_primaries ctx f).space = f.space ∧
      (map_color_primaries ctx f).transfer = f.transfer ∧
      (map_color_primaries ctx f).chroma_location = f.chroma_location := by
  unfold map_color_primaries
  cases ctx.color_primaries <;> exact ⟨rfl, rfl, rfl, rfl⟩

theorem map_chroma_location_rest (ctx : AVCodecContext) (f : video_format_t) :
    (map_chroma_location ctx f).b_color_range_full = f.b_color_range_full ∧
      (map_chroma_location ctx f).space = f.space ∧
      (map_chroma_location ctx f).transfer = f.transfer ∧
      (map_chroma_location ctx f).primaries = f.primaries := by
  unfold map_chroma_location
  cases ctx.chroma_sample_location <;> exact ⟨rfl, rfl, rfl, rfl⟩

/-- The colour properties `finishFormat` stores, in terms of the format it
starts from. -/
theorem finishFormat_colour (E : Engine) (mVA : Option VA) (ctx : AVCodecContext)
    (f : video_format_t) (p_dsc : vlc_chroma_description_t) (tw : Int)
    (planes : List plane_t) :
    (finishFormat E mVA ctx f p_dsc tw planes).b_color_range_full =
        table_range_full E ctx.color_range f.i_chroma ∧
      (finishFormat E mVA ctx f p_dsc tw planes).space =
        (if table_space ctx.colorspace = .COLOR_SPACE_UNDEF then f.space
          else table_space ctx.colorspace) ∧
      (finishFormat E mVA ctx f p_dsc tw planes).transfer =
        (if table_transfer ctx.color_trc = .TRANSFER_FUNC_UNDEF then f.transfer
          else table_transfer ctx.color_trc) ∧
      (finishFormat E mVA ctx f p_dsc tw planes).primaries =
        (if table_primaries ctx.color_primaries = .COLOR_PRIMARIES_UNDEF then f.primaries
          else table_primaries ctx.color_primaries) ∧
      (finishFormat E mVA ctx f p_dsc tw planes).chroma_location =
        (if table_chroma_location ctx.chroma_sample_location = .CHROMA_LOCATION_UNDEF then
          f.chroma_location
        else table_chroma_location ctx.chroma_sample_location) := by
  have key : ∀ g : video_format_t,
      (match mVA with
        | some va => { g with extra_info := E.getExtraInfoForRender va }
        | none => g).b_color_range_full = g.b_color_range_full ∧
      (match mVA with
        | some va => { g with extra_info := E.getExtraInfoForRender va }
        | none => g).space = g.space ∧
      (match mVA with
        | some va => { g with extra_info := E.getExtraInfoForRender va }
        | none => g).transfer = g.transfer ∧
      (match mVA with
        | some va => { g with extra_info := E.getExtraInfoForRender va }
        | none => g).primaries = g.primaries ∧
      (match mVA with
        | some va => { g with extra_info := E.getExtraInfoForRender va }
        | none => g).chroma_location = g.chroma_location := by
    intro g; cases mVA <;> exact ⟨rfl, rfl, rfl, rfl, rfl⟩
  unfold finishFormat
  simp only []
  refine ⟨?_, ?_, ?_, ?_, ?_⟩
  · rw [(key _).1, (map_chroma_location_rest _ _).1, (map_color_primaries_rest _ _).1,
      (map_color_trc_rest _ _).1, (map_colorspace_rest _ _).1, (map_color_range_full _ _ _).1]
    split_ifs <;> rfl
  · rw [(key _).2.1, (map_chroma_location_rest _ _).2.1, (map_color_primaries_rest _ _).2.1,
      (map_color_trc_rest _ _).2.1, map_colorspace_space, map_color_range_space]
    split_ifs <;> rfl
  · rw [(key _).2.2.1, (map_chroma_location_rest _ _).2.2.1,
      (map_color_primaries_rest _ _).2.2.1, map_color_trc_transfer,
      (map_colorspace_rest _ _).2.1, map_color_range_transfer]
    split_ifs <;> rfl
  · rw [(key _).2.2.2.1, (map_chroma_location_rest _ _).2.2.2, map_color_primaries_primaries,
      (map_color_trc_rest _ _).2.2.1, (map_colorspace_rest _ _).2.2.1,
      map_color_range_primaries]
    split_ifs <;> rfl
  · rw [(key _).2.2.2.2, map_chroma_location_location, (map_color_primaries_rest _ _).2.2.2,
      (map_color_trc_rest _ _).2.2.2, (map_colorspace_rest _ _).2.2.2,
      map_color_range_location]
    split_ifs <;> rfl

theorem initialFormat_colour (E : Engine) (s : SimpleDecoder) (pix_fmt sw_pix_fmt : AVPixelFormat) :
    colour (initialFormat E s pix_fmt sw_pix_fmt) = colour (E.video_format_Init s.videoForamt 0) ∧
      (initialFormat E s pix_fmt sw_pix_fmt).i_chroma =
        selectedChroma E (decide (pix_fmt = sw_pix_fmt)) pix_fmt sw_pix_fmt :=
  ⟨rfl, rfl⟩

/-- The sample environment initialises a format to the `unspecified` colour
properties. -/
theorem sampleEngine_initClearsColour (create : Bool) (status : Int) (restricted : Bool) :
    InitClearsColour (sampleEngine create status restricted) :=
  fun _ _ => rfl

/-- C13: when `getVideoFormat` returns 0, each of `space`, `transfer`,
`primaries` and `chroma_location` of the built format is the entry of the
mapping table for the codec value whenever that entry is not `unspecified`; and
provided `video_format_Init` clears the colour properties, the four fields are
exactly the table entries, so that a codec value that is not listed gives
`unspecified` whatever format the decoder held before the call. -/
theorem getVideoFormat_colour (E : Engine) (fuel : Nat) (s s1 : SimpleDecoder)
    (ctx : AVCodecContext) (pix_fmt sw_pix_fmt : AVPixelFormat)
    (h : getVideoFormat E fuel s ctx pix_fmt sw_pix_fmt = some (GVFStatus.ok, s1)) :
    (table_space ctx.colorspace ≠ .COLOR_SPACE_UNDEF →
        s1.videoForamt.space = table_space ctx.colorspace) ∧
      (table_transfer ctx.color_trc ≠ .TRANSFER_FUNC_UNDEF →
        s1.videoForamt.transfer = table_transfer ctx.color_trc) ∧
      (table_primaries ctx.color_primaries ≠ .COLOR_PRIMARIES_UNDEF →
        s1.videoForamt.primaries = table_primaries ctx.color_primaries) ∧
      (table_chroma_location ctx.chroma_sample_location ≠ .CHROMA_LOCATION_UNDEF →
        s1.videoForamt.chroma_location = table_chroma_location ctx.chroma_sample_location) ∧
      (InitClearsColour E →
        s1.videoForamt.space = table_space ctx.colorspace ∧
        s1.videoForamt.transfer = table_transfer ctx.color_trc ∧
        s1.videoForamt.primaries = table_primaries ctx.color_primaries ∧
        s1.videoForamt.chroma_location = table_chroma_location ctx.chroma_sample_location) := by
  obtain ⟨p_dsc, tw, planes, -, -, -, -, hs1⟩ := getVideoFormat_ok_inv E fuel s s1 ctx pix_fmt sw_pix_fmt h
  subst hs1
  obtain ⟨-, h1, h2, h3, h4⟩ := finishFormat_colour E s.mVA ctx
    (initialFormat E s pix_fmt sw_pix_fmt) p_dsc tw planes
  simp only []
  refine ⟨?_, ?_, ?_, ?_, ?_⟩
  · intro hne; rw [h1, if_neg hne]
  · intro hne; rw [h2, if_neg hne]
  · intro hne; rw [h3, if_neg hne]
  · intro hne; rw [h4, if_neg hne]
  · intro hinit
    have hc := hinit s.videoForamt 0
    rw [← (initialFormat_colour E s pix_fmt sw_pix_fmt).1] at hc
    simp only [colour, Prod.mk.injEq] at hc
    obtain ⟨c1, c2, c3, c4⟩ := hc
    rw [h1, h2, h3, h4, c1, c2, c3, c4]
    refine ⟨?_, ?_, ?_, ?_⟩ <;> split_ifs with hu <;> first | rfl | exact hu.symm

/-- C13 at a full-range BT.709 stream negotiated for VAAPI: the built format
is BT.709 with left-sited chroma. -/
theorem getVideoFormat_colour_witness :
    ∃ s1, getVideoFormat vaapiEngine 0 (freshDecoder true) bt709Ctx
        AV_PIX_FMT_VAAPI_VLD AV_PIX_FMT_YUV420P = some (GVFStatus.ok, s1) ∧
      InitClearsColour vaapiEngine ∧
      s1.videoForamt.space = .COLOR_SPACE_BT709 ∧
      s1.videoForamt.transfer = .TRANSFER_FUNC_BT709 ∧
      s1.videoForamt.primaries = .COLOR_PRIMARIES_BT709 ∧
      s1.videoForamt.chroma_location = .CHROMA_LOCATION_LEFT := by
  have h : ∃ s1, getVideoFormat vaapiEngine 0 (freshDecoder true) bt709Ctx
        AV_PIX_FMT_VAAPI_VLD AV_PIX_FMT_YUV420P = some (GVFStatus.ok, s1) := ⟨_, rfl⟩
  obtain ⟨s1, h1⟩ := h
  exact ⟨s1, h1, sampleEngine_initClearsColour true 0 false,
    (getVideoFormat_colour _ _ _ _ _ _ _ h1).2.2.2.2 (sampleEngine_initClearsColour true 0 false)⟩

/-- C14: when `getVideoFormat` returns 0, the chroma of the built format is the
selected chroma, and `b_color_range_full` is true exactly when the colour range
of the codec context is JPEG, or is UNSPECIFIED with a selected chroma that is
not a YUV chroma; in particular it is false for MPEG. -/
theorem getVideoFormat_range (E : Engine) (fuel : Nat) (s s1 : SimpleDecoder)
    (ctx : AVCodecContext) (pix_fmt sw_pix_fmt : AVPixelFormat)
    (h : getVideoFormat E fuel s ctx pix_fmt sw_pix_fmt = some (GVFStatus.ok, s1)) :
    s1.videoForamt.i_chroma =
        selectedChroma E (decide (pix_fmt = sw_pix_fmt)) pix_fmt sw_pix_fmt ∧
      (s1.videoForamt.b_color_range_full = true ↔
        (ctx.color_range = .AVCOL_RANGE_JPEG ∨
          (ctx.color_range = .AVCOL_RANGE_UNSPECIFIED ∧
            E.vlc_fourcc_IsYUV s1.videoForamt.i_chroma = false))) ∧
      (ctx.color_range = .AVCOL_RANGE_MPEG → s1.videoForamt.b_color_range_full = false) := by
  obtain ⟨p_dsc, tw, planes, -, -, -, -, hs1⟩ :=
    getVideoFormat_ok_inv E fuel s s1 ctx pix_fmt sw_pix_fmt h
  subst hs1
  have hg := geometry_finishFormat E s.mVA ctx (initialFormat E s pix_fmt sw_pix_fmt)
    p_dsc tw planes
  simp only [geometry, Prod.mk.injEq] at hg
  have hc := hg.1
  have hr := (finishFormat_colour E s.mVA ctx (initialFormat E s pix_fmt sw_pix_fmt)
    p_dsc tw planes).1
  simp only []
  rw [hr, hc]
  refine ⟨rfl, ?_, ?_⟩
  · simp [table_range_full]
  · intro hm
    simp [table_range_full, hm]

/-- C14 at the sample stream, whose range is UNSPECIFIED and whose chroma is a
YUV chroma: the built format is limited range. -/
theorem getVideoFormat_range_witness :
    ∃ s1, getVideoFormat vaapiEngine 0 (freshDecoder true) hdCtx
        AV_PIX_FMT_VAAPI_VLD AV_PIX_FMT_YUV420P = some (GVFStatus.ok, s1) ∧
      s1.videoForamt.i_chroma =
        selectedChroma vaapiEngine (decide (AV_PIX_FMT_VAAPI_VLD = AV_PIX_FMT_YUV420P))
          AV_PIX_FMT_VAAPI_VLD AV_PIX_FMT_YUV420P ∧
      (s1.videoForamt.b_color_range_full = true ↔
        (hdCtx.color_range = .AVCOL_RANGE_JPEG ∨
          (hdCtx.color_range = .AVCOL_RANGE_UNSPECIFIED ∧
            vaapiEngine.vlc_fourcc_IsYUV s1.videoForamt.i_chroma = false))) ∧
      (hdCtx.color_range = .AVCOL_RANGE_MPEG → s1.videoForamt.b_color_range_full = false) := by
  have h : ∃ s1, getVideoFormat vaapiEngine 0 (freshDecoder true) hdCtx
        AV_PIX_FMT_VAAPI_VLD AV_PIX_FMT_YUV420P = some (GVFStatus.ok, s1) := ⟨_, rfl⟩
  obtain ⟨s1, h1⟩ := h
  exact ⟨s1, h1, getVideoFormat_range _ _ _ _ _ _ _ h1⟩

/-- C15: when `getVideoFormat` returns 0, the sample aspect ratio of the built
format is the one of the codec context when both of its components are
non-zero and is 1/1 when either is zero; neither stored component is 0. -/
theorem getVideoFormat_sar (E : Engine) (fuel : Nat) (s s1 : SimpleDecoder)
    (ctx : AVCodecContext) (pix_fmt sw_pix_fmt : AVPixelFormat)
    (h : getVideoFormat E fuel s ctx pix_fmt sw_pix_fmt = some (GVFStatus.ok, s1)) :
    (ctx.sample_aspect_ratio.num ≠ 0 ∧ ctx.sample_aspect_ratio.den ≠ 0 →
        s1.videoForamt.i_sar_num = ctx.sample_aspect_ratio.num ∧
        s1.videoForamt.i_sar_den = ctx.sample_aspect_ratio.den) ∧
      (ctx.sample_aspect_ratio.num = 0 ∨ ctx.sample_aspect_ratio.den = 0 →
        s1.videoForamt.i_sar_num = 1 ∧ s1.videoForamt.i_sar_den = 1) ∧
      s1.videoForamt.i_sar_num ≠ 0 ∧ s1.videoForamt.i_sar_den ≠ 0 := by
  obtain ⟨p_dsc, tw, planes, -, -, -, -, hs1⟩ :=
    getVideoFormat_ok_inv E fuel s s1 ctx pix_fmt sw_pix_fmt h
  subst hs1
  have hg := geometry_finishFormat E s.mVA ctx (initialFormat E s pix_fmt sw_pix_fmt)
    p_dsc tw planes
  simp only [geometry, Prod.mk.injEq] at hg
  obtain ⟨-, -, -, -, -, hn, hd, -, -⟩ := hg
  simp only []
  rw [hn, hd]
  by_cases hz : ctx.sample_aspect_ratio.num = 0 ∨ ctx.sample_aspect_ratio.den = 0
  · rw [if_pos hz, if_pos hz]
    refine ⟨fun hh => ?_, fun _ => ⟨rfl, rfl⟩, one_ne_zero, one_ne_zero⟩
    rcases hz with hz | hz
    · exact absurd hz hh.1
    · exact absurd hz hh.2
  · rw [if_neg hz, if_neg hz]
    push_neg at hz
    refine ⟨fun _ => ⟨rfl, rfl⟩, fun hh => ?_, hz.1, hz.2⟩
    rcases hh with hh | hh
    · exact absurd hh hz.1
    · exact absurd hh hz.2

/-- C15 at a stream whose sample aspect ratio is reported as 0/1: the built
format stores 1/1. -/
theorem getVideoFormat_sar_witness :
    ∃ s1, getVideoFormat vaapiEngine 0 (freshDecoder true) unknownSarCtx
        AV_PIX_FMT_VAAPI_VLD AV_PIX_FMT_YUV420P = some (GVFStatus.ok, s1) ∧
      s1.videoForamt.i_sar_num = 1 ∧ s1.videoForamt.i_sar_den = 1 ∧
      s1.videoForamt.i_sar_num ≠ 0 ∧ s1.videoForamt.i_sar_den ≠ 0 := by
  have h : ∃ s1, getVideoFormat vaapiEngine 0 (freshDecoder true) unknownSarCtx
        AV_PIX_FMT_VAAPI_VLD AV_PIX_FMT_YUV420P = some (GVFStatus.ok, s1) := ⟨_, rfl⟩
  obtain ⟨s1, h1⟩ := h
  have h2 := getVideoFormat_sar _ _ _ _ _ _ _ h1
  exact ⟨s1, h1, (h2.2.1 (Or.inl rfl)).1, (h2.2.1 (Or.inl rfl)).2, h2.2.2.1, h2.2.2.2⟩

/-! ## The buffer callback -/

theorem resetEntry_fold_rest (is : List Nat) (frame : AVFrame) :
    (is.foldl resetEntry frame).payload = frame.payload ∧
      (is.foldl resetEntry frame).decode_error_flags = frame.decode_error_flags ∧
      (is.foldl resetEntry frame).flags = frame.flags ∧
      (is.foldl resetEntry frame).opaque_ptr = frame.opaque_ptr ∧
      (is.foldl resetEntry frame).data.length = frame.data.length ∧
      (is.foldl resetEntry frame).linesize.length = frame.linesize.length ∧
      (is.foldl resetEntry frame).buf.length = frame.buf.length := by
  induction is generalizing frame with
  | nil => exact ⟨rfl, rfl, rfl, rfl, rfl, rfl, rfl⟩
  | cons j rest ih =>
    rw [List.foldl_cons]
    obtain ⟨h1, h2, h3, h4, h5, h6, h7⟩ := ih (resetEntry frame j)
    refine ⟨h1, h2, h3, h4, ?_, ?_, ?_⟩
    · rw [h5]; simp [resetEntry]
    · rw [h6]; simp [resetEntry]
    · rw [h7]; simp [resetEntry]

theorem resetEntry_fold_data (is : List Nat) (frame : AVFrame) (i : Nat) :
    (is.foldl resetEntry frame).data[i]? =
      if i ∈ is then frame.data[i]?.map (fun _ => none) else frame.data[i]? := by
  induction is generalizing frame with
  | nil => simp
  | cons j rest ih =>
    rw [List.foldl_cons, ih]
    simp only [resetEntry, List.mem_cons, List.getElem?_set]
    by_cases hj : j = i
    · subst hj
      by_cases hl : j < frame.data.length
      · simp [hl]
      · simp [hl, List.getElem?_eq_none (not_lt.mp hl)]
    · have hj2 : ¬ i = j := fun h => hj h.symm
      simp [hj, hj2]

theorem resetEntry_fold_linesize (is : List Nat) (frame : AVFrame) (i : Nat) :
    (is.foldl resetEntry frame).linesize[i]? =
      if i ∈ is then frame.linesize[i]?.map (fun _ => 0) else frame.linesize[i]? := by
  induction is generalizing frame with
  | nil => simp
  | cons j rest ih =>
    rw [List.foldl_cons, ih]
    simp only [resetEntry, List.mem_cons, List.getElem?_set]
    by_cases hj : j = i
    · subst hj
      by_cases hl : j < frame.linesize.length
      · simp [hl]
      · simp [hl, List.getElem?_eq_none (not_lt.mp hl)]
    · have hj2 : ¬ i = j := fun h => hj h.symm
      simp [hj, hj2]

theorem resetEntry_fold_buf (is : List Nat) (frame : AVFrame) (i : Nat) :
    (is.foldl resetEntry frame).buf[i]? =
      if i ∈ is then frame.buf[i]?.map (fun _ => none) else frame.buf[i]? := by
  induction is generalizing frame with
  | nil => simp
  | cons j rest ih =>
    rw [List.foldl_cons, ih]
    simp only [resetEntry, List.mem_cons, List.getElem?_set]
    by_cases hj : j = i
    · subst hj
      by_cases hl : j < frame.buf.length
      · simp [hl]
      · simp [hl, List.getElem?_eq_none (not_lt.mp hl)]
    · have hj2 : ¬ i = j := fun h => hj h.symm
      simp [hj, hj2]

theorem resetFrame_entries (frame : AVFrame) (i : Nat) (hi : i < AV_NUM_DATA_POINTERS) :
    (resetFrame frame).data[i]? = frame.data[i]?.map (fun _ => none) ∧
      (resetFrame frame).linesize[i]? = frame.linesize[i]?.map (fun _ => 0) ∧
      (resetFrame frame).buf[i]? = frame.buf[i]?.map (fun _ => none) := by
  have hm : i ∈ List.range AV_NUM_DATA_POINTERS := List.mem_range.mpr hi
  refine ⟨?_, ?_, ?_⟩
  · show ((List.range AV_NUM_DATA_POINTERS).foldl resetEntry frame).data[i]? = _
    rw [resetEntry_fold_data, if_pos hm]
  · show ((List.range AV_NUM_DATA_POINTERS).foldl resetEntry frame).linesize[i]? = _
    rw [resetEntry_fold_linesize, if_pos hm]
  · show ((List.range AV_NUM_DATA_POINTERS).foldl resetEntry frame).buf[i]? = _
    rw [resetEntry_fold_buf, if_pos hm]

theorem resetFrame_rest (frame : AVFrame) :
    (resetFrame frame).payload = frame.payload ∧
      (resetFrame frame).decode_error_flags = frame.decode_error_flags ∧
      (resetFrame frame).flags = frame.flags ∧
      (resetFrame frame).data.length = frame.data.length ∧
      (resetFrame frame).linesize.length = frame.linesize.length ∧
      (resetFrame frame).buf.length = frame.buf.length := by
  obtain ⟨h1, h2, h3, -, h5, h6, h7⟩ :=
    resetEntry_fold_rest (List.range AV_NUM_DATA_POINTERS) frame
  exact ⟨h1, h2, h3, h5, h6, h7⟩

theorem replicate_of_getElem {α : Type} (l : List α) (n : Nat) (a : α) (hl : l.length = n)
    (h : ∀ i : Nat, i < n → l[i]? = l[i]?.map (fun _ => a)) : l = List.replicate n a := by
  apply List.ext_getElem?
  intro i
  by_cases hi : i < n
  · rw [h i hi]
    have hi2 : i < l.length := hl ▸ hi
    simp [List.getElem?_eq_getElem hi2, List.getElem?_replicate, hi]
  · have hi2 : l.length ≤ i := hl ▸ not_lt.mp hi
    simp [List.getElem?_eq_none hi2, List.getElem?_replicate, hi]

/-- C17: `lavc_GetFrame` resets every one of the `AV_NUM_DATA_POINTERS` entries
of `data`, `linesize` and `buf` of the frame and the user pointer of the frame
(so that arrays of `AV_NUM_DATA_POINTERS` entries hold only `NULL` and 0) and
leaves the rest of the frame alone; it then hands the reset frame to exactly one
function and returns what that function returns: the default `get_buffer2` of
the codec library when `mVA` is `NULL`, the `getFrame` of the object in `mVA`
otherwise, so that the default is called if and only if `mVA` is `NULL`. -/
theorem lavc_GetFrame_delegates (B : FrameEngine) (s : SimpleDecoder) (ctx : AVCodecContext)
    (frame : AVFrame) (flags : Int) :
    (∀ i : Nat, i < AV_NUM_DATA_POINTERS →
        (resetFrame frame).data[i]? = frame.data[i]?.map (fun _ => none) ∧
        (resetFrame frame).linesize[i]? = frame.linesize[i]?.map (fun _ => 0) ∧
        (resetFrame frame).buf[i]? = frame.buf[i]?.map (fun _ => none)) ∧
      (frame.data.length = AV_NUM_DATA_POINTERS →
        (resetFrame frame).data = List.replicate AV_NUM_DATA_POINTERS none) ∧
      (frame.linesize.length = AV_NUM_DATA_POINTERS →
        (resetFrame frame).linesize = List.replicate AV_NUM_DATA_POINTERS 0) ∧
      (frame.buf.length = AV_NUM_DATA_POINTERS →
        (resetFrame frame).buf = List.replicate AV_NUM_DATA_POINTERS none) ∧
      (resetFrame frame).opaque_ptr = none ∧
      (resetFrame frame).payload = frame.payload ∧
      (resetFrame frame).decode_error_flags = frame.decode_error_flags ∧
      (resetFrame frame).flags = frame.flags ∧
      (s.mVA = none →
        lavc_GetFrame B s ctx frame flags =
          ((B.avcodec_default_get_buffer2 ctx (resetFrame frame) flags).1,
            (B.avcodec_default_get_buffer2 ctx (resetFrame frame) flags).2,
            [BufferCall.engine_default])) ∧
      (∀ va, s.mVA = some va →
        lavc_GetFrame B s ctx frame flags =
          ((B.va_getFrame va (resetFrame frame)).1, (B.va_getFrame va (resetFrame frame)).2,
            [BufferCall.va_getFrame va.id])) ∧
      (BufferCall.engine_default ∈ (lavc_GetFrame B s ctx frame flags).2.2 ↔ s.mVA = none) := by
  obtain ⟨r1, r2, r3, r4, r5, r6⟩ := resetFrame_rest frame
  refine ⟨fun i hi => resetFrame_entries frame i hi, ?_, ?_, ?_, rfl, r1, r2, r3, ?_, ?_, ?_⟩
  · intro hl
    refine replicate_of_getElem _ _ _ (r4.trans hl) (fun i hi => ?_)
    rw [(resetFrame_entries frame i hi).1]
    cases frame.data[i]? <;> rfl
  · intro hl
    refine replicate_of_getElem _ _ _ (r5.trans hl) (fun i hi => ?_)
    rw [(resetFrame_entries frame i hi).2.1]
    cases frame.linesize[i]? <;> rfl
  · intro hl
    refine replicate_of_getElem _ _ _ (r6.trans hl) (fun i hi => ?_)
    rw [(resetFrame_entries frame i hi).2.2]
    cases frame.buf[i]? <;> rfl
  · intro hn
    unfold lavc_GetFrame
    rw [hn]
  · intro va hv
    unfold lavc_GetFrame
    rw [hv]
  · unfold lavc_GetFrame
    cases hm : s.mVA with
    | none => simp
    | some va => simp

/-- C17 at a frame with stale pointers, on a decoder that holds the object
number 0: the hardware object receives the reset frame and the default
allocator is not called. -/
theorem lavc_GetFrame_delegates_witness :
    (hwDecoder true).mVA = some { id := 0, fmt := AV_PIX_FMT_VAAPI_VLD } ∧
      staleFrame.data.length = AV_NUM_DATA_POINTERS ∧
      (resetFrame staleFrame).data = List.replicate AV_NUM_DATA_POINTERS none ∧
      lavc_GetFrame sampleFrameEngine (hwDecoder true) hdCtx staleFrame 0 =
        ((sampleFrameEngine.va_getFrame { id := 0, fmt := AV_PIX_FMT_VAAPI_VLD }
            (resetFrame staleFrame)).1,
          (sampleFrameEngine.va_getFrame { id := 0, fmt := AV_PIX_FMT_VAAPI_VLD }
            (resetFrame staleFrame)).2,
          [BufferCall.va_getFrame 0]) ∧
      lavc_GetFrame sampleFrameEngine (hwDecoder true) hdCtx staleFrame 0 =
        (0, { sampleFrame 3 0 0 with data := [some 100, none, none, none, none, none, none, none] },
          [BufferCall.va_getFrame 0]) :=
  ⟨rfl, rfl,
    (lavc_GetFrame_delegates sampleFrameEngine (hwDecoder true) hdCtx staleFrame 0).2.1 rfl,
    (lavc_GetFrame_delegates sampleFrameEngine (hwDecoder true) hdCtx staleFrame 0).2.2.2.2.2.2.2.2.2.1
      _ rfl,
    by decide⟩

/-! ## Set-up of the decoder -/

/-- C18: `setupDecoder` returns, unless the unchecked `av_mallocz` result is
`NULL` or the size copied is negative; it returns `false` exactly when the
decoder is not found, the context allocation fails or `avcodec_open2` gives a
negative status; and when it returns `true` the context has both callbacks
installed with `opaque = this`, `thread_count = 1`, `thread_type = 0`, and
`m_decodedFrame` holds whatever `av_frame_alloc` returned, `NULL` included. -/
theorem setupDecoder_outcome (L : SetupEngine) (s : SimpleDecoder) (id : Nat)
    (extra_data : List Nat) (extra_data_size : Int) :
    (setupDecoder L s id extra_data extra_data_size = none ↔
        ∃ codec c, L.avcodec_find_decoder id = some codec ∧
          L.avcodec_alloc_context3 codec = some c ∧
          (L.av_mallocz (extra_data_size + L.AV_INPUT_BUFFER_PADDING_SIZE) = false ∨
            extra_data_size < 0)) ∧
      (∀ s1, setupDecoder L s id extra_data extra_data_size = some (false, s1) ↔
        (L.avcodec_find_decoder id = none ∧ s1 = { s with m_codec := none }) ∨
        (∃ codec, L.avcodec_find_decoder id = some codec ∧
          L.avcodec_alloc_context3 codec = none ∧
          s1 = { s with m_codec := some codec, m_codecCont := none }) ∨
        (∃ codec c, L.avcodec_find_decoder id = some codec ∧
          L.avcodec_alloc_context3 codec = some c ∧
          ¬ (L.av_mallocz (extra_data_size + L.AV_INPUT_BUFFER_PADDING_SIZE) = false ∨
            extra_data_size < 0) ∧
          L.avcodec_open2 (configuredContext L c extra_data extra_data_size) codec < 0 ∧
          s1 = { s with
            m_codec := some codec
            m_codecCont := some (configuredContext L c extra_data extra_data_size) })) ∧
      (∀ s1, setupDecoder L s id extra_data extra_data_size = some (true, s1) ↔
        ∃ codec c, L.avcodec_find_decoder id = some codec ∧
          L.avcodec_alloc_context3 codec = some c ∧
          ¬ (L.av_mallocz (extra_data_size + L.AV_INPUT_BUFFER_PADDING_SIZE) = false ∨
            extra_data_size < 0) ∧
          0 ≤ L.avcodec_open2 (configuredContext L c extra_data extra_data_size) codec ∧
          s1 = { s with
            m_codec := some codec
            m_codecCont := some (configuredContext L c extra_data extra_data_size)
            m_decodedFrame := L.av_frame_alloc }) ∧
      (∀ s1, setupDecoder L s id extra_data extra_data_size = some (true, s1) →
        s1.m_decodedFrame = L.av_frame_alloc ∧
        ∃ cc, s1.m_codecCont = some cc ∧ cc.get_format_installed = true ∧
          cc.get_buffer2_installed = true ∧ cc.opaque_this = true ∧ cc.thread_count = 1 ∧
          cc.thread_type = 0 ∧ cc.thread_safe_callbacks = true ∧
          cc.refcounted_frames = some 1 ∧ cc.extradata_size = extra_data_size) := by
  cases hf : L.avcodec_find_decoder id with
  | none =>
    have hv : setupDecoder L s id extra_data extra_data_size =
        some (false, { s with m_codec := none }) := by
      unfold setupDecoder; rw [hf]
    rw [hv]
    refine ⟨?_, ?_, ?_, ?_⟩
    · constructor
      · intro h; cases h
      · rintro ⟨codec, c, h, -⟩; cases h
    · intro s1
      constructor
      · intro h
        simp only [Option.some.injEq, Prod.mk.injEq, true_and] at h
        exact Or.inl ⟨rfl, h.symm⟩
      · rintro (⟨-, h⟩ | ⟨codec, h, -⟩ | ⟨codec, c, h, -⟩)
        · rw [h]
        · cases h
        · cases h
    · intro s1
      constructor
      · intro h
        simp only [Option.some.injEq, Prod.mk.injEq] at h
        exact absurd h.1 (by decide)
      · rintro ⟨codec, c, h, -⟩; cases h
    · intro s1 h
      simp only [Option.some.injEq, Prod.mk.injEq] at h
      exact absurd h.1 (by decide)
  | some codec =>
    cases ha : L.avcodec_alloc_context3 codec with
    | none =>
      have hv : setupDecoder L s id extra_data extra_data_size =
          some (false, { s with m_codec := some codec, m_codecCont := none }) := by
        unfold setupDecoder; rw [hf]; simp only [ha]
      rw [hv]
      refine ⟨?_, ?_, ?_, ?_⟩
      · constructor
        · intro h; cases h
        · rintro ⟨codec2, c, h, h2, -⟩
          cases h; rw [ha] at h2; cases h2
      · intro s1
        constructor
        · intro h
          simp only [Option.some.injEq, Prod.mk.injEq, true_and] at h
          exact Or.inr (Or.inl ⟨codec, rfl, ha, h.symm⟩)
        · rintro (⟨h, -⟩ | ⟨codec2, h, -, h3⟩ | ⟨codec2, c, h, h2, -⟩)
          · cases h
          · cases h; rw [h3]
          · cases h; rw [ha] at h2; cases h2
      · intro s1
        constructor
        · intro h
          simp only [Option.some.injEq, Prod.mk.injEq] at h
          exact absurd h.1 (by decide)
        · rintro ⟨codec2, c, h, h2, -⟩
          cases h; rw [ha] at h2; cases h2
      · intro s1 h
        simp only [Option.some.injEq, Prod.mk.injEq] at h
        exact absurd h.1 (by decide)
    | some c =>
      by_cases hm : L.av_mallocz (extra_data_size + L.AV_INPUT_BUFFER_PADDING_SIZE) = false ∨
          extra_data_size < 0
      · have hv : setupDecoder L s id extra_data extra_data_size = none := by
          unfold setupDecoder; rw [hf]; simp only [ha]; rw [if_pos hm]
        rw [hv]
        refine ⟨?_, ?_, ?_, ?_⟩
        · exact ⟨fun _ => ⟨codec, c, rfl, ha, hm⟩, fun _ => rfl⟩
        · intro s1
          constructor
          · intro h; cases h
          · rintro (⟨h, -⟩ | ⟨codec2, h, h2, -⟩ | ⟨codec2, c2, h, h2, h3, -⟩)
            · cases h
            · cases h; rw [ha] at h2; cases h2
            · exact absurd hm h3
        · intro s1
          constructor
          · intro h; cases h
          · rintro ⟨codec2, c2, h, h2, h3, -⟩
            exact absurd hm h3
        · intro s1 h; cases h
      · by_cases ho :
            L.avcodec_open2 (configuredContext L c extra_data extra_data_size) codec < 0
        · have hv : setupDecoder L s id extra_data extra_data_size =
              some (false, { s with
                m_codec := some codec
                m_codecCont := some (configuredContext L c extra_data extra_data_size) }) := by
            unfold setupDecoder; rw [hf]; simp only [ha]; rw [if_neg hm, if_pos ho]
          rw [hv]
          refine ⟨?_, ?_, ?_, ?_⟩
          · constructor
            · intro h; cases h
            · rintro ⟨codec2, c2, h, h2, h3⟩
              exact absurd h3 hm
          · intro s1
            constructor
            · intro h
              simp only [Option.some.injEq, Prod.mk.injEq, true_and] at h
              exact Or.inr (Or.inr ⟨codec, c, rfl, ha, hm, ho, h.symm⟩)
            · rintro (⟨h, -⟩ | ⟨codec2, h, h2, -⟩ | ⟨codec2, c2, h, h2, -, -, h5⟩)
              · cases h
              · cases h; rw [ha] at h2; cases h2
              · cases h; rw [ha] at h2; cases h2; rw [h5]
          · intro s1
            constructor
            · intro h
              simp only [Option.some.injEq, Prod.mk.injEq] at h
              exact absurd h.1 (by decide)
            · rintro ⟨codec2, c2, h, h2, -, h4, -⟩
              cases h; rw [ha] at h2; cases h2
              exact absurd ho (not_lt.mpr h4)
          · intro s1 h
            simp only [Option.some.injEq, Prod.mk.injEq] at h
            exact absurd h.1 (by decide)
        · have hv : setupDecoder L s id extra_data extra_data_size =
              some (true, { s with
                m_codec := some codec
                m_codecCont := some (configuredContext L c extra_data extra_data_size)
                m_decodedFrame := L.av_frame_alloc }) := by
            unfold setupDecoder; rw [hf]; simp only [ha]; rw [if_neg hm, if_neg ho]
          rw [hv]
          refine ⟨?_, ?_, ?_, ?_⟩
          · constructor
            · intro h; cases h
            · rintro ⟨codec2, c2, h, h2, h3⟩
              exact absurd h3 hm
          · intro s1
            constructor
            · intro h
              simp only [Option.some.injEq, Prod.mk.injEq] at h
              exact absurd h.1 (by decide)
            · rintro (⟨h, -⟩ | ⟨codec2, h, h2, -⟩ | ⟨codec2, c2, h, h2, -, h4, -⟩)
              · cases h
              · cases h; rw [ha] at h2; cases h2
              · cases h; rw [ha] at h2; cases h2
                exact absurd h4 ho
          · intro s1
            constructor
            · intro h
              simp only [Option.some.injEq, Prod.mk.injEq, true_and] at h
              exact ⟨codec, c, rfl, ha, hm, not_lt.mp ho, h.symm⟩
            · rintro ⟨codec2, c2, h, h2, -, -, h5⟩
              cases h; rw [ha] at h2; cases h2; rw [h5]
          · intro s1 h
            simp only [Option.some.injEq, Prod.mk.injEq, true_and] at h
            subst h
            exact ⟨rfl, _, rfl, rfl, rfl, rfl, rfl, rfl, rfl, rfl, rfl⟩

/-- C18 at a library on which every step succeeds: `setupDecoder` returns
`true` with the configured context and the allocated frame. -/
theorem setupDecoder_outcome_witness :
    ∃ s1, setupDecoder (sampleSetupEngine true 0) (freshDecoder true) 27 [1, 2, 3] 3 =
        some (true, s1) ∧
      s1.m_decodedFrame = (sampleSetupEngine true 0).av_frame_alloc ∧
      ∃ cc, s1.m_codecCont = some cc ∧ cc.get_format_installed = true ∧
        cc.get_buffer2_installed = true ∧ cc.opaque_this = true ∧ cc.thread_count = 1 ∧
        cc.thread_type = 0 ∧ cc.thread_safe_callbacks = true ∧
        cc.refcounted_frames = some 1 ∧ cc.extradata_size = 3 := by
  have h : ∃ s1, setupDecoder (sampleSetupEngine true 0) (freshDecoder true) 27 [1, 2, 3] 3 =
      some (true, s1) := ⟨_, rfl⟩
  obtain ⟨s1, h1⟩ := h
  exact ⟨s1, h1, (setupDecoder_outcome _ _ _ _ _).2.2.2 s1 h1⟩

/-- The decoded-frame allocation is not tested: when `av_frame_alloc` returns
`NULL` and every other step succeeds, `setupDecoder` returns `true` and
`m_decodedFrame` is `NULL`. -/
theorem setupDecoder_frame_alloc_unchecked :
    (sampleSetupEngine false 0).av_frame_alloc = none ∧
      ∃ s1, setupDecoder (sampleSetupEngine false 0) (freshDecoder true) 27 [1, 2, 3] 3 =
          some (true, s1) ∧
        s1.m_decodedFrame = none :=
  ⟨rfl, _, rfl, rfl⟩

/-! ## Ownership of the `VideoAcceleration` object -/

theorem liveVAs_append (a b : List VAEvent) :
    liveVAs (a ++ b) = b.foldl liveStep (liveVAs a) := by
  unfold liveVAs
  rw [List.foldl_append]

theorem orderly_append (a b : List VAEvent) (live : List Nat) :
    orderly live (a ++ b) = (orderly live a && orderly (a.foldl liveStep live) b) := by
  induction a generalizing live with
  | nil => simp [orderly]
  | cons e rest ih =>
    show (decide ((liveStep live e).length ≤ 1) && orderly (liveStep live e) (rest ++ b)) = _
    rw [ih]
    simp only [orderly, List.foldl_cons, Bool.and_assoc]

theorem settles_nil (live : List Nat) : Settles live [] live :=
  ⟨rfl, rfl⟩

theorem settles_append {a b : List VAEvent} {l0 l1 l2 : List Nat}
    (ha : Settles l0 a l1) (hb : Settles l1 b l2) : Settles l0 (a ++ b) l2 := by
  obtain ⟨ha1, ha2⟩ := ha
  obtain ⟨hb1, hb2⟩ := hb
  refine ⟨?_, ?_⟩
  · rw [orderly_append, ha1, ha2, hb1]; rfl
  · rw [List.foldl_append, ha2, hb2]

theorem settles_triple (n : Nat) :
    Settles [] [VAEvent.create n, VAEvent.opening n, VAEvent.delete n] [] := by
  refine ⟨?_, ?_⟩ <;> simp [orderly, liveStep]

theorem settles_created (n : Nat) :
    Settles [] [VAEvent.create n, VAEvent.opening n] [n] := by
  refine ⟨?_, ?_⟩ <;> simp [orderly, liveStep]

theorem settles_close (s : SimpleDecoder) : Settles (held s) (closeLog s) [] := by
  unfold held closeLog
  cases s.mVA with
  | none => exact settles_nil []
  | some va => refine ⟨?_, ?_⟩ <;> simp [closeEvents, orderly, liveStep]

theorem close_va_decoder_log (s : SimpleDecoder) :
    (close_va_decoder s).vaLog = s.vaLog ++ closeLog s ∧ (close_va_decoder s).mVA = none := by
  unfold close_va_decoder closeLog
  cases h : s.mVA with
  | none => simp [h]
  | some va => simp [closeEvents]

/-- One iteration of the hardware loop on an entry that is not viable: no
object is live afterwards. -/
theorem hwLoop_step_skip_settles (E : Engine) (fuel : Nat) (ctx : AVCodecContext)
    (pi_fmt : List AVPixelFormat) (swfmt : AVPixelFormat) (s : SimpleDecoder)
    (h : AVPixelFormat) (rest : List AVPixelFormat)
    (hv : hwViable E ctx pi_fmt swfmt h = false) :
    ∃ f evs, Settles [] evs [] ∧
      hwLoop E fuel ctx pi_fmt swfmt s (h :: rest) =
        hwLoop E fuel ctx pi_fmt swfmt
          { s with videoForamt := f, vaLog := s.vaLog ++ evs } rest := by
  by_cases hc : (candidates pi_fmt).contains h = true
  · have hne : h ≠ AV_PIX_FMT_NONE :=
      candidates_ne_none pi_fmt h (by simpa using hc)
    by_cases h1 : E.vlc_va_GetChroma h swfmt = 0
    · refine ⟨{ s.videoForamt with i_chroma := E.vlc_va_GetChroma h swfmt }, [],
        settles_nil [], ?_⟩
      rw [hwLoop]
      simp only [hc, if_true, hne, if_false, h1, List.append_nil]
    · by_cases h2 : ctx.width = 0 ∨ ctx.height = 0
      · refine ⟨{ s.videoForamt with i_chroma := E.vlc_va_GetChroma h swfmt }, [],
          settles_nil [], ?_⟩
        rw [hwLoop]
        simp only [hc, if_true, hne, if_false, h1, h2, List.append_nil]
      · by_cases h3 : E.createVA ctx h = false
        · refine ⟨{ s.videoForamt with i_chroma := E.vlc_va_GetChroma h swfmt }, [],
            settles_nil [], ?_⟩
          rw [hwLoop]
          simp only [hc, if_true, hne, if_false, h1, h2, h3, List.append_nil]
        · by_cases h4 : E.va_open ctx h ≠ VLC_SUCCESS
          · refine ⟨{ s.videoForamt with i_chroma := E.vlc_va_GetChroma h swfmt },
              [VAEvent.create s.vaLog.length, VAEvent.opening s.vaLog.length,
                VAEvent.delete s.vaLog.length],
              settles_triple s.vaLog.length, ?_⟩
            have h3' : E.createVA ctx h = true := by simpa using h3
            rw [hwLoop]
            simp only [hc, if_true, hne, if_false, h1, h2, h3', h4, List.append_assoc,
              List.cons_append, List.nil_append, Bool.true_eq_false, ne_eq,
              not_false_eq_true]
          · exfalso
            simp only [hwViable, hc, Bool.true_and, Bool.and_eq_false_imp, Bool.and_eq_true,
              decide_eq_true_eq, decide_eq_false_iff_not] at hv
            simp only [not_or] at h2
            simp only [Bool.not_eq_false] at h3
            simp only [ne_eq, not_not] at h4
            exact hv ⟨⟨h1, h2⟩, h3⟩ h4
  · refine ⟨s.videoForamt, [], settles_nil [], ?_⟩
    rw [hwLoop]
    simp only [hc, Bool.false_eq_true, if_false, if_true, List.append_nil]

/-- The objects a returning run of the hardware loop creates: every one but
the one stored in `mVA` at line 109 is deleted before the next is created. -/
theorem hwLoop_settles (E : Engine) (fuel : Nat) (ctx : AVCodecContext)
    (pi_fmt : List AVPixelFormat) (swfmt : AVPixelFormat) :
    ∀ (l : List AVPixelFormat) (s s1 : SimpleDecoder) (r : Option AVPixelFormat)
      (ctx1 : AVCodecContext),
      hwLoop E fuel ctx pi_fmt swfmt s l = some (r, s1, ctx1) →
      r = l.find? (hwViable E ctx pi_fmt swfmt) ∧
      ∃ evs, s1.vaLog = s.vaLog ++ evs ∧
        match r with
        | none => Settles [] evs [] ∧ s1.mVA = s.mVA
        | some h => ∃ id, Settles [] evs [id] ∧ s1.mVA = some { id := id, fmt := h } := by
  intro l
  induction l with
  | nil =>
    intro s s1 r ctx1 h
    simp only [hwLoop, Option.some.injEq, Prod.mk.injEq] at h
    obtain ⟨rfl, rfl, rfl⟩ := h
    exact ⟨rfl, [], by simp, settles_nil [], rfl⟩
  | cons a rest ih =>
    intro s s1 r ctx1 h
    by_cases hv : hwViable E ctx pi_fmt swfmt a = true
    · rw [hwLoop_step_hit E fuel ctx pi_fmt swfmt s a rest hv] at h
      split at h
      · simp at h
      · rename_i st s4 hg
        simp only [Option.some.injEq, Prod.mk.injEq] at h
        obtain ⟨rfl, rfl, rfl⟩ := h
        obtain ⟨f, rfl⟩ := getVideoFormat_frame E fuel _ s4 _ _ _ _ hg
        exact ⟨by simp [List.find?, hv], _, rfl, s.vaLog.length,
          settles_created s.vaLog.length, rfl⟩
    · have hv' : hwViable E ctx pi_fmt swfmt a = false := by simpa using hv
      obtain ⟨f0, evs0, hb0, hstep⟩ :=
        hwLoop_step_skip_settles E fuel ctx pi_fmt swfmt s a rest hv'
      rw [hstep] at h
      obtain ⟨hr, evs, hlog, hres⟩ := ih _ s1 r ctx1 h
      refine ⟨by simp [List.find?, hv', hr], evs0 ++ evs, ?_, ?_⟩
      · rw [hlog, List.append_assoc]
      · cases r with
        | none => exact ⟨settles_append hb0 hres.1, hres.2⟩
        | some hh =>
          obtain ⟨id, hs, hm⟩ := hres
          exact ⟨id, settles_append hb0 hs, hm⟩

theorem settles_held_none {a : List Nat} {evs : List VAEvent} (t : SimpleDecoder)
    (ht : t.mVA = none) (hs : Settles a evs []) : Settles a evs (held t) := by
  unfold held; rw [ht]; exact hs

/-- Lines 62-119 started without an object: either no object is held
afterwards, or the format returned is the first viable hardware format and
the object created for it is the only one live. -/
theorem selectFormat_settles (E : Engine) (fuel : Nat) (s s1 : SimpleDecoder)
    (ctx ctx1 : AVCodecContext) (pi_fmt : List AVPixelFormat) (swfmt fmt : AVPixelFormat)
    (hm : s.mVA = none)
    (h : selectFormat E fuel s ctx pi_fmt swfmt = some (fmt, s1, ctx1)) :
    ∃ evs, s1.vaLog = s.vaLog ++ evs ∧ Settles [] evs (held s1) ∧
      (s1.mVA = none ∨
        ∃ id, s1.mVA = some { id := id, fmt := fmt } ∧
          (hwfmts E).find? (hwViable E ctx pi_fmt swfmt) = some fmt) := by
  unfold selectFormat at h
  split at h
  · obtain ⟨rfl, rfl, f, rfl⟩ := softwareFallback_inv E fuel s s1 ctx ctx1 swfmt fmt h
    exact ⟨[], by simp, settles_held_none _ hm (settles_nil []), Or.inl hm⟩
  · split at h
    · simp only [Option.some.injEq, Prod.mk.injEq] at h
      obtain ⟨rfl, rfl, rfl⟩ := h
      exact ⟨[], by simp, settles_held_none _ hm (settles_nil []), Or.inl hm⟩
    · split at h
      · split at h
        · simp at h
        · rename_i hwfmt s3 ctx3 hl
          simp only [Option.some.injEq, Prod.mk.injEq] at h
          obtain ⟨rfl, rfl, rfl⟩ := h
          obtain ⟨hr, evs, hlog, id, hs, hm1⟩ :=
            hwLoop_settles E fuel ctx pi_fmt swfmt _ _ _ _ _ hl
          refine ⟨evs, hlog, ?_, Or.inr ⟨id, hm1, hr.symm⟩⟩
          unfold held; rw [hm1]; exact hs
        · rename_i s3 ctx3 hl
          obtain ⟨hr, evs, hlog, hs, hm1⟩ :=
            hwLoop_settles E fuel ctx pi_fmt swfmt _ _ _ _ _ hl
          obtain ⟨rfl, rfl, g, rfl⟩ := softwareFallback_inv E fuel _ s1 ctx3 ctx1 swfmt fmt h
          have hm2 : s3.mVA = none := hm1.trans hm
          exact ⟨evs, hlog, settles_held_none _ hm2 hs, Or.inl hm2⟩
      · obtain ⟨rfl, rfl, f, rfl⟩ := softwareFallback_inv E fuel s s1 ctx ctx1 swfmt fmt h
        exact ⟨[], by simp, settles_held_none _ hm (settles_nil []), Or.inl hm⟩

/-- What a returning call of `ffmpeg_GetFormat` does to the object in `mVA`:
on the reuse path nothing; otherwise the object held is closed and deleted
first, and the call ends either without an object or with the object created
for the hardware format it returns. -/
theorem ffmpeg_GetFormat_trace (E : Engine) (fuel : Nat) (s s1 : SimpleDecoder)
    (ctx ctx1 : AVCodecContext) (pi_fmt : List AVPixelFormat) (fmt : AVPixelFormat)
    (h : ffmpeg_GetFormat E fuel s ctx pi_fmt = some (fmt, s1, ctx1)) :
    ((reuseAttempt E fuel s ctx pi_fmt (E.avcodec_default_get_format ctx pi_fmt)).map
          Prod.fst = some true ∧ s1.mVA = s.mVA ∧ s1.vaLog = s.vaLog) ∨
      ((reuseAttempt E fuel s ctx pi_fmt (E.avcodec_default_get_format ctx pi_fmt)).map
          Prod.fst = some false ∧
        ∃ evs, s1.vaLog = s.vaLog ++ closeLog s ++ evs ∧ Settles [] evs (held s1) ∧
          (s1.mVA = none ∨
            ∃ id, s1.mVA = some { id := id, fmt := fmt } ∧
              (hwfmts E).find? (hwViable E ctx pi_fmt
                (E.avcodec_default_get_format ctx pi_fmt)) = some fmt)) := by
  unfold ffmpeg_GetFormat at h
  simp only [] at h
  split at h
  · simp at h
  · rename_i s2 hr
    simp only [Option.some.injEq, Prod.mk.injEq] at h
    obtain ⟨rfl, rfl, rfl⟩ := h
    obtain ⟨f, rfl⟩ := reuseAttempt_frame E fuel s s2 ctx pi_fmt _ _ hr
    exact Or.inl ⟨by rw [hr]; rfl, rfl, rfl⟩
  · rename_i s2 hr
    obtain ⟨f, rfl⟩ := reuseAttempt_frame E fuel s s2 ctx pi_fmt _ _ hr
    unfold negotiate at h
    rw [close_va_decoder_format] at h
    obtain ⟨hlog0, hm0⟩ := close_va_decoder_log s
    obtain ⟨evs, hlog, hs, hres⟩ := selectFormat_settles E fuel _ s1 ctx ctx1 pi_fmt _ fmt
      (by exact hm0) h
    refine Or.inr ⟨by rw [hr]; rfl, evs, ?_, hs, hres⟩
    rw [hlog]
    show (close_va_decoder s).vaLog ++ evs = _
    rw [hlog0]

/-- What one call does to the object in `mVA`. -/
theorem callStep_trace (s s1 : SimpleDecoder) (c : DecoderCall)
    (h : callStep s c = some s1) :
    ∃ evs, s1.vaLog = s.vaLog ++ evs ∧ Settles (held s) evs (held s1) ∧
      ((s1.mVA = s.mVA ∧ evs = []) ∨ ∃ evs1, evs = closeLog s ++ evs1) := by
  cases c with
  | getFormat E fuel ctx pi_fmt =>
    simp only [callStep] at h
    cases hg : ffmpeg_GetFormat E fuel s ctx pi_fmt with
    | none => rw [hg] at h; simp at h
    | some r =>
      obtain ⟨fmt, s2, ctx2⟩ := r
      rw [hg] at h
      simp only [Option.map_some', Option.some.injEq] at h
      subst h
      rcases ffmpeg_GetFormat_trace E fuel s s2 ctx ctx2 pi_fmt fmt hg with
        ⟨-, hm, hlog⟩ | ⟨-, evs, hlog, hs, -⟩
      · refine ⟨[], by simp [hlog], ?_, Or.inl ⟨hm, rfl⟩⟩
        have hh : held s2 = held s := by unfold held; rw [hm]
        rw [hh]; exact settles_nil _
      · exact ⟨closeLog s ++ evs, by rw [hlog, List.append_assoc],
          settles_append (settles_close s) hs, Or.inr ⟨evs, rfl⟩⟩
  | close_va =>
    simp only [callStep, Option.some.injEq] at h
    subst h
    obtain ⟨hlog, hm⟩ := close_va_decoder_log s
    exact ⟨closeLog s, hlog, settles_held_none _ hm (settles_close s), Or.inr ⟨[], by simp⟩⟩
  | closeDecoder =>
    simp only [callStep, Option.some.injEq] at h
    subst h
    obtain ⟨hlog, hm⟩ := close_va_decoder_log (releaseCodec s)
    exact ⟨closeLog s, hlog, settles_held_none _ hm (settles_close s), Or.inr ⟨[], by simp⟩⟩

/-- What a sequence of calls does to the objects. -/
theorem callRun_trace (calls : List DecoderCall) :
    ∀ s s1 : SimpleDecoder, callRun s calls = some s1 →
      ∃ evs, s1.vaLog = s.vaLog ++ evs ∧ Settles (held s) evs (held s1) := by
  induction calls with
  | nil =>
    intro s s1 h
    simp only [callRun, Option.some.injEq] at h
    subst h
    exact ⟨[], by simp, settles_nil _⟩
  | cons c rest ih =>
    intro s s1 h
    simp only [callRun] at h
    cases hc : callStep s c with
    | none => rw [hc] at h; simp at h
    | some s2 =>
      rw [hc] at h
      obtain ⟨evs0, hlog0, hs0, -⟩ := callStep_trace s s2 c hc
      obtain ⟨evs, hlog, hs⟩ := ih s2 s1 h
      exact ⟨evs0 ++ evs, by rw [hlog, hlog0, List.append_assoc], settles_append hs0 hs⟩

/-- An object that was created is live or was deleted. -/
theorem created_live_or_deleted (log : List VAEvent) (id : Nat)
    (h : VAEvent.create id ∈ log) : id ∈ liveVAs log ∨ VAEvent.delete id ∈ log := by
  induction log using List.reverseRecOn with
  | nil => simp at h
  | append_singleton l e ih =>
    have hl : liveVAs (l ++ [e]) = liveStep (liveVAs l) e := by
      rw [liveVAs_append]; rfl
    rw [hl]
    have hprev : id ∈ liveVAs l ∨ VAEvent.delete id ∈ l ∨ e = VAEvent.create id := by
      rcases List.mem_append.mp h with hm | hm
      · rcases ih hm with h1 | h1
        · exact Or.inl h1
        · exact Or.inr (Or.inl h1)
      · exact Or.inr (Or.inr (List.mem_singleton.mp hm).symm)
    rcases hprev with h1 | h1 | h1
    · cases e with
      | create j => exact Or.inl (by simp [liveStep, h1])
      | opening j => exact Or.inl h1
      | close j => exact Or.inl h1
      | delete j =>
        by_cases hj : id = j
        · subst hj; exact Or.inr (by simp)
        · exact Or.inl (by simp [liveStep, h1, hj])
    · exact Or.inr (List.mem_append_left _ h1)
    · subst h1; exact Or.inl (by simp [liveStep])

/-- One call keeps the live objects equal to the object held. -/
theorem callStep_live (s s1 : SimpleDecoder) (c : DecoderCall)
    (hinv : liveVAs s.vaLog = held s) (h : callStep s c = some s1) :
    liveVAs s1.vaLog = held s1 := by
  obtain ⟨evs, hlog, hs, -⟩ := callStep_trace s s1 c h
  rw [hlog, liveVAs_append, hinv]
  exact hs.2

/-- C16: over every sequence of `ffmpeg_GetFormat`, `close_va_decoder` and
`closeDecoder` calls that returns, starting from a decoder with `mVA == NULL`
and no live object, (1) the objects created and not deleted are exactly the one
held in `mVA`, (2) at most one object is live after each event of the run,
(3) every object created has been deleted or is the one in `mVA`, (4) a further
call either leaves `mVA` and the objects alone or begins by closing and
deleting the object held, (5) no object is held or live after `closeDecoder`,
and (6) a further `ffmpeg_GetFormat` call that returns either takes the reuse
path and leaves `mVA` alone, or ends without an object held or live, or ends
holding the one live object, created for the hardware format it returns. -/
theorem callRun_ownership (s0 s1 : SimpleDecoder) (calls : List DecoderCall)
    (h0 : s0.mVA = none) (hlive : liveVAs s0.vaLog = [])
    (hord : orderly [] s0.vaLog = true) (h : callRun s0 calls = some s1) :
    liveVAs s1.vaLog = held s1 ∧
      orderly [] s1.vaLog = true ∧
      (∀ id, VAEvent.create id ∈ s1.vaLog →
        VAEvent.delete id ∈ s1.vaLog ∨ ∃ va, s1.mVA = some va ∧ va.id = id) ∧
      (∀ c s2, callStep s1 c = some s2 →
        (s2.mVA = s1.mVA ∧ s2.vaLog = s1.vaLog) ∨
          ∃ evs, s2.vaLog = s1.vaLog ++ closeLog s1 ++ evs) ∧
      ((closeDecoder s1).mVA = none ∧ liveVAs (closeDecoder s1).vaLog = []) ∧
      (∀ E fuel ctx pi_fmt fmt s2 ctx2,
        ffmpeg_GetFormat E fuel s1 ctx pi_fmt = some (fmt, s2, ctx2) →
        ((reuseAttempt E fuel s1 ctx pi_fmt (E.avcodec_default_get_format ctx pi_fmt)).map
            Prod.fst = some true ∧ s2.mVA = s1.mVA ∧ s2.vaLog = s1.vaLog) ∨
        (s2.mVA = none ∧ liveVAs s2.vaLog = []) ∨
        (∃ id, s2.mVA = some { id := id, fmt := fmt } ∧ liveVAs s2.vaLog = [id] ∧
          (hwfmts E).find? (hwViable E ctx pi_fmt
            (E.avcodec_default_get_format ctx pi_fmt)) = some fmt)) := by
  obtain ⟨evs, hlog, hs1, hs2⟩ := callRun_trace calls s0 s1 h
  have hheld0 : held s0 = [] := by unfold held; rw [h0]
  rw [hheld0] at hs1 hs2
  have hinv : liveVAs s1.vaLog = held s1 := by
    rw [hlog, liveVAs_append, hlive]; exact hs2
  refine ⟨hinv, ?_, ?_, ?_, ?_, ?_⟩
  · rw [hlog, orderly_append, hord]
    have : List.foldl liveStep [] s0.vaLog = [] := hlive
    rw [this, hs1]; rfl
  · intro id hid
    rcases created_live_or_deleted s1.vaLog id hid with hl | hd
    · rw [hinv] at hl
      unfold held at hl
      cases hm : s1.mVA with
      | none => rw [hm] at hl; simp at hl
      | some va =>
        rw [hm] at hl
        exact Or.inr ⟨va, rfl, (List.mem_singleton.mp hl).symm⟩
    · exact Or.inl hd
  · intro c s2 hc
    obtain ⟨evs2, hlog2, -, hcase⟩ := callStep_trace s1 s2 c hc
    rcases hcase with ⟨hm, he⟩ | ⟨evs3, he⟩
    · exact Or.inl ⟨hm, by rw [hlog2, he, List.append_nil]⟩
    · exact Or.inr ⟨evs3, by rw [hlog2, he, List.append_assoc]⟩
  · have hm : (closeDecoder s1).mVA = none := (close_va_decoder_log (releaseCodec s1)).2
    have hl := callStep_live s1 (closeDecoder s1) DecoderCall.closeDecoder hinv rfl
    refine ⟨hm, ?_⟩
    rw [hl]; unfold held; rw [hm]
  · intro E fuel ctx pi_fmt fmt s2 ctx2 hg
    have hl := callStep_live s1 s2 (DecoderCall.getFormat E fuel ctx pi_fmt) hinv
      (by simp only [callStep]; rw [hg]; rfl)
    rcases ffmpeg_GetFormat_trace E fuel s1 s2 ctx ctx2 pi_fmt fmt hg with
      ⟨hr, hm, hlg⟩ | ⟨-, evs2, -, -, hres⟩
    · exact Or.inl ⟨hr, hm, hlg⟩
    · rcases hres with hm | ⟨id, hm, hf⟩
      · refine Or.inr (Or.inl ⟨hm, ?_⟩)
        rw [hl]; unfold held; rw [hm]
      · refine Or.inr (Or.inr ⟨id, hm, ?_, hf⟩)
        rw [hl]; unfold held; rw [hm]

/-- C16 on a session that opens VAAPI, reuses it, renegotiates to software,
opens VAAPI again and tears the decoder down: two objects were created, both
are deleted and none is held. -/
theorem callRun_ownership_witness :
    ∃ s1, callRun (freshDecoder true) sampleCalls = some s1 ∧
      s1.vaLog = [VAEvent.create 0, VAEvent.opening 0, VAEvent.close 0, VAEvent.delete 0,
        VAEvent.create 4, VAEvent.opening 4, VAEvent.close 4, VAEvent.delete 4] ∧
      s1.mVA = none ∧
      liveVAs s1.vaLog = held s1 ∧
      orderly [] s1.vaLog = true ∧
      (∀ id, VAEvent.create id ∈ s1.vaLog →
        VAEvent.delete id ∈ s1.vaLog ∨ ∃ va, s1.mVA = some va ∧ va.id = id) := by
  have h : ∃ s1, callRun (freshDecoder true) sampleCalls = some s1 ∧
      s1.vaLog = [VAEvent.create 0, VAEvent.opening 0, VAEvent.close 0, VAEvent.delete 0,
        VAEvent.create 4, VAEvent.opening 4, VAEvent.close 4, VAEvent.delete 4] ∧
      s1.mVA = none := by decide
  obtain ⟨s1, h1, h2, h3⟩ := h
  have hall := callRun_ownership (freshDecoder true) s1 sampleCalls rfl rfl rfl h1
  exact ⟨s1, h1, h2, h3, hall.1, hall.2.1, hall.2.2.1⟩

/-! ## The hand-off of the output frame -/

theorem whole_mono {h1 : List ReceiveResult} (r : ReceiveResult) {o : Option AVFrame}
    (h : Whole h1 o) : Whole (h1 ++ [r]) o := by
  rcases h with h | ⟨r0, hr0, hd, ho⟩
  · exact Or.inl h
  · exact Or.inr ⟨r0, List.mem_append_left _ hr0, hd, ho⟩

theorem lockFor_some (s t : Handoff) (th : ThreadId) (h : lockFor s th = some t) :
    s.m_frameMutex = none ∧ t = { s with m_frameMutex := some th } := by
  unfold lockFor at h
  cases hm : s.m_frameMutex with
  | none => rw [hm] at h; exact ⟨rfl, by simpa using h.symm⟩
  | some _ => rw [hm] at h; simp at h

theorem delivered_of_tests (r : ReceiveResult) (h1 : ¬ r.ret < 0)
    (h2 : ¬ (r.frame.decode_error_flags ≠ 0 ∨ r.frame.flags ≠ 0)) : delivered r = true := by
  simp only [ne_eq, not_or, not_not] at h2
  simp [delivered, h2.1, h2.2, not_lt.mp h1]

theorem render_iff_of_not (P : Prop) (m1 m2 : Option ThreadId)
    (h : P ↔ m1 = some ThreadId.renderThread) (h1 : m1 ≠ some ThreadId.renderThread)
    (h2 : m2 ≠ some ThreadId.renderThread) : P ↔ m2 = some ThreadId.renderThread :=
  ⟨fun hp => absurd (h.mp hp) h1, fun hm => absurd hm h2⟩

/-- A statement of the decode thread keeps the invariant. -/
theorem decodeStep_inv (s s1 : Handoff) (hinv : HandoffInv s) (h : decodeStep s = some s1) :
    HandoffInv s1 := by
  obtain ⟨hd, hr, hf, hc, hs⟩ := hinv
  unfold decodeStep at h
  cases hpc : s.decode with
  | idle => rw [hpc] at h; simp at h
  | received r =>
    rw [hpc] at h
    simp only [] at h
    unfold DecodeFacts at hf
    rw [hpc] at hf hd
    by_cases h1 : r.ret < 0
    · rw [if_pos h1] at h
      by_cases h2 : r.ret = AVERROR_EOF
      · rw [if_pos h2] at h
        cases hl : lockFor s ThreadId.decodeThread with
        | none => rw [hl] at h; simp at h
        | some t =>
          rw [hl] at h
          obtain ⟨hm, rfl⟩ := lockFor_some s t _ hl
          simp only [Option.map_some', Option.some.injEq] at h
          subst h
          refine ⟨by simp [decodeHolds], ?_, ?_, ?_, hs⟩
          · exact render_iff_of_not _ _ _ hr (by rw [hm]; simp) (by simp)
          · unfold DecodeFacts; exact hf.1
          · intro a ha
            exact absurd ((hr.mp ⟨a, ha⟩).symm.trans hm) (by simp)
      · rw [if_neg h2] at h
        simp only [Option.some.injEq] at h
        subst h
        refine ⟨by simpa [decodeHolds] using hd, hr, ?_, hc, hs⟩
        unfold DecodeFacts; exact hf.1
    · rw [if_neg h1] at h
      by_cases h2 : r.frame.decode_error_flags ≠ 0 ∨ r.frame.flags ≠ 0
      · rw [if_pos h2] at h
        simp only [Option.some.injEq] at h
        subst h
        refine ⟨by simpa [decodeHolds] using hd, hr, ?_, hc, hs⟩
        unfold DecodeFacts; exact hf.1
      · rw [if_neg h2] at h
        cases hl : lockFor s ThreadId.decodeThread with
        | none => rw [hl] at h; simp at h
        | some t =>
          rw [hl] at h
          obtain ⟨hm, rfl⟩ := lockFor_some s t _ hl
          simp only [Option.map_some', Option.some.injEq] at h
          subst h
          refine ⟨by simp [decodeHolds], ?_, ?_, ?_, hs⟩
          · exact render_iff_of_not _ _ _ hr (by rw [hm]; simp) (by simp)
          · unfold DecodeFacts; exact ⟨hf.1, hf.2, delivered_of_tests r h1 h2⟩
          · intro a ha
            exact absurd ((hr.mp ⟨a, ha⟩).symm.trans hm) (by simp)
  | eofLocked r =>
    rw [hpc] at h
    simp only [Option.some.injEq] at h
    subst h
    rw [hpc] at hd
    have hm : s.m_frameMutex = some ThreadId.decodeThread := hd.mp rfl
    refine ⟨by simpa [decodeHolds] using hm, hr, ?_, ?_, hs⟩
    · unfold DecodeFacts; rfl
    · intro a ha
      have := hr.mp ⟨a, ha⟩
      rw [hm] at this; simp at this
  | eofFreed r =>
    rw [hpc] at h
    simp only [Option.some.injEq] at h
    subst h
    rw [hpc] at hd
    unfold DecodeFacts at hf
    rw [hpc] at hf
    refine ⟨by simpa [decodeHolds] using hd, hr, ?_, hc, hs⟩
    unfold DecodeFacts; exact hf
  | eofFlushed r =>
    rw [hpc] at h
    simp only [Option.some.injEq] at h
    subst h
    rw [hpc] at hd
    unfold DecodeFacts at hf
    rw [hpc] at hf
    have hm : s.m_frameMutex = some ThreadId.decodeThread := hd.mp rfl
    refine ⟨by simp [decodeHolds], ?_, ?_, hc, hs⟩
    · exact render_iff_of_not _ _ _ hr (by rw [hm]; simp) (by simp)
    · unfold DecodeFacts; exact Or.inl hf
  | pubLocked r =>
    rw [hpc] at h
    simp only [Option.some.injEq] at h
    subst h
    rw [hpc] at hd
    unfold DecodeFacts at hf
    rw [hpc] at hf
    have hm : s.m_frameMutex = some ThreadId.decodeThread := hd.mp rfl
    refine ⟨by simpa [decodeHolds] using hm, hr, ?_, ?_, hs⟩
    · unfold DecodeFacts; exact ⟨rfl, hf.2⟩
    · intro a ha
      have := hr.mp ⟨a, ha⟩
      rw [hm] at this; simp at this
  | pubFreed r =>
    rw [hpc] at h
    simp only [Option.some.injEq] at h
    subst h
    rw [hpc] at hd
    unfold DecodeFacts at hf
    rw [hpc] at hf
    have hm : s.m_frameMutex = some ThreadId.decodeThread := hd.mp rfl
    refine ⟨by simpa [decodeHolds] using hm, hr, ?_, ?_, hs⟩
    · unfold DecodeFacts; exact ⟨rfl, hf.2⟩
    · intro a ha
      have := hr.mp ⟨a, ha⟩
      rw [hm] at this; simp at this
  | pubCloned r =>
    rw [hpc] at h
    rw [hpc] at hd
    unfold DecodeFacts at hf
    rw [hpc] at hf
    have hm : s.m_frameMutex = some ThreadId.decodeThread := hd.mp rfl
    simp only [hf.1, Option.some.injEq] at h
    subst h
    refine ⟨by simpa [decodeHolds] using hm, hr, ?_, ?_, hs⟩
    · unfold DecodeFacts; exact ⟨rfl, hf.2⟩
    · intro a ha
      have := hr.mp ⟨a, ha⟩
      rw [hm] at this; simp at this
  | pubStamped r =>
    rw [hpc] at h
    simp only [Option.some.injEq] at h
    subst h
    rw [hpc] at hd
    unfold DecodeFacts at hf
    rw [hpc] at hf
    have hm : s.m_frameMutex = some ThreadId.decodeThread := hd.mp rfl
    refine ⟨by simp [decodeHolds], ?_, ?_, hc, hs⟩
    · exact render_iff_of_not _ _ _ hr (by rw [hm]; simp) (by simp)
    · unfold DecodeFacts; exact Or.inr ⟨r, hf.2.1, hf.2.2, hf.1⟩

/-- Every move keeps the invariant. -/
theorem step_inv (s s1 : Handoff) (m : Move) (hinv : HandoffInv s) (h : step s m = some s1) :
    HandoffInv s1 := by
  cases m with
  | decodeStep => exact decodeStep_inv s s1 hinv h
  | receive r =>
    obtain ⟨hd, hr, hf, hc, hs⟩ := hinv
    simp only [step] at h
    cases hpc : s.decode with
    | idle =>
      rw [hpc] at h
      simp only [Option.some.injEq] at h
      subst h
      unfold DecodeFacts at hf
      rw [hpc] at hf hd
      refine ⟨by simpa [decodeHolds] using hd, hr, ?_, hc, fun o ho => whole_mono r (hs o ho)⟩
      unfold DecodeFacts
      exact ⟨whole_mono r hf, by simp⟩
    | received _ => rw [hpc] at h; simp at h
    | eofLocked _ => rw [hpc] at h; simp at h
    | eofFreed _ => rw [hpc] at h; simp at h
    | eofFlushed _ => rw [hpc] at h; simp at h
    | pubLocked _ => rw [hpc] at h; simp at h
    | pubFreed _ => rw [hpc] at h; simp at h
    | pubCloned _ => rw [hpc] at h; simp at h
    | pubStamped _ => rw [hpc] at h; simp at h
  | renderEnter =>
    obtain ⟨hd, hr, hf, hc, hs⟩ := hinv
    simp only [step] at h
    cases hrp : s.render with
    | inCallback a => rw [hrp] at h; simp at h
    | idle =>
      rw [hrp] at h
      simp only [] at h
      cases hl : lockFor s ThreadId.renderThread with
      | none => rw [hl] at h; simp at h
      | some t =>
        rw [hl] at h
        obtain ⟨hm, rfl⟩ := lockFor_some s t _ hl
        simp only [Option.map_some', Option.some.injEq] at h
        subst h
        refine ⟨?_, ?_, hf, ?_, hs⟩
        · constructor
          · intro hx
            have := hd.mp hx
            rw [hm] at this; simp at this
          · intro hx; simp at hx
        · exact ⟨fun _ => rfl, fun _ => ⟨_, rfl⟩⟩
        · intro a ha
          simp only [RenderPc.inCallback.injEq] at ha
          exact ha
  | renderRead =>
    obtain ⟨hd, hr, hf, hc, hs⟩ := hinv
    simp only [step] at h
    cases hrp : s.render with
    | idle => rw [hrp] at h; simp at h
    | inCallback a =>
      rw [hrp] at h
      simp only [Option.some.injEq] at h
      subst h
      have hm : s.m_frameMutex = some ThreadId.renderThread := hr.mp ⟨a, hrp⟩
      have hnd : decodeHolds s.decode = false := by
        cases hh : decodeHolds s.decode with
        | false => rfl
        | true =>
          have := hd.mp hh
          rw [hm] at this; simp at this
      have hw : Whole s.history s.m_outputFrame := by
        unfold DecodeFacts at hf
        cases hpc : s.decode with
        | idle => rw [hpc] at hf; exact hf
        | received r => rw [hpc] at hf; exact hf.1
        | eofLocked _ => rw [hpc] at hnd; simp [decodeHolds] at hnd
        | eofFreed _ => rw [hpc] at hnd; simp [decodeHolds] at hnd
        | eofFlushed _ => rw [hpc] at hnd; simp [decodeHolds] at hnd
        | pubLocked _ => rw [hpc] at hnd; simp [decodeHolds] at hnd
        | pubFreed _ => rw [hpc] at hnd; simp [decodeHolds] at hnd
        | pubCloned _ => rw [hpc] at hnd; simp [decodeHolds] at hnd
        | pubStamped _ => rw [hpc] at hnd; simp [decodeHolds] at hnd
      refine ⟨hd, by simpa [hrp] using hr, hf, by simpa [hrp] using hc, ?_⟩
      intro o ho
      rcases List.mem_append.mp ho with ho | ho
      · exact hs o ho
      · rw [List.mem_singleton.mp ho]; exact hw
  | renderExit =>
    obtain ⟨hd, hr, hf, hc, hs⟩ := hinv
    simp only [step] at h
    cases hrp : s.render with
    | idle => rw [hrp] at h; simp at h
    | inCallback a =>
      rw [hrp] at h
      simp only [Option.some.injEq] at h
      subst h
      have hm : s.m_frameMutex = some ThreadId.renderThread := hr.mp ⟨a, hrp⟩
      refine ⟨?_, ?_, hf, ?_, hs⟩
      · constructor
        · intro hx
          have := hd.mp hx
          rw [hm] at this; simp at this
        · intro hx; simp at hx
      · constructor
        · rintro ⟨b, hb⟩; simp at hb
        · intro hx; simp at hx
      · intro b hb; simp at hb

/-- The invariant holds where both threads rest and the slot is whole. -/
theorem restingHandoff_inv (out : Option AVFrame) (h : Whole [] out) :
    HandoffInv (restingHandoff out) := by
  refine ⟨?_, ?_, ?_, ?_, ?_⟩
  · simp [restingHandoff, decodeHolds]
  · simp [restingHandoff]
  · exact h
  · intro a ha; simp [restingHandoff] at ha
  · intro o ho; simp [restingHandoff] at ho

/-- Every schedule keeps the invariant. -/
theorem interleave_inv (moves : List Move) :
    ∀ s s1 : Handoff, HandoffInv s → interleave s moves = some s1 → HandoffInv s1 := by
  induction moves with
  | nil =>
    intro s s1 hinv h
    simp only [interleave, Option.some.injEq] at h
    subst h; exact hinv
  | cons m rest ih =>
    intro s s1 hinv h
    simp only [interleave] at h
    cases hst : step s m with
    | none => rw [hst] at h; simp at h
    | some s2 =>
      rw [hst] at h
      exact ih s2 s1 (step_inv s s2 m hinv hst) h

/-- Inside the callback the slot is whole. -/
theorem inCallback_whole (s : Handoff) (hinv : HandoffInv s) (a : Option AVFrame)
    (ha : s.render = RenderPc.inCallback a) :
    s.m_frameMutex = some ThreadId.renderThread ∧ decodeHolds s.decode = false ∧
      s.m_outputFrame = a ∧ Whole s.history a := by
  obtain ⟨hd, hr, hf, hc, hs⟩ := hinv
  have hm : s.m_frameMutex = some ThreadId.renderThread := hr.mp ⟨a, ha⟩
  have hnd : decodeHolds s.decode = false := by
    cases hh : decodeHolds s.decode with
    | false => rfl
    | true =>
      have := hd.mp hh
      rw [hm] at this; simp at this
  refine ⟨hm, hnd, hc a ha, ?_⟩
  rw [← hc a ha]
  unfold DecodeFacts at hf
  cases hpc : s.decode with
  | idle => rw [hpc] at hf; exact hf
  | received r => rw [hpc] at hf; exact hf.1
  | eofLocked _ => rw [hpc] at hnd; simp [decodeHolds] at hnd
  | eofFreed _ => rw [hpc] at hnd; simp [decodeHolds] at hnd
  | eofFlushed _ => rw [hpc] at hnd; simp [decodeHolds] at hnd
  | pubLocked _ => rw [hpc] at hnd; simp [decodeHolds] at hnd
  | pubFreed _ => rw [hpc] at hnd; simp [decodeHolds] at hnd
  | pubCloned _ => rw [hpc] at hnd; simp [decodeHolds] at hnd
  | pubStamped _ => rw [hpc] at hnd; simp [decodeHolds] at hnd

/-- While the callback runs no move changes the slot. -/
theorem step_inCallback_slot (s s1 : Handoff) (m : Move)
    (hm : s.m_frameMutex = some ThreadId.renderThread) (hnd : decodeHolds s.decode = false)
    (h : step s m = some s1) : s1.m_outputFrame = s.m_outputFrame := by
  have hlock : ∀ t, lockFor s t = none := by
    intro t; unfold lockFor; rw [hm]
  cases m with
  | receive r =>
    simp only [step] at h
    split at h
    · simp only [Option.some.injEq] at h; subst h; rfl
    · simp at h
  | decodeStep =>
    simp only [step] at h
    unfold decodeStep at h
    cases hpc : s.decode with
    | idle => rw [hpc] at h; simp at h
    | received r =>
      rw [hpc] at h
      simp only [hlock, Option.map_none'] at h
      split at h
      · split at h
        · simp at h
        · simp only [Option.some.injEq] at h; subst h; rfl
      · split at h
        · simp only [Option.some.injEq] at h; subst h; rfl
        · simp at h
    | eofLocked _ => rw [hpc] at hnd; simp [decodeHolds] at hnd
    | eofFreed _ => rw [hpc] at hnd; simp [decodeHolds] at hnd
    | eofFlushed _ => rw [hpc] at hnd; simp [decodeHolds] at hnd
    | pubLocked _ => rw [hpc] at hnd; simp [decodeHolds] at hnd
    | pubFreed _ => rw [hpc] at hnd; simp [decodeHolds] at hnd
    | pubCloned _ => rw [hpc] at hnd; simp [decodeHolds] at hnd
    | pubStamped _ => rw [hpc] at hnd; simp [decodeHolds] at hnd
  | renderEnter =>
    simp only [step] at h
    split at h
    · simp [hlock] at h
    · simp at h
  | renderRead =>
    simp only [step] at h
    split at h
    · simp at h
    · simp only [Option.some.injEq] at h; subst h; rfl
  | renderExit =>
    simp only [step] at h
    split at h
    · simp at h
    · simp only [Option.some.injEq] at h; subst h; rfl

/-- A `getDecodedFrame` call that nothing interrupts leaves in the slot what
the function leaves in `m_outputFrame`. -/
theorem decodeMoves_getDecodedFrame (d : SimpleDecoder) (s : Handoff) (r : ReceiveResult)
    (hidle : s.decode = DecodePc.idle) (hm : s.m_frameMutex = none)
    (hd : d.m_outputFrame = s.m_outputFrame) :
    ∃ s1, interleave s (decodeMoves r) = some s1 ∧
      s1.m_outputFrame = (getDecodedFrame d r).2.m_outputFrame ∧
      s1.decode = DecodePc.idle ∧ s1.m_frameMutex = none ∧ s1.render = s.render := by
  cases s with
  | mk out mutex decode render history seen =>
    simp only [] at hidle hm hd
    subst hidle hm
    unfold decodeMoves getDecodedFrame
    by_cases h1 : r.ret < 0
    · have e1 : (r.ret < 0) = True := eq_true h1
      by_cases h2 : r.ret = AVERROR_EOF
      · have e2 : (r.ret = AVERROR_EOF) = True := eq_true h2
        simp only [e1, e2, if_true, List.replicate, interleave, step, decodeStep, lockFor,
          Option.map_some']
        exact ⟨_, rfl, rfl, rfl, rfl, rfl⟩
      · have e2 : (r.ret = AVERROR_EOF) = False := eq_false h2
        simp only [e1, e2, if_true, if_false, interleave, step, decodeStep]
        exact ⟨_, rfl, hd.symm, rfl, rfl, rfl⟩
    · have e1 : (r.ret < 0) = False := eq_false h1
      by_cases h3 : r.frame.decode_error_flags ≠ 0 ∨ r.frame.flags ≠ 0
      · have e3 : (r.frame.decode_error_flags ≠ 0 ∨ r.frame.flags ≠ 0) = True := eq_true h3
        simp only [e1, e3, if_true, if_false, interleave, step, decodeStep]
        exact ⟨_, rfl, hd.symm, rfl, rfl, rfl⟩
      · have e3 : (r.frame.decode_error_flags ≠ 0 ∨ r.frame.flags ≠ 0) = False := eq_false h3
        simp only [e1, e3, if_false, List.replicate, interleave, step, decodeStep, lockFor,
          Option.map_some']
        exact ⟨_, rfl, rfl, rfl, rfl, rfl⟩

/-- C19: in every interleaving of `getDecodedFrame` calls on the decode thread
and `renderFrame` calls on the render thread that starts with both threads
outside their functions and an empty slot, (1) every frame the callback has read
is absent or is the published clone (user pointer `&videoForamt`) of a frame
that `avcodec_receive_frame` delivered without error flags; (2) while the
callback runs, the render thread holds the mutex, the decode thread is outside
its critical sections, the slot still holds the frame the callback was handed,
that frame is whole, and no move of either thread changes the slot; (3) while
the decode thread is inside a critical section, the render thread is outside
the callback and can neither enter it nor read the slot. -/
theorem interleave_handoff (moves : List Move) (s : Handoff)
    (h : interleave (restingHandoff none) moves = some s) :
    (∀ o, o ∈ s.seen → Whole s.history o) ∧
      (∀ a, s.render = RenderPc.inCallback a →
        s.m_frameMutex = some ThreadId.renderThread ∧ decodeHolds s.decode = false ∧
        s.m_outputFrame = a ∧ Whole s.history a ∧
        ∀ m s1, step s m = some s1 → s1.m_outputFrame = a) ∧
      (decodeHolds s.decode = true →
        s.render = RenderPc.idle ∧ step s Move.renderEnter = none ∧
        step s Move.renderRead = none) := by
  have hinv : HandoffInv s :=
    interleave_inv moves _ s (restingHandoff_inv none (Or.inl rfl)) h
  refine ⟨hinv.2.2.2.2, ?_, ?_⟩
  · intro a ha
    obtain ⟨hm, hnd, hs, hw⟩ := inCallback_whole s hinv a ha
    refine ⟨hm, hnd, hs, hw, ?_⟩
    intro m s1 hst
    rw [step_inCallback_slot s s1 m hm hnd hst, hs]
  · intro hh
    obtain ⟨hd, hr, -, -, -⟩ := hinv
    have hm : s.m_frameMutex = some ThreadId.decodeThread := hd.mp hh
    have hidle : s.render = RenderPc.idle := by
      cases hrp : s.render with
      | idle => rfl
      | inCallback a =>
        have := hr.mp ⟨a, hrp⟩
        rw [hm] at this; simp at this
    refine ⟨hidle, ?_, ?_⟩
    · simp [step, hidle, lockFor, hm]
    · simp [step, hidle]

/-- C19 on a schedule in which the decode thread publishes the frame 7 and the
callback then runs while the decode thread has received the frame 8: the
callback reads the published clone of the frame 7. -/
theorem interleave_handoff_witness :
    ∃ s, interleave (restingHandoff none) sampleSchedule = some s ∧
      s.seen = [some (published (sampleFrame 7 0 0))] ∧
      ∀ o, o ∈ s.seen → Whole s.history o := by
  have h : ∃ s, interleave (restingHandoff none) sampleSchedule = some s ∧
      s.seen = [some (published (sampleFrame 7 0 0))] := by decide
  obtain ⟨s, h1, h2⟩ := h
  exact ⟨s, h1, h2, (interleave_handoff sampleSchedule s h1).1⟩

/-! ## The pixel-format round trip -/

theorem find_fst_mem (catalogue : List (PixelFormat × Int)) (p : PixelFormat)
    (hp : p ∈ catalogue.map Prod.fst) :
    ∃ e, catalogue.find? (fun e => decide (e.1 = p)) = some e ∧ e ∈ catalogue ∧ e.1 = p := by
  obtain ⟨e0, he0, hp0⟩ := List.mem_map.mp hp
  cases hf : catalogue.find? (fun e => decide (e.1 = p)) with
  | none =>
    have := List.find?_eq_none.mp hf e0 he0
    simp [hp0] at this
  | some e =>
    have h1 := List.find?_some hf
    exact ⟨e, rfl, List.mem_of_find?_eq_some hf, by simpa using h1⟩

/-- C20: in a bidirectional catalogue (no two entries carry the same native
tag), every format with an entry is mapped back to itself by
`pixelFormatFromFFmpeg` after `pixelFormatToFFmpeg`; and a native tag without
an entry is mapped to `Format_Invalid`. -/
theorem pixelFormat_round_trip (catalogue : List (PixelFormat × Int)) :
    ((catalogue.map Prod.snd).Nodup →
        ∀ p, p ∈ catalogue.map Prod.fst →
          pixelFormatFromFFmpeg catalogue (pixelFormatToFFmpeg catalogue p) = p) ∧
      (∀ ff, ff ∉ catalogue.map Prod.snd →
        pixelFormatFromFFmpeg catalogue ff = PixelFormat.Format_Invalid) := by
  refine ⟨?_, ?_⟩
  · intro hnd p hp
    obtain ⟨e, hf, he, hep⟩ := find_fst_mem catalogue p hp
    have hto : pixelFormatToFFmpeg catalogue p = e.2 := by
      unfold pixelFormatToFFmpeg; rw [hf]
    rw [hto]
    unfold pixelFormatFromFFmpeg
    cases hg : catalogue.find? (fun x => decide (x.2 = e.2)) with
    | none =>
      have := List.find?_eq_none.mp hg e he
      simp at this
    | some e1 =>
      have h1 : e1.2 = e.2 := by simpa using List.find?_some hg
      have h2 : e1 ∈ catalogue := List.mem_of_find?_eq_some hg
      have h3 : e1 = e := List.inj_on_of_nodup_map hnd h2 he h1
      simp only [h3, hep]
  · intro ff hff
    unfold pixelFormatFromFFmpeg
    cases hg : catalogue.find? (fun x => decide (x.2 = ff)) with
    | none => rfl
    | some e1 =>
      exfalso
      have h1 : e1.2 = ff := by simpa using List.find?_some hg
      have h2 : e1 ∈ catalogue := List.mem_of_find?_eq_some hg
      exact hff (List.mem_map.mpr ⟨e1, h2, h1⟩)

/-- C20 at a catalogue with distinct tags: `Format_BGRA32` comes back from its
tag 28, and the tag 5, which has no entry, gives `Format_Invalid`. -/
theorem pixelFormat_round_trip_witness :
    (sampleCatalogue.map Prod.snd).Nodup ∧
      PixelFormat.Format_BGRA32 ∈ sampleCatalogue.map Prod.fst ∧
      pixelFormatToFFmpeg sampleCatalogue PixelFormat.Format_BGRA32 = 28 ∧
      pixelFormatFromFFmpeg sampleCatalogue
        (pixelFormatToFFmpeg sampleCatalogue PixelFormat.Format_BGRA32) =
          PixelFormat.Format_BGRA32 ∧
      (5 : Int) ∉ sampleCatalogue.map Prod.snd ∧
      pixelFormatFromFFmpeg sampleCatalogue 5 = PixelFormat.Format_Invalid :=
  ⟨by decide, by decide, by decide,
    (pixelFormat_round_trip sampleCatalogue).1 (by decide) _ (by decide), by decide,
    (pixelFormat_round_trip sampleCatalogue).2 5 (by decide)⟩

/-! ## The stored dimensions of a built format -/

/-- C22: when `getVideoFormat` returns 0, the stored height is
`ctx.coded_height` and the stored visible dimensions are `ctx.width` and
`ctx.height`; the validated dimensions are not 0, at most 8192 and at least the
visible dimensions.  With hardware decoding the stored width and height are the
validated ones, so they satisfy these bounds, and are positive when the visible
dimensions are not negative.  On either path the stored height satisfies the
bounds when the validated height is `ctx.coded_height`. -/
theorem getVideoFormat_stored_dims (E : Engine) (fuel : Nat) (s s1 : SimpleDecoder)
    (ctx : AVCodecContext) (pix_fmt sw_pix_fmt : AVPixelFormat)
    (h : getVideoFormat E fuel s ctx pix_fmt sw_pix_fmt = some (GVFStatus.ok, s1)) :
    s1.videoForamt.i_height = ctx.coded_height ∧
      s1.videoForamt.i_visible_width = ctx.width ∧
      s1.videoForamt.i_visible_height = ctx.height ∧
      (validatedWidth E ctx pix_fmt sw_pix_fmt ≠ 0 ∧
        validatedWidth E ctx pix_fmt sw_pix_fmt ≤ 8192 ∧
        ctx.width ≤ validatedWidth E ctx pix_fmt sw_pix_fmt ∧
        validatedHeight E ctx pix_fmt sw_pix_fmt ≠ 0 ∧
        validatedHeight E ctx pix_fmt sw_pix_fmt ≤ 8192 ∧
        ctx.height ≤ validatedHeight E ctx pix_fmt sw_pix_fmt) ∧
      (pix_fmt ≠ sw_pix_fmt →
        s1.videoForamt.i_width = ctx.coded_width ∧
        s1.videoForamt.i_width ≠ 0 ∧ s1.videoForamt.i_width ≤ 8192 ∧
        s1.videoForamt.i_visible_width ≤ s1.videoForamt.i_width ∧
        s1.videoForamt.i_height ≠ 0 ∧ s1.videoForamt.i_height ≤ 8192 ∧
        s1.videoForamt.i_visible_height ≤ s1.videoForamt.i_height ∧
        (0 ≤ ctx.width → 0 < s1.videoForamt.i_width) ∧
        (0 ≤ ctx.height → 0 < s1.videoForamt.i_height)) ∧
      (validatedHeight E ctx pix_fmt sw_pix_fmt = ctx.coded_height →
        s1.videoForamt.i_height ≠ 0 ∧ s1.videoForamt.i_height ≤ 8192 ∧
        s1.videoForamt.i_visible_height ≤ s1.videoForamt.i_height) := by
  obtain ⟨p_dsc, tw, planes, hvalid, -, htw, -, hs1⟩ :=
    getVideoFormat_ok_inv E fuel s s1 ctx pix_fmt sw_pix_fmt h
  subst hs1
  have hg := geometry_finishFormat E s.mVA ctx (initialFormat E s pix_fmt sw_pix_fmt)
    p_dsc tw planes
  simp only [geometry, Prod.mk.injEq] at hg
  obtain ⟨-, hw, hh, hvw, hvh, -, -, -, -⟩ := hg
  simp only [invalidDisplaySize, decide_eq_false_iff_not, not_or, not_lt, gt_iff_lt] at hvalid
  obtain ⟨v1, v2, v3, v4, v5, v6⟩ := hvalid
  have hV : validatedWidth E ctx pix_fmt sw_pix_fmt ≠ 0 ∧
      validatedWidth E ctx pix_fmt sw_pix_fmt ≤ 8192 ∧
      ctx.width ≤ validatedWidth E ctx pix_fmt sw_pix_fmt ∧
      validatedHeight E ctx pix_fmt sw_pix_fmt ≠ 0 ∧
      validatedHeight E ctx pix_fmt sw_pix_fmt ≤ 8192 ∧
      ctx.height ≤ validatedHeight E ctx pix_fmt sw_pix_fmt :=
    ⟨v1, v3, v5, v2, v4, v6⟩
  simp only []
  rw [hw, hh, hvw, hvh]
  refine ⟨rfl, rfl, rfl, hV, ?_, ?_⟩
  · intro hne
    have hd : decide (pix_fmt = sw_pix_fmt) = false := by simp [hne]
    have e1 : validatedWidth E ctx pix_fmt sw_pix_fmt = ctx.coded_width := by
      simp [validatedWidth, validatedDims, hd]
    have e2 : validatedHeight E ctx pix_fmt sw_pix_fmt = ctx.coded_height := by
      simp [validatedHeight, validatedDims, hd]
    have e3 : tw = ctx.coded_width := by
      rw [hd] at htw
      simp only [alignedWidth, Bool.false_eq_true, if_false, Option.some.injEq] at htw
      exact htw.symm
    rw [e1, e2] at hV
    obtain ⟨a1, a2, a3, a4, a5, a6⟩ := hV
    rw [e3]
    exact ⟨rfl, a1, a2, a3, a4, a5, a6, fun h0 => by omega, fun h0 => by omega⟩
  · intro he
    rw [he] at hV
    exact ⟨hV.2.2.2.1, hV.2.2.2.2.1, hV.2.2.2.2.2⟩

/-- C22 at the hardware format of a 1920x1080 stream coded as 1920x1088. -/
theorem getVideoFormat_stored_dims_witness :
    ∃ s1, getVideoFormat vaapiEngine 0 (freshDecoder true) hdCtx
        AV_PIX_FMT_VAAPI_VLD AV_PIX_FMT_YUV420P = some (GVFStatus.ok, s1) ∧
      s1.videoForamt.i_width = 1920 ∧ s1.videoForamt.i_height = 1088 ∧
      0 < s1.videoForamt.i_width ∧ s1.videoForamt.i_width ≤ 8192 ∧
      s1.videoForamt.i_visible_width ≤ s1.videoForamt.i_width ∧
      0 < s1.videoForamt.i_height ∧ s1.videoForamt.i_height ≤ 8192 ∧
      s1.videoForamt.i_visible_height ≤ s1.videoForamt.i_height := by
  have h : ∃ s1, getVideoFormat vaapiEngine 0 (freshDecoder true) hdCtx
        AV_PIX_FMT_VAAPI_VLD AV_PIX_FMT_YUV420P = some (GVFStatus.ok, s1) := ⟨_, rfl⟩
  obtain ⟨s1, h1⟩ := h
  obtain ⟨e1, -, -, -, hw, -⟩ := getVideoFormat_stored_dims _ _ _ _ _ _ _ h1
  obtain ⟨a0, -, a2, a3, -, a5, a6, a7, a8⟩ := hw (by decide)
  exact ⟨s1, h1, a0, e1, a7 (by decide), a2, a3, a8 (by decide), a5, a6⟩

/-- Two calls that return 0 with stored dimensions outside the bounds.
Software decoding of a stream coded as 1920x1080 with a visible height of 1088:
the height tested at line 204 is the aligned 1088, the height stored is the
coded 1080, less than the visible height.  Hardware decoding with coded and
visible dimensions -16 x -16: line 204 tests `== 0`, and the stored width and
height are negative. -/
theorem getVideoFormat_stored_dims_unbounded :
    (getVideoFormat vaapiEngine 4 (freshDecoder true) (sampleCtx 1920 1080 1920 1088)
        AV_PIX_FMT_YUV420P AV_PIX_FMT_YUV420P).map
      (fun r => (r.1, r.2.videoForamt.i_width, r.2.videoForamt.i_height,
        r.2.videoForamt.i_visible_width, r.2.videoForamt.i_visible_height)) =
      some (GVFStatus.ok, 1920, 1080, 1920, 1088) ∧
    validatedHeight vaapiEngine (sampleCtx 1920 1080 1920 1088)
      AV_PIX_FMT_YUV420P AV_PIX_FMT_YUV420P = 1088 ∧
    (getVideoFormat vaapiEngine 0 (freshDecoder true) (sampleCtx (-16) (-16) (-16) (-16))
        AV_PIX_FMT_VAAPI_VLD AV_PIX_FMT_YUV420P).map
      (fun r => (r.1, r.2.videoForamt.i_width, r.2.videoForamt.i_height,
        r.2.videoForamt.i_visible_width, r.2.videoForamt.i_visible_height)) =
      some (GVFStatus.ok, -16, -16, -16, -16) := by
  decide

/-! ## Renegotiation and the format returned -/

/-- C23: when `ffmpeg_GetFormat` returns without taking the reuse path, the
events of the call start with the close and the deletion of the object held
before, and every later event, creations included, starts from no live object;
the recorded profile, level, width and height are those of the codec context,
and the recorded `pix_fmt` is the format returned.  The threaded-decode block
of lines 68-73 does not return (`setupDecoder` leaves threading off, so
`active_thread_type` is 0). -/
theorem ffmpeg_GetFormat_renegotiation (E : Engine) (fuel : Nat) (s s1 : SimpleDecoder)
    (ctx ctx1 : AVCodecContext) (pi_fmt : List AVPixelFormat) (fmt : AVPixelFormat)
    (hre : (reuseAttempt E fuel s ctx pi_fmt (E.avcodec_default_get_format ctx pi_fmt)).map
      Prod.fst = some false)
    (hthr : can_hwaccel E pi_fmt = false ∨ threadRestricted E ctx = false)
    (h : ffmpeg_GetFormat E fuel s ctx pi_fmt = some (fmt, s1, ctx1)) :
    (∃ evs, s1.vaLog = s.vaLog ++ closeLog s ++ evs ∧ Settles [] evs (held s1)) ∧
      s1.profile = ctx.profile ∧ s1.level = ctx.level ∧
      s1.width = ctx.coded_width ∧ s1.height = ctx.coded_height ∧
      s1.pix_fmt = fmt := by
  have htrace : ∃ evs, s1.vaLog = s.vaLog ++ closeLog s ++ evs ∧ Settles [] evs (held s1) := by
    rcases ffmpeg_GetFormat_trace E fuel s s1 ctx ctx1 pi_fmt fmt h with
      ⟨hr, -, -⟩ | ⟨-, evs, hlog, hs, -⟩
    · rw [hre] at hr; simp at hr
    · exact ⟨evs, hlog, hs⟩
  obtain ⟨f, hf⟩ := ffmpeg_GetFormat_no_reuse E fuel s ctx pi_fmt hre
  rw [hf] at h
  unfold negotiate at h
  rw [close_va_decoder_format] at h
  obtain ⟨-, hw, hh, hp, hl, hpf, -⟩ := selectFormat_inv E fuel _ s1 ctx ctx1 pi_fmt _ fmt h
  refine ⟨htrace, hp, hl, hw, hh, ?_⟩
  rcases hthr with hcan | hthr
  · unfold selectFormat at h
    rw [if_pos hcan] at h
    obtain ⟨rfl, -, g, rfl⟩ := softwareFallback_inv E fuel _ s1 ctx ctx1 _ fmt h
    rfl
  · exact hpf hthr

/-- C23 at a decoder that holds a VAAPI object for a 1920x1088 stream and is
asked for a 1280x720 stream while `createVA` fails: the object is closed and
deleted, the new stream is recorded and the software format is both returned
and recorded. -/
theorem ffmpeg_GetFormat_renegotiation_witness :
    ∃ s1 ctx1, ffmpeg_GetFormat noVaapiEngine 4 (hwDecoder true)
        (sampleCtx 1280 720 1280 720) sampleFormats =
          some (AV_PIX_FMT_YUV420P, s1, ctx1) ∧
      (∃ evs, s1.vaLog = (hwDecoder true).vaLog ++ closeLog (hwDecoder true) ++ evs ∧
        Settles [] evs (held s1)) ∧
      s1.profile = 100 ∧ s1.level = 40 ∧ s1.width = 1280 ∧ s1.height = 720 ∧
      s1.pix_fmt = AV_PIX_FMT_YUV420P := by
  have h : ∃ s1 ctx1, ffmpeg_GetFormat noVaapiEngine 4 (hwDecoder true)
        (sampleCtx 1280 720 1280 720) sampleFormats =
          some (AV_PIX_FMT_YUV420P, s1, ctx1) := ⟨_, _, rfl⟩
  obtain ⟨s1, ctx1, h1⟩ := h
  exact ⟨s1, ctx1, h1,
    ffmpeg_GetFormat_renegotiation noVaapiEngine 4 (hwDecoder true) s1
      (sampleCtx 1280 720 1280 720) ctx1 sampleFormats AV_PIX_FMT_YUV420P (by decide)
      (Or.inr (by decide)) h1⟩

/-- The return of line 71, which the hypotheses on the threaded-decode block
exclude: built against a codec library of the restricted version range, a call
for a stream decoded with frame threads returns the software format before any
hardware attempt and without assigning `pix_fmt`. -/
theorem ffmpeg_GetFormat_thread_gate :
    (ffmpeg_GetFormat restrictedEngine 4 (hwDecoder true)
        { sampleCtx 1280 720 1280 720 with active_thread_type := 1 } sampleFormats).map
        (fun r => (r.1, r.2.1.pix_fmt, r.2.1.mVA, r.2.1.width, r.2.1.height)) =
      some (AV_PIX_FMT_YUV420P, AV_PIX_FMT_VAAPI_VLD, none, 1280, 720) := by
  decide

theorem reuseAttempt_true_mem (E : Engine) (fuel : Nat) (s s1 : SimpleDecoder)
    (ctx : AVCodecContext) (pi_fmt : List AVPixelFormat) (swfmt : AVPixelFormat)
    (h : reuseAttempt E fuel s ctx pi_fmt swfmt = some (true, s1)) :
    s.pix_fmt ∈ candidates pi_fmt := by
  unfold reuseAttempt at h
  split at h
  · simp at h
  · split at h
    · simp at h
    · split at h
      · simp at h
      · by_contra hn
        rw [reuseScan_not_mem E fuel ctx swfmt s _ hn] at h
        simp at h

theorem hwViable_mem (E : Engine) (ctx : AVCodecContext) (pi_fmt : List AVPixelFormat)
    (swfmt hw : AVPixelFormat) (h : hwViable E ctx pi_fmt swfmt hw = true) :
    hw ∈ candidates pi_fmt := by
  simp only [hwViable, Bool.and_eq_true] at h
  simpa using h.1.1.1.1

/-- The format lines 62-119 return: the software format, or the first viable
entry of the priority list. -/
theorem selectFormat_fmt (E : Engine) (fuel : Nat) (s s1 : SimpleDecoder)
    (ctx ctx1 : AVCodecContext) (pi_fmt : List AVPixelFormat) (swfmt fmt : AVPixelFormat)
    (h : selectFormat E fuel s ctx pi_fmt swfmt = some (fmt, s1, ctx1)) :
    fmt = swfmt ∨ (hwfmts E).find? (hwViable E ctx pi_fmt swfmt) = some fmt := by
  unfold selectFormat at h
  split at h
  · exact Or.inl (softwareFallback_inv E fuel s s1 ctx ctx1 swfmt fmt h).1
  · split at h
    · simp only [Option.some.injEq, Prod.mk.injEq] at h
      exact Or.inl h.1.symm
    · split at h
      · split at h
        · simp at h
        · rename_i hwfmt s3 ctx3 hl
          simp only [Option.some.injEq, Prod.mk.injEq] at h
          obtain ⟨rfl, -, -⟩ := h
          exact Or.inr (hwLoop_spec E fuel ctx pi_fmt swfmt _ _ _ _ _ hl).1.symm
        · exact Or.inl (softwareFallback_inv E fuel _ s1 _ ctx1 swfmt fmt h).1
      · exact Or.inl (softwareFallback_inv E fuel s s1 ctx ctx1 swfmt fmt h).1

/-- C25: the format `ffmpeg_GetFormat` returns is an entry of the candidate
list in front of its terminator, or the format `avcodec_default_get_format`
chose for that list.  On the reuse path it is the recorded `pix_fmt`, found
among the candidates; otherwise it is the software format or the first entry
of the priority list that is among the candidates and passes every test of the
hardware loop. -/
theorem ffmpeg_GetFormat_legal (E : Engine) (fuel : Nat) (s s1 : SimpleDecoder)
    (ctx ctx1 : AVCodecContext) (pi_fmt : List AVPixelFormat) (fmt : AVPixelFormat)
    (h : ffmpeg_GetFormat E fuel s ctx pi_fmt = some (fmt, s1, ctx1)) :
    (fmt ∈ candidates pi_fmt ∨ fmt = E.avcodec_default_get_format ctx pi_fmt) ∧
      (fmt ∈ candidates pi_fmt → fmt ∈ pi_fmt ∧ fmt ≠ AV_PIX_FMT_NONE) ∧
      ((reuseAttempt E fuel s ctx pi_fmt (E.avcodec_default_get_format ctx pi_fmt)).map
          Prod.fst = some true → fmt = s.pix_fmt ∧ fmt ∈ candidates pi_fmt) ∧
      ((reuseAttempt E fuel s ctx pi_fmt (E.avcodec_default_get_format ctx pi_fmt)).map
          Prod.fst = some false →
        fmt = E.avcodec_default_get_format ctx pi_fmt ∨
          ((hwfmts E).find? (hwViable E ctx pi_fmt
              (E.avcodec_default_get_format ctx pi_fmt)) = some fmt ∧
            fmt ∈ candidates pi_fmt)) := by
  have hsub : fmt ∈ candidates pi_fmt → fmt ∈ pi_fmt ∧ fmt ≠ AV_PIX_FMT_NONE := by
    intro hm
    exact ⟨(List.takeWhile_sublist _).subset hm, candidates_ne_none pi_fmt fmt hm⟩
  unfold ffmpeg_GetFormat at h
  simp only [] at h
  split at h
  · simp at h
  · rename_i s2 hr
    simp only [Option.some.injEq, Prod.mk.injEq] at h
    obtain ⟨rfl, rfl, rfl⟩ := h
    obtain ⟨f, rfl⟩ := reuseAttempt_frame E fuel s s2 ctx pi_fmt _ _ hr
    have hm := reuseAttempt_true_mem E fuel s _ ctx pi_fmt _ hr
    refine ⟨Or.inl hm, hsub, fun _ => ⟨rfl, hm⟩, ?_⟩
    intro hf; rw [hr] at hf; simp at hf
  · rename_i s2 hr
    unfold negotiate at h
    have hcase := selectFormat_fmt E fuel _ s1 ctx ctx1 pi_fmt _ fmt h
    have hmem : (hwfmts E).find? (hwViable E ctx pi_fmt
        (E.avcodec_default_get_format ctx pi_fmt)) = some fmt → fmt ∈ candidates pi_fmt :=
      fun hfind => hwViable_mem E ctx pi_fmt _ fmt (List.find?_some hfind)
    refine ⟨?_, hsub, ?_, ?_⟩
    · rcases hcase with hc | hc
      · exact Or.inr hc
      · exact Or.inl (hmem hc)
    · intro hf; rw [hr] at hf; simp at hf
    · intro _
      rcases hcase with hc | hc
      · exact Or.inl hc
      · exact Or.inr ⟨hc, hmem hc⟩

/-- C25 at a first negotiation in which VAAPI is opened: the format returned is
`AV_PIX_FMT_VAAPI_VLD`, an entry of the candidate list. -/
theorem ffmpeg_GetFormat_legal_witness :
    ∃ s1 ctx1, ffmpeg_GetFormat vaapiEngine 4 (freshDecoder true) hdCtx sampleFormats =
        some (AV_PIX_FMT_VAAPI_VLD, s1, ctx1) ∧
      (AV_PIX_FMT_VAAPI_VLD ∈ candidates sampleFormats ∨
        AV_PIX_FMT_VAAPI_VLD = vaapiEngine.avcodec_default_get_format hdCtx sampleFormats) ∧
      AV_PIX_FMT_VAAPI_VLD ∈ candidates sampleFormats := by
  have h : ∃ s1 ctx1, ffmpeg_GetFormat vaapiEngine 4 (freshDecoder true) hdCtx sampleFormats =
      some (AV_PIX_FMT_VAAPI_VLD, s1, ctx1) := ⟨_, _, rfl⟩
  obtain ⟨s1, ctx1, h1⟩ := h
  exact ⟨s1, ctx1, h1, (ffmpeg_GetFormat_legal _ _ _ _ _ _ _ _ h1).1, by decide⟩

/-! ## The width-growing loop of the software path -/

theorem ldiff_self_zero (m : Nat) : Nat.ldiff m m = 0 := by
  apply Nat.eq_of_testBit_eq
  intro i
  rw [Nat.testBit_ldiff]
  simp

/-- For a positive natural number, `n & ~(n - 1)` is the largest power of two
that divides it. -/
theorem nat_lowbit (n : Nat) (hn : 0 < n) :
    ∃ j, Nat.ldiff n (n - 1) = 2 ^ j ∧ 2 ^ j ∣ n ∧ ¬ 2 ^ (j + 1) ∣ n := by
  induction n using Nat.strong_induction_on with
  | _ n ih =>
    rcases Nat.even_or_odd n with he | ho
    · obtain ⟨m, hm⟩ := he
      have hm0 : 0 < m := by omega
      obtain ⟨j, h1, h2, h3⟩ := ih m (by omega) hm0
      refine ⟨j + 1, ?_, ?_, ?_⟩
      · have e1 : n = Nat.bit false m := by simp [Nat.bit]; omega
        have e2 : n - 1 = Nat.bit true (m - 1) := by simp [Nat.bit]; omega
        rw [e2]
        nth_rewrite 1 [e1]
        rw [Nat.ldiff_bit, h1]
        simp [Nat.bit, pow_succ, Nat.mul_comm]
      · rw [pow_succ]
        obtain ⟨c, hc⟩ := h2
        exact ⟨c, by rw [hm, hc]; ring⟩
      · intro hd
        apply h3
        obtain ⟨c, hc⟩ := hd
        refine ⟨c, ?_⟩
        have : 2 * m = 2 * (2 ^ (j + 1) * c) := by
          rw [← two_mul] at hm
          rw [← hm, hc]; ring
        omega
    · obtain ⟨m, hm⟩ := ho
      refine ⟨0, ?_, by simp, ?_⟩
      · have e1 : n = Nat.bit true m := by simp [Nat.bit]; omega
        have e2 : n - 1 = Nat.bit false m := by simp [Nat.bit]; omega
        rw [e2]
        nth_rewrite 1 [e1]
        rw [Nat.ldiff_bit, ldiff_self_zero]
        simp [Nat.bit]
      · simp only [zero_add, pow_one]
        omega

theorem nat_land_neg (n : Nat) (hn : 0 < n) (h : n < 4294967296) :
    Nat.land n (4294967296 - n) = Nat.ldiff n (n - 1) := by
  have h32 : (2 : Nat) ^ 32 = 4294967296 := by norm_num
  apply Nat.eq_of_testBit_eq
  intro i
  have e : 4294967296 - n = 2 ^ 32 - ((n - 1) + 1) := by omega
  have h1 : n - 1 < 2 ^ 32 := by omega
  show (n &&& (4294967296 - n)).testBit i = _
  rw [Nat.testBit_and, Nat.testBit_ldiff, e, Nat.testBit_two_pow_sub_succ h1]
  by_cases hi : i < 32
  · simp [hi]
  · have hlt : n < 2 ^ i :=
      lt_of_lt_of_le (by omega) (Nat.pow_le_pow_right (by decide) (not_lt.mp hi))
    simp [Nat.testBit_lt_two_pow hlt]

/-- For a positive `int` width, `width & ~(width - 1)` is the largest power of
two that divides it. -/
theorem bitand_lowbit (w : Int) (hw : 0 < w) (hmax : w ≤ INT_MAX) :
    ∃ j : Nat, bitand w (bitnot (w - 1)) = 2 ^ j ∧ (2 : Int) ^ j ∣ w ∧
      ¬ (2 : Int) ^ (j + 1) ∣ w := by
  obtain ⟨n, rfl⟩ := Int.eq_ofNat_of_zero_le (le_of_lt hw)
  have hn : 0 < n := by exact_mod_cast hw
  have hM : n ≤ 2147483647 := by
    unfold INT_MAX at hmax
    exact_mod_cast hmax
  obtain ⟨j, h1, h2, h3⟩ := nat_lowbit n hn
  have hj : 2 ^ j ≤ n := Nat.le_of_dvd hn h2
  refine ⟨j, ?_, by exact_mod_cast h2, fun hd => h3 (by exact_mod_cast hd)⟩
  have e1 : toUnsigned (n : Int) = n := by
    unfold toUnsigned
    omega
  have e2 : toUnsigned (bitnot ((n : Int) - 1)) = 4294967296 - n := by
    unfold toUnsigned bitnot
    omega
  unfold bitand
  rw [e1, e2, nat_land_neg n hn (by omega), h1, toSigned_of_le _ (by omega)]
  push_cast
  rfl

/-- Line 219 at a positive width whose double fits an `int`: the width grows by
the largest power of two that divides it. -/
theorem growWidth_spec (w : Int) (hw : 0 < w) (hmax : 2 * w ≤ INT_MAX) :
    ∃ j : Nat, bitand w (bitnot (w - 1)) = 2 ^ j ∧ (2 : Int) ^ j ∣ w ∧
      ¬ (2 : Int) ^ (j + 1) ∣ w ∧ growWidth w = some (w + 2 ^ j) ∧
      w + 2 ^ j ≤ 2 * w ∧
      ∀ k : Nat, (2 : Int) ^ k ∣ w → (2 : Int) ^ (k + 1) ∣ w + 2 ^ j := by
  have hM : w ≤ INT_MAX := by omega
  obtain ⟨j, h1, h2, h3⟩ := bitand_lowbit w hw hM
  have hpos : (0 : Int) < 2 ^ j := by positivity
  have hle : (2 : Int) ^ j ≤ w := Int.le_of_dvd hw h2
  refine ⟨j, h1, h2, h3, ?_, by omega, ?_⟩
  · unfold growWidth
    rw [if_neg (by unfold INT_MIN; omega)]
    simp only [h1]
    rw [if_neg (by omega)]
  · intro k hk
    have hkj : k ≤ j := by
      by_contra hlt
      push_neg at hlt
      exact h3 (dvd_trans (pow_dvd_pow 2 hlt) hk)
    obtain ⟨c, hc⟩ := h2
    have hodd : ¬ (2 : Int) ∣ c := by
      rintro ⟨d, hd⟩
      exact h3 ⟨d, by rw [hc, hd, pow_succ]; ring⟩
    obtain ⟨d, hd⟩ : (2 : Int) ∣ c + 1 := by omega
    have hj : (2 : Int) ^ (j + 1) ∣ w + 2 ^ j :=
      ⟨d, by rw [hc, pow_succ]; linear_combination (2 : Int) ^ j * hd⟩
    exact dvd_trans (pow_dvd_pow 2 (Nat.succ_le_succ hkj)) hj

theorem pow_double_le (w : Int) (hw : 0 < w) (k : Nat) (h : w * 2 ^ (k + 1) ≤ INT_MAX) :
    2 * w ≤ INT_MAX := by
  have h1 : (1 : Int) ≤ 2 ^ k := one_le_pow₀ (by norm_num)
  have h2 : w * 2 ^ (k + 1) = 2 * w * 2 ^ k := by rw [pow_succ]; ring
  have h3 : 2 * w * 1 ≤ 2 * w * 2 ^ k := Int.mul_le_mul_of_nonneg_left h1 (by omega)
  omega

theorem pow_step_le (w w1 : Int) (k : Nat) (h1 : w1 ≤ 2 * w) :
    w1 * 2 ^ k ≤ w * 2 ^ (k + 1) := by
  have hp : (0 : Int) ≤ 2 ^ k := by positivity
  have h2 : w * 2 ^ (k + 1) = 2 * w * 2 ^ k := by rw [pow_succ]; ring
  rw [h2]
  exact Int.mul_le_mul_of_nonneg_right h1 hp

/-- After `k` executions of line 219 from a positive width `w` with
`w * 2 ^ k <= INT_MAX`, the width is positive, at most `w * 2 ^ k`, and a
multiple of `2 ^ (m + k)` when `w` is a multiple of `2 ^ m`. -/
theorem widthAfter_spec : ∀ (k : Nat) (w : Int), 0 < w → w * 2 ^ k ≤ INT_MAX →
    ∃ wk, widthAfter k w = some wk ∧ 0 < wk ∧ wk ≤ w * 2 ^ k ∧
      ∀ m : Nat, (2 : Int) ^ m ∣ w → (2 : Int) ^ (m + k) ∣ wk := by
  intro k
  induction k with
  | zero =>
    intro w hw _
    exact ⟨w, rfl, hw, by simp, fun m hm => by simpa using hm⟩
  | succ k ih =>
    intro w hw hmax
    obtain ⟨j, -, -, -, hg, hle, hdvd⟩ := growWidth_spec w hw (pow_double_le w hw k hmax)
    have hpos : (0 : Int) < 2 ^ j := by positivity
    obtain ⟨wk, h1, h2, h3, h4⟩ := ih (w + 2 ^ j) (by omega)
      (le_trans (pow_step_le w _ k hle) hmax)
    refine ⟨wk, ?_, h2, le_trans h3 (pow_step_le w _ k hle), ?_⟩
    · rw [widthAfter, hg]
      exact h1
    · intro m hm
      have := h4 (m + 1) (hdvd m hm)
      have e : m + 1 + k = m + (k + 1) := by omega
      rwa [e] at this

theorem nat_lor_eq_zero (m n : Nat) : m ||| n = 0 ↔ m = 0 ∧ n = 0 := by
  constructor
  · intro h
    constructor
    · apply Nat.eq_of_testBit_eq
      intro i
      have := congrArg (fun x => Nat.testBit x i) h
      simp only [Nat.testBit_or, Nat.zero_testBit, Bool.or_eq_false_iff] at this
      rw [this.1]; simp
    · apply Nat.eq_of_testBit_eq
      intro i
      have := congrArg (fun x => Nat.testBit x i) h
      simp only [Nat.testBit_or, Nat.zero_testBit, Bool.or_eq_false_iff] at this
      rw [this.2]; simp
  · rintro ⟨rfl, rfl⟩; rfl

theorem int_lor_eq_zero (x y : Int) : Int.lor x y = 0 ↔ x = 0 ∧ y = 0 := by
  cases x with
  | ofNat m =>
    cases y with
    | ofNat n =>
      show ((m ||| n : Nat) : Int) = 0 ↔ _
      rw [Int.natCast_eq_zero, nat_lor_eq_zero]
      simp
    | negSucc n =>
      show Int.negSucc _ = 0 ↔ _
      simp
  | negSucc m =>
    cases y with
    | ofNat n =>
      show Int.negSucc _ = 0 ↔ _
      simp
    | negSucc n =>
      show Int.negSucc _ = 0 ↔ _
      simp

/-- With non-zero alignments the value of `unaligned` after the inner loop is 0
exactly when every one of the four line sizes is a multiple of its alignment. -/
theorem unalignedBits_spec (linesize aligns : List Int)
    (halign : ∀ i : Nat, i < 4 → aligns.getD i 0 ≠ 0) :
    ∃ u, unalignedBits linesize aligns = some u ∧
      (u = 0 ↔ ∀ i : Nat, i < 4 → Int.tmod (linesize.getD i 0) (aligns.getD i 0) = 0) := by
  have h0 := halign 0 (by decide)
  have h1 := halign 1 (by decide)
  have h2 := halign 2 (by decide)
  have h3 := halign 3 (by decide)
  have hc : ¬ (aligns.getD 0 0 = 0 ∨ aligns.getD 1 0 = 0 ∨ aligns.getD 2 0 = 0 ∨
      aligns.getD 3 0 = 0) := by
    rintro (h | h | h | h)
    · exact h0 h
    · exact h1 h
    · exact h2 h
    · exact h3 h
  refine ⟨_, by unfold unalignedBits; rw [if_neg hc], ?_⟩
  rw [int_lor_eq_zero, int_lor_eq_zero, int_lor_eq_zero, int_lor_eq_zero]
  constructor
  · rintro ⟨⟨⟨⟨-, a0⟩, a1⟩, a2⟩, a3⟩ i hi
    interval_cases i
    · exact a0
    · exact a1
    · exact a2
    · exact a3
  · intro h
    exact ⟨⟨⟨⟨rfl, h 0 (by decide)⟩, h 1 (by decide)⟩, h 2 (by decide)⟩, h 3 (by decide)⟩

/-- The loop started at a positive multiple of `2 ^ k`, when every width that
is a multiple of `2 ^ (k + d)` gives aligned line sizes and `d + 1` executions
of line 219 stay within `int`: it ends within `d + 1` iterations. -/
theorem linesizeLoop_within (E : Engine) (sw_pix_fmt : AVPixelFormat) (aligns : List Int)
    (halign : ∀ i : Nat, i < 4 → aligns.getD i 0 ≠ 0) (K : Nat)
    (hK : ∀ width : Int, 0 < width → width ≤ INT_MAX → (2 : Int) ^ K ∣ width →
      ∀ i : Nat, i < 4 →
        aligns.getD i 0 ∣ (E.av_image_fill_linesizes sw_pix_fmt width).getD i 0) :
    ∀ (d k : Nat) (w : Int), k + d = K → 0 < w → (2 : Int) ^ k ∣ w →
      w * 2 ^ (d + 1) ≤ INT_MAX →
      ∀ fuel : Nat, d + 1 ≤ fuel →
        ∃ (j : Nat) (wj : Int), j ≤ d ∧ widthAfter j w = some wj ∧
          linesizeLoop E sw_pix_fmt aligns fuel w =
            some (E.av_image_fill_linesizes sw_pix_fmt wj) ∧
          ∀ i : Nat, i < 4 →
            Int.tmod ((E.av_image_fill_linesizes sw_pix_fmt wj).getD i 0)
              (aligns.getD i 0) = 0 := by
  intro d
  induction d with
  | zero =>
    intro k w hk hw hdvd hmax fuel hfuel
    obtain ⟨fuel1, rfl⟩ : ∃ f, fuel = f + 1 := ⟨fuel - 1, by omega⟩
    have h2w : 2 * w ≤ INT_MAX := pow_double_le w hw 0 hmax
    obtain ⟨j, -, -, -, hg, -, -⟩ := growWidth_spec w hw h2w
    have hal : ∀ i : Nat, i < 4 →
        Int.tmod ((E.av_image_fill_linesizes sw_pix_fmt w).getD i 0) (aligns.getD i 0) = 0 := by
      intro i hi
      apply Int.tmod_eq_zero_of_dvd
      apply hK w hw (by omega) _ i hi
      rw [← hk]; simpa using hdvd
    obtain ⟨u, hu, hiff⟩ := unalignedBits_spec (E.av_image_fill_linesizes sw_pix_fmt w) aligns
      halign
    have hu0 : u = 0 := hiff.mpr hal
    refine ⟨0, w, le_refl _, rfl, ?_, hal⟩
    rw [linesizeLoop]
    simp only [hg, hu, hu0, ne_eq, not_true_eq_false, if_false]
  | succ d ih =>
    intro k w hk hw hdvd hmax fuel hfuel
    obtain ⟨fuel1, rfl⟩ : ∃ f, fuel = f + 1 := ⟨fuel - 1, by omega⟩
    have h2w : 2 * w ≤ INT_MAX := pow_double_le w hw (d + 1) hmax
    obtain ⟨j0, -, -, -, hg, hle, hstep⟩ := growWidth_spec w hw h2w
    have hpos0 : (0 : Int) < 2 ^ j0 := by positivity
    obtain ⟨u, hu, hiff⟩ := unalignedBits_spec (E.av_image_fill_linesizes sw_pix_fmt w) aligns
      halign
    by_cases hu0 : u = 0
    · refine ⟨0, w, Nat.zero_le _, rfl, ?_, hiff.mp hu0⟩
      rw [linesizeLoop]
      simp only [hg, hu, hu0, ne_eq, not_true_eq_false, if_false]
    · obtain ⟨j, wj, hj, hwj, hloop, hal⟩ := ih (k + 1) (w + 2 ^ j0) (by omega) (by omega)
        (hstep k hdvd) (le_trans (pow_step_le w _ (d + 1) hle) hmax) fuel1 (by omega)
      refine ⟨j + 1, wj, by omega, ?_, ?_, hal⟩
      · rw [widthAfter, hg]
        exact hwj
      · rw [linesizeLoop]
        simp only [hg, hu, ne_eq, hu0, not_false_eq_true, if_true]
        exact hloop

/-- C24: for a positive width `w` with `w * 2 ^ (K + 1) <= INT_MAX` (no
execution of line 219 overflows), (1) `w & ~(w - 1)` is the largest power of
two dividing `w`, and line 219 adds it; (2) for `k <= K + 1`, after `k`
executions of line 219 the width is positive, at most `w * 2 ^ k` and a
multiple of `2 ^ k`; (3) if the four alignments are not 0 and every positive
`int` width that is a multiple of `2 ^ K` gives line sizes that are multiples
of their alignments, the `do`-`while` loop ends after at most `K + 1`
iterations, with the line sizes of the width reached after `j <= K` steps,
each of them a multiple of its alignment, and `tw` is
`linesize[0] / pixel_size` for those line sizes. -/
theorem linesizeLoop_terminates (E : Engine) (sw_pix_fmt : AVPixelFormat)
    (aligns : List Int) (K : Nat) (w : Int) (hw : 0 < w)
    (hmax : w * 2 ^ (K + 1) ≤ INT_MAX)
    (halign : ∀ i : Nat, i < 4 → aligns.getD i 0 ≠ 0)
    (hK : ∀ width : Int, 0 < width → width ≤ INT_MAX → (2 : Int) ^ K ∣ width →
      ∀ i : Nat, i < 4 →
        aligns.getD i 0 ∣ (E.av_image_fill_linesizes sw_pix_fmt width).getD i 0) :
    (∃ j : Nat, bitand w (bitnot (w - 1)) = 2 ^ j ∧ (2 : Int) ^ j ∣ w ∧
        ¬ (2 : Int) ^ (j + 1) ∣ w ∧ growWidth w = some (w + 2 ^ j)) ∧
      (∀ k : Nat, k ≤ K + 1 →
        ∃ wk, widthAfter k w = some wk ∧ 0 < wk ∧ wk ≤ w * 2 ^ k ∧ (2 : Int) ^ k ∣ wk) ∧
      (∀ fuel : Nat, K + 1 ≤ fuel →
        ∃ (j : Nat) (wj : Int), j ≤ K ∧ widthAfter j w = some wj ∧
          linesizeLoop E sw_pix_fmt aligns fuel w =
            some (E.av_image_fill_linesizes sw_pix_fmt wj) ∧
          (∀ i : Nat, i < 4 →
            Int.tmod ((E.av_image_fill_linesizes sw_pix_fmt wj).getD i 0)
              (aligns.getD i 0) = 0) ∧
          ∀ (ctx : AVCodecContext) (p_dsc : vlc_chroma_description_t),
            p_dsc.pixel_size ≠ 0 →
            alignedWidth E fuel ctx true sw_pix_fmt w aligns p_dsc =
              some (toSigned (toUnsigned
                ((E.av_image_fill_linesizes sw_pix_fmt wj).getD 0 0) / p_dsc.pixel_size))) := by
  refine ⟨?_, ?_, ?_⟩
  · obtain ⟨j, h1, h2, h3, h4, -, -⟩ := growWidth_spec w hw (pow_double_le w hw K hmax)
    exact ⟨j, h1, h2, h3, h4⟩
  · intro k hk
    have hle : w * 2 ^ k ≤ w * 2 ^ (K + 1) :=
      Int.mul_le_mul_of_nonneg_left (pow_le_pow_right₀ (by norm_num) hk) (le_of_lt hw)
    obtain ⟨wk, h1, h2, h3, h4⟩ := widthAfter_spec k w hw (le_trans hle hmax)
    refine ⟨wk, h1, h2, h3, ?_⟩
    simpa using h4 0 (by simp)
  · intro fuel hfuel
    obtain ⟨j, wj, hj, hwj, hloop, hal⟩ := linesizeLoop_within E sw_pix_fmt aligns halign K hK
      K 0 w (by omega) hw (by simp) hmax fuel hfuel
    refine ⟨j, wj, hj, hwj, hloop, hal, ?_⟩
    intro ctx p_dsc hp
    unfold alignedWidth
    simp only [if_true, hloop]
    rw [if_neg hp]

/-- In the sample environment a positive width that is a multiple of 32 gives
4:2:0 line sizes that are multiples of 16. -/
theorem sampleEngine_linesizes_aligned (create : Bool) (status : Int) (restricted : Bool)
    (width : Int) (hw : 0 < width) (hd : (2 : Int) ^ 5 ∣ width) (i : Nat) (hi : i < 4) :
    ([16, 16, 16, 16, 0, 0, 0, 0] : List Int).getD i 0 ∣
      ((sampleEngine create status restricted).av_image_fill_linesizes AV_PIX_FMT_YUV420P
        width).getD i 0 := by
  obtain ⟨c, hc⟩ := hd
  have hc32 : width = 32 * c := by rw [hc]; norm_num
  have e : Int.tdiv (width + 1) 2 = 16 * c := by
    rw [Int.tdiv_eq_ediv (by omega) (by decide)]
    omega
  show ([16, 16, 16, 16, 0, 0, 0, 0] : List Int).getD i 0 ∣
    ([width, Int.tdiv (width + 1) 2, Int.tdiv (width + 1) 2, 0] : List Int).getD i 0
  rw [e]
  interval_cases i
  · exact ⟨2 * c, by simp only [List.getD_cons_zero]; omega⟩
  · exact ⟨c, rfl⟩
  · exact ⟨c, rfl⟩
  · exact ⟨0, rfl⟩

/-- C24 at the width 8 in the sample environment, where widths that are
multiples of 32 are aligned: the loop ends within 6 iterations. -/
theorem linesizeLoop_terminates_witness :
    ∃ (j : Nat) (wj : Int), j ≤ 5 ∧ widthAfter j 8 = some wj ∧
      linesizeLoop vaapiEngine AV_PIX_FMT_YUV420P [16, 16, 16, 16, 0, 0, 0, 0] 6 8 =
        some (vaapiEngine.av_image_fill_linesizes AV_PIX_FMT_YUV420P wj) ∧
      (∀ i : Nat, i < 4 →
        Int.tmod ((vaapiEngine.av_image_fill_linesizes AV_PIX_FMT_YUV420P wj).getD i 0)
          (([16, 16, 16, 16, 0, 0, 0, 0] : List Int).getD i 0) = 0) ∧
      ∀ (ctx : AVCodecContext) (p_dsc : vlc_chroma_description_t),
        p_dsc.pixel_size ≠ 0 →
        alignedWidth vaapiEngine 6 ctx true AV_PIX_FMT_YUV420P 8
            [16, 16, 16, 16, 0, 0, 0, 0] p_dsc =
          some (toSigned (toUnsigned
            ((vaapiEngine.av_image_fill_linesizes AV_PIX_FMT_YUV420P wj).getD 0 0) /
              p_dsc.pixel_size)) :=
  (linesizeLoop_terminates vaapiEngine AV_PIX_FMT_YUV420P [16, 16, 16, 16, 0, 0, 0, 0] 5 8
    (by decide) (by decide) (by decide)
    (fun width hw _ hd i hi => sampleEngine_linesizes_aligned true 0 false width hw hd i hi)).2.2
    6 (le_refl _)

/-- Outside the range of C24 line 219 has no defined result: at the width
`2 ^ 30` the sum `2 ^ 31` is not an `int`, and the loop has no result although
the line sizes of that width are aligned in the sample environment. -/
theorem growWidth_overflow :
    growWidth 1073741824 = none ∧
      unalignedBits (vaapiEngine.av_image_fill_linesizes AV_PIX_FMT_YUV420P 1073741824)
        [16, 16, 16, 16, 0, 0, 0, 0] = some 0 ∧
      ∀ fuel : Nat,
        linesizeLoop vaapiEngine AV_PIX_FMT_YUV420P [16, 16, 16, 16, 0, 0, 0, 0] fuel
          1073741824 = none := by
  refine ⟨by decide, by decide, ?_⟩
  intro fuel
  cases fuel with
  | zero => rfl
  | succ n => rfl
theorem span_cases (a b : Int) :
    (b - a + 1 < 0 ∧ span a b = (b, a)) ∨ (0 ≤ b - a + 1 ∧ span a b = (a, b)) := by
  unfold span
  by_cases h : b - a + 1 < 0
  · exact Or.inl ⟨h, by rw [if_pos h]⟩
  · exact Or.inr ⟨not_lt.mp h, by rw [if_neg h]⟩

/-- The pair `span` computes is in order, up to the empty interval. -/
theorem span_le (a b : Int) : (span a b).1 ≤ (span a b).2 + 1 := by
  rcases span_cases a b with ⟨h, e⟩ | ⟨h, e⟩ <;> rw [e] <;> simp only <;> omega

theorem span_le_of_ne (a b : Int) (h : b - a + 1 ≠ 0) : (span a b).1 ≤ (span a b).2 := by
  rcases span_cases a b with ⟨h1, e⟩ | ⟨h1, e⟩ <;> rw [e] <;> simp only <;> omega

/-- The points `contains(p, false)` accepts. -/
theorem contains_iff (r : QRect) (p : QPoint) :
    r.contains p false = true ↔
      (span r.x1 r.x2).1 ≤ p.x ∧ p.x ≤ (span r.x1 r.x2).2 ∧
      (span r.y1 r.y2).1 ≤ p.y ∧ p.y ≤ (span r.y1 r.y2).2 := by
  have hx : (if r.x2 < r.x1 - 1 then (r.x2, r.x1) else (r.x1, r.x2)) = span r.x1 r.x2 := by
    unfold span
    by_cases h : r.x2 < r.x1 - 1
    · rw [if_pos h, if_pos (by omega)]
    · rw [if_neg h, if_neg (by omega)]
  have hy : (if r.y2 < r.y1 - 1 then (r.y2, r.y1) else (r.y1, r.y2)) = span r.y1 r.y2 := by
    unfold span
    by_cases h : r.y2 < r.y1 - 1
    · rw [if_pos h, if_pos (by omega)]
    · rw [if_neg h, if_neg (by omega)]
  unfold QRect.contains
  simp only [hx, hy, Bool.false_eq_true, if_false]
  by_cases h1 : p.x < (span r.x1 r.x2).1 ∨ p.x > (span r.x1 r.x2).2
  · simp only [h1, decide_True, if_true, Bool.false_eq_true, false_iff]
    omega
  · by_cases h2 : p.y < (span r.y1 r.y2).1 ∨ p.y > (span r.y1 r.y2).2
    · simp only [h1, h2, decide_True, decide_False, if_true, if_false, Bool.false_eq_true,
        false_iff]
      omega
    · simp only [h1, h2, decide_False, if_false, Bool.false_eq_true, true_iff]
      omega

theorem contains_iff_of_nonneg (r : QRect) (p : QPoint) (hw : 0 ≤ r.x2 - r.x1 + 1)
    (hh : 0 ≤ r.y2 - r.y1 + 1) :
    r.contains p false = true ↔ r.x1 ≤ p.x ∧ p.x ≤ r.x2 ∧ r.y1 ≤ p.y ∧ p.y ≤ r.y2 := by
  rw [contains_iff]
  rcases span_cases r.x1 r.x2 with ⟨h1, e1⟩ | ⟨h1, e1⟩
  · omega
  · rcases span_cases r.y1 r.y2 with ⟨h2, e2⟩ | ⟨h2, e2⟩
    · omega
    · rw [e1, e2]

/-- A null rectangle contains no point. -/
theorem contains_null (H : QRectHeader) (hH : QtConventions H) (r : QRect) (p : QPoint)
    (hn : H.isNull r = true) : r.contains p false = false := by
  obtain ⟨h1, h2⟩ := (hH.1 r).mp hn
  cases hc : r.contains p false with
  | false => rfl
  | true =>
    have := (contains_iff_of_nonneg r p (by omega) (by omega)).mp hc
    omega

/-- The three outcomes of `operator&`. -/
theorem operator_and_cases (H : QRectHeader) (a b : QRect) :
    ((H.isNull a = true ∨ H.isNull b = true ∨
        (span a.x1 a.x2).1 > (span b.x1 b.x2).2 ∨ (span b.x1 b.x2).1 > (span a.x1 a.x2).2 ∨
        (span a.y1 a.y2).1 > (span b.y1 b.y2).2 ∨ (span b.y1 b.y2).1 > (span a.y1 a.y2).2) ∧
      QRect.operator_and H a b = H.defaultRect) ∨
    (H.isNull a = false ∧ H.isNull b = false ∧
      (span a.x1 a.x2).1 ≤ (span b.x1 b.x2).2 ∧ (span b.x1 b.x2).1 ≤ (span a.x1 a.x2).2 ∧
      (span a.y1 a.y2).1 ≤ (span b.y1 b.y2).2 ∧ (span b.y1 b.y2).1 ≤ (span a.y1 a.y2).2 ∧
      QRect.operator_and H a b =
        { x1 := max (span a.x1 a.x2).1 (span b.x1 b.x2).1
          x2 := min (span a.x1 a.x2).2 (span b.x1 b.x2).2
          y1 := max (span a.y1 a.y2).1 (span b.y1 b.y2).1
          y2 := min (span a.y1 a.y2).2 (span b.y1 b.y2).2 }) := by
  unfold QRect.operator_and
  cases hna : H.isNull a with
  | true => exact Or.inl ⟨Or.inl rfl, by simp⟩
  | false =>
    cases hnb : H.isNull b with
    | true => exact Or.inl ⟨Or.inr (Or.inl rfl), by simp⟩
    | false =>
      simp only [Bool.or_self, Bool.false_eq_true, if_false]
      by_cases hx : (span a.x1 a.x2).1 > (span b.x1 b.x2).2 ∨
          (span b.x1 b.x2).1 > (span a.x1 a.x2).2
      · rw [if_pos hx]
        refine Or.inl ⟨?_, rfl⟩
        rcases hx with hx | hx
        · exact Or.inr (Or.inr (Or.inl hx))
        · exact Or.inr (Or.inr (Or.inr (Or.inl hx)))
      · rw [if_neg hx]
        by_cases hy : (span a.y1 a.y2).1 > (span b.y1 b.y2).2 ∨
            (span b.y1 b.y2).1 > (span a.y1 a.y2).2
        · rw [if_pos hy]
          refine Or.inl ⟨?_, rfl⟩
          rcases hy with hy | hy
          · exact Or.inr (Or.inr (Or.inr (Or.inr (Or.inl hy))))
          · exact Or.inr (Or.inr (Or.inr (Or.inr (Or.inr hy))))
        · rw [if_neg hy]
          push_neg at hx hy
          exact Or.inr ⟨trivial, trivial, hx.1, hx.2, hy.1, hy.2, rfl⟩

/-- C26: under the conventions of Qt for `isNull()` and `QRect()`, for all
rectangles `a` and `b` and every point `p`, `(a & b).contains(p, false)` holds
if and only if `a.contains(p, false)` and `b.contains(p, false)`; the width
`x2 - x1 + 1` and the height `y2 - y1 + 1` of `a & b` are not negative; and
`a & b == b & a`. -/
theorem operator_and_exact (H : QRectHeader) (hH : QtConventions H) (a b : QRect)
    (p : QPoint) :
    ((QRect.operator_and H a b).contains p false = true ↔
        a.contains p false = true ∧ b.contains p false = true) ∧
      0 ≤ (QRect.operator_and H a b).x2 - (QRect.operator_and H a b).x1 + 1 ∧
      0 ≤ (QRect.operator_and H a b).y2 - (QRect.operator_and H a b).y1 + 1 ∧
      QRect.operator_and H a b = QRect.operator_and H b a := by
  have hdef := hH.2
  have hsa := span_le a.x1 a.x2
  have hsb := span_le b.x1 b.x2
  have hta := span_le a.y1 a.y2
  have htb := span_le b.y1 b.y2
  have hcomm : QRect.operator_and H a b = QRect.operator_and H b a := by
    rcases operator_and_cases H a b with ⟨hc, e⟩ | ⟨n1, n2, c1, c2, c3, c4, e⟩
    · rcases operator_and_cases H b a with ⟨hc2, e2⟩ | ⟨m1, m2, d1, d2, d3, d4, e2⟩
      · rw [e, e2]
      · exfalso
        rcases hc with h | h | h | h | h | h
        · rw [m2] at h; simp at h
        · rw [m1] at h; simp at h
        · omega
        · omega
        · omega
        · omega
    · rcases operator_and_cases H b a with ⟨hc2, e2⟩ | ⟨m1, m2, d1, d2, d3, d4, e2⟩
      · exfalso
        rcases hc2 with h | h | h | h | h | h
        · rw [n2] at h; simp at h
        · rw [n1] at h; simp at h
        · omega
        · omega
        · omega
        · omega
      · rw [e, e2, max_comm, min_comm, max_comm (span a.y1 a.y2).1, min_comm (span a.y1 a.y2).2]
  refine ⟨?_, ?_, ?_, hcomm⟩
  · rcases operator_and_cases H a b with ⟨hc, e⟩ | ⟨n1, n2, c1, c2, c3, c4, e⟩
    · rw [e, hdef]
      constructor
      · intro h
        have := (contains_iff_of_nonneg _ p (by decide) (by decide)).mp h
        simp only at this
        omega
      · rintro ⟨h1, h2⟩
        exfalso
        rcases hc with h | h | h | h | h | h
        · rw [contains_null H hH a p h] at h1; simp at h1
        · rw [contains_null H hH b p h] at h2; simp at h2
        all_goals
          rw [contains_iff] at h1 h2
          omega
    · rw [e, contains_iff_of_nonneg _ p (by simp only; omega) (by simp only; omega),
        contains_iff, contains_iff]
      simp only
      omega
  · rcases operator_and_cases H a b with ⟨hc, e⟩ | ⟨n1, n2, c1, c2, c3, c4, e⟩
    · rw [e, hdef]; decide
    · rw [e]; simp only; omega
  · rcases operator_and_cases H a b with ⟨hc, e⟩ | ⟨n1, n2, c1, c2, c3, c4, e⟩
    · rw [e, hdef]; decide
    · rw [e]; simp only; omega

/-- The header of Qt follows the conventions of Qt. -/
theorem qtHeader_conventions : QtConventions qtHeader :=
  ⟨fun r => by simp [qtHeader], rfl⟩

/-- C26 at the 10x10 square at the origin and a rectangle stored with swapped
horizontal edges that covers columns and rows 5 to 14: the intersection is
the square from (5, 5) to (9, 9), which contains (7, 7) as both operands do. -/
theorem operator_and_exact_witness :
    QtConventions qtHeader ∧
      QRect.operator_and qtHeader squareRect swappedRect =
        { x1 := 5, y1 := 5, x2 := 9, y2 := 9 } ∧
      ((QRect.operator_and qtHeader squareRect swappedRect).contains ⟨7, 7⟩ false = true ↔
        squareRect.contains ⟨7, 7⟩ false = true ∧ swappedRect.contains ⟨7, 7⟩ false = true) ∧
      0 ≤ (QRect.operator_and qtHeader squareRect swappedRect).x2 -
        (QRect.operator_and qtHeader squareRect swappedRect).x1 + 1 ∧
      0 ≤ (QRect.operator_and qtHeader squareRect swappedRect).y2 -
        (QRect.operator_and qtHeader squareRect swappedRect).y1 + 1 ∧
      QRect.operator_and qtHeader squareRect swappedRect =
        QRect.operator_and qtHeader swappedRect squareRect :=
  ⟨qtHeader_conventions, by decide,
    operator_and_exact qtHeader qtHeader_conventions squareRect swappedRect ⟨7, 7⟩⟩

/-- When `intersects` returns `true`. -/
theorem intersects_iff (H : QRectHeader) (a b : QRect) :
    QRect.intersects H a b = true ↔
      H.isNull a = false ∧ H.isNull b = false ∧
      (span a.x1 a.x2).1 ≤ (span b.x1 b.x2).2 ∧ (span b.x1 b.x2).1 ≤ (span a.x1 a.x2).2 ∧
      (span a.y1 a.y2).1 ≤ (span b.y1 b.y2).2 ∧ (span b.y1 b.y2).1 ≤ (span a.y1 a.y2).2 := by
  unfold QRect.intersects
  cases hna : H.isNull a with
  | true => simp
  | false =>
    cases hnb : H.isNull b with
    | true => simp
    | false =>
      simp only [Bool.or_self, Bool.false_eq_true, if_false, true_and]
      by_cases hx : (span a.x1 a.x2).1 > (span b.x1 b.x2).2 ∨
          (span b.x1 b.x2).1 > (span a.x1 a.x2).2
      · rw [if_pos hx]
        simp only [Bool.false_eq_true, false_iff]
        omega
      · rw [if_neg hx]
        by_cases hy : (span a.y1 a.y2).1 > (span b.y1 b.y2).2 ∨
            (span b.y1 b.y2).1 > (span a.y1 a.y2).2
        · rw [if_pos hy]
          simp only [Bool.false_eq_true, false_iff]
          omega
        · rw [if_neg hy]
          simp only [true_iff]
          omega

theorem not_null_of_width (H : QRectHeader) (hH : QtConventions H) (r : QRect)
    (hw : r.x2 - r.x1 + 1 ≠ 0) : H.isNull r = false := by
  cases hn : H.isNull r with
  | false => rfl
  | true =>
    have := (hH.1 r).mp hn
    omega

/-- C27: under the conventions of Qt, for rectangles `a` and `b` whose widths
and heights are not 0, `a.intersects(b)` is true if and only if some point is
contained in both, and if and only if `a & b` is not empty (its `x1 <= x2` and
`y1 <= y2`); and `a.intersects(b) == b.intersects(a)` for all rectangles. -/
theorem intersects_overlap (H : QRectHeader) (hH : QtConventions H) (a b : QRect) :
    (a.x2 - a.x1 + 1 ≠ 0 → a.y2 - a.y1 + 1 ≠ 0 → b.x2 - b.x1 + 1 ≠ 0 →
        b.y2 - b.y1 + 1 ≠ 0 →
        (QRect.intersects H a b = true ↔
          ∃ p : QPoint, a.contains p false = true ∧ b.contains p false = true) ∧
        (QRect.intersects H a b = true ↔
          ¬ ((QRect.operator_and H a b).x1 > (QRect.operator_and H a b).x2 ∨
            (QRect.operator_and H a b).y1 > (QRect.operator_and H a b).y2))) ∧
      QRect.intersects H a b = QRect.intersects H b a := by
  refine ⟨?_, ?_⟩
  · intro wa ha wb hb
    have na := not_null_of_width H hH a wa
    have nb := not_null_of_width H hH b wb
    have sa := span_le_of_ne a.x1 a.x2 wa
    have sb := span_le_of_ne b.x1 b.x2 wb
    have ta := span_le_of_ne a.y1 a.y2 ha
    have tb := span_le_of_ne b.y1 b.y2 hb
    refine ⟨?_, ?_⟩
    · rw [intersects_iff]
      constructor
      · rintro ⟨-, -, c1, c2, c3, c4⟩
        refine ⟨⟨max (span a.x1 a.x2).1 (span b.x1 b.x2).1,
          max (span a.y1 a.y2).1 (span b.y1 b.y2).1⟩, ?_, ?_⟩
        · rw [contains_iff]; simp only; omega
        · rw [contains_iff]; simp only; omega
      · rintro ⟨p, h1, h2⟩
        rw [contains_iff] at h1 h2
        exact ⟨na, nb, by omega, by omega, by omega, by omega⟩
    · rw [intersects_iff]
      rcases operator_and_cases H a b with ⟨hc, e⟩ | ⟨n1, n2, c1, c2, c3, c4, e⟩
      · rw [e, hH.2]
        constructor
        · rintro ⟨-, -, c1, c2, c3, c4⟩
          exfalso
          rcases hc with h | h | h | h | h | h
          · rw [na] at h; simp at h
          · rw [nb] at h; simp at h
          · omega
          · omega
          · omega
          · omega
        · intro h
          exfalso
          apply h
          simp only
          omega
      · rw [e]
        simp only
        constructor
        · intro _; omega
        · intro _; exact ⟨na, nb, c1, c2, c3, c4⟩
  · rw [Bool.eq_iff_iff, intersects_iff, intersects_iff]
    constructor
    · rintro ⟨n1, n2, c1, c2, c3, c4⟩; exact ⟨n2, n1, c2, c1, c4, c3⟩
    · rintro ⟨n1, n2, c1, c2, c3, c4⟩; exact ⟨n2, n1, c2, c1, c4, c3⟩

/-- C27 at the 10x10 square and the rectangle with swapped edges: they
intersect and (5, 5) is in both. -/
theorem intersects_overlap_witness :
    QtConventions qtHeader ∧
      QRect.intersects qtHeader squareRect swappedRect = true ∧
      (QRect.intersects qtHeader squareRect swappedRect = true ↔
        ∃ p : QPoint, squareRect.contains p false = true ∧
          swappedRect.contains p false = true) ∧
      (squareRect.contains ⟨5, 5⟩ false = true ∧ swappedRect.contains ⟨5, 5⟩ false = true) ∧
      QRect.intersects qtHeader squareRect swappedRect =
        QRect.intersects qtHeader swappedRect squareRect :=
  ⟨qtHeader_conventions, by decide,
    ((intersects_overlap qtHeader qtHeader_conventions squareRect swappedRect).1
      (by decide) (by decide) (by decide) (by decide)).1,
    by decide,
    (intersects_overlap qtHeader qtHeader_conventions squareRect swappedRect).2⟩

/-- When `contains(r, proper)` returns `true`. -/
theorem containsRect_iff (H : QRectHeader) (a b : QRect) (proper : Bool) :
    QRect.containsRect H a b proper = true ↔
      H.isNull a = false ∧ H.isNull b = false ∧
      (if proper then
        (span a.x1 a.x2).1 < (span b.x1 b.x2).1 ∧ (span b.x1 b.x2).2 < (span a.x1 a.x2).2 ∧
        (span a.y1 a.y2).1 < (span b.y1 b.y2).1 ∧ (span b.y1 b.y2).2 < (span a.y1 a.y2).2
      else
        (span a.x1 a.x2).1 ≤ (span b.x1 b.x2).1 ∧ (span b.x1 b.x2).2 ≤ (span a.x1 a.x2).2 ∧
        (span a.y1 a.y2).1 ≤ (span b.y1 b.y2).1 ∧ (span b.y1 b.y2).2 ≤ (span a.y1 a.y2).2) := by
  unfold QRect.containsRect
  cases hna : H.isNull a with
  | true => simp
  | false =>
    cases hnb : H.isNull b with
    | true => simp
    | false =>
      simp only [Bool.or_self, Bool.false_eq_true, if_false, true_and]
      cases proper with
      | true =>
        simp only [if_true]
        by_cases hx : (span b.x1 b.x2).1 ≤ (span a.x1 a.x2).1 ∨
            (span b.x1 b.x2).2 ≥ (span a.x1 a.x2).2
        · simp only [hx, decide_True, if_true, Bool.false_eq_true, false_iff]
          omega
        · by_cases hy : (span b.y1 b.y2).1 ≤ (span a.y1 a.y2).1 ∨
              (span b.y1 b.y2).2 ≥ (span a.y1 a.y2).2
          · simp only [hx, hy, decide_True, decide_False, if_true, if_false,
              Bool.false_eq_true, false_iff]
            omega
          · simp only [hx, hy, decide_False, if_false, Bool.false_eq_true, true_iff]
            omega
      | false =>
        simp only [Bool.false_eq_true, if_false]
        by_cases hx : (span b.x1 b.x2).1 < (span a.x1 a.x2).1 ∨
            (span b.x1 b.x2).2 > (span a.x1 a.x2).2
        · simp only [hx, decide_True, if_true, Bool.false_eq_true, false_iff]
          omega
        · by_cases hy : (span b.y1 b.y2).1 < (span a.y1 a.y2).1 ∨
              (span b.y1 b.y2).2 > (span a.y1 a.y2).2
          · simp only [hx, hy, decide_True, decide_False, if_true, if_false,
              Bool.false_eq_true, false_iff]
            omega
          · simp only [hx, hy, decide_False, if_false, Bool.false_eq_true, true_iff]
            omega

/-- C28: under the conventions of Qt, for every rectangle `a` and every
rectangle `b` whose width and height are not 0, `a.contains(b, false)` is true
if and only if every point that `b.contains(p, false)` accepts is accepted by
`a.contains(p, false)`; and `a.contains(b, true)` implies
`a.contains(b, false)`. -/
theorem containsRect_inclusion (H : QRectHeader) (hH : QtConventions H) (a b : QRect) :
    (b.x2 - b.x1 + 1 ≠ 0 → b.y2 - b.y1 + 1 ≠ 0 →
        (QRect.containsRect H a b false = true ↔
          ∀ p : QPoint, b.contains p false = true → a.contains p false = true)) ∧
      (QRect.containsRect H a b true = true → QRect.containsRect H a b false = true) := by
  refine ⟨?_, ?_⟩
  · intro wb hb
    have nb := not_null_of_width H hH b wb
    have sb := span_le_of_ne b.x1 b.x2 wb
    have tb := span_le_of_ne b.y1 b.y2 hb
    rw [containsRect_iff]
    simp only [Bool.false_eq_true, if_false]
    constructor
    · rintro ⟨-, -, c1, c2, c3, c4⟩ p hp
      rw [contains_iff] at hp ⊢
      omega
    · intro hall
      have h1 := hall ⟨(span b.x1 b.x2).1, (span b.y1 b.y2).1⟩
        (by rw [contains_iff]; simp only; omega)
      have h2 := hall ⟨(span b.x1 b.x2).2, (span b.y1 b.y2).2⟩
        (by rw [contains_iff]; simp only; omega)
      rw [contains_iff] at h1 h2
      simp only at h1 h2
      refine ⟨?_, nb, by omega, by omega, by omega, by omega⟩
      cases hn : H.isNull a with
      | false => rfl
      | true =>
        exfalso
        have hc := contains_null H hH a ⟨(span b.x1 b.x2).1, (span b.y1 b.y2).1⟩ hn
        rw [hall ⟨(span b.x1 b.x2).1, (span b.y1 b.y2).1⟩
          (by rw [contains_iff]; simp only; omega)] at hc
        simp at hc
  · rw [containsRect_iff, containsRect_iff]
    simp only [if_true, Bool.false_eq_true, if_false]
    rintro ⟨n1, n2, c1, c2, c3, c4⟩
    exact ⟨n1, n2, by omega, by omega, by omega, by omega⟩

/-- C28 at the rectangle from (0, 0) to (14, 14) and the rectangle with swapped
edges inside it. -/
theorem containsRect_inclusion_witness :
    QtConventions qtHeader ∧
      QRect.containsRect qtHeader { x1 := 0, y1 := 0, x2 := 14, y2 := 14 } swappedRect false =
        true ∧
      (QRect.containsRect qtHeader { x1 := 0, y1 := 0, x2 := 14, y2 := 14 } swappedRect false =
          true ↔
        ∀ p : QPoint, swappedRect.contains p false = true →
          QRect.contains { x1 := 0, y1 := 0, x2 := 14, y2 := 14 } p false = true) ∧
      QRect.containsRect qtHeader squareRect swappedRect false = false :=
  ⟨qtHeader_conventions, by decide,
    (containsRect_inclusion qtHeader qtHeader_conventions
      { x1 := 0, y1 := 0, x2 := 14, y2 := 14 } swappedRect).1 (by decide) (by decide),
    by decide⟩

theorem normalized_eq_span (r : QRect) :
    r.normalized.x1 = (span r.x1 r.x2).1 ∧ r.normalized.x2 = (span r.x1 r.x2).2 ∧
      r.normalized.y1 = (span r.y1 r.y2).1 ∧ r.normalized.y2 = (span r.y1 r.y2).2 := by
  have hx : (if r.x2 < r.x1 - 1 then (r.x2, r.x1) else (r.x1, r.x2)) = span r.x1 r.x2 := by
    unfold span
    by_cases h : r.x2 < r.x1 - 1
    · rw [if_pos h, if_pos (by omega)]
    · rw [if_neg h, if_neg (by omega)]
  have hy : (if r.y2 < r.y1 - 1 then (r.y2, r.y1) else (r.y1, r.y2)) = span r.y1 r.y2 := by
    unfold span
    by_cases h : r.y2 < r.y1 - 1
    · rw [if_pos h, if_pos (by omega)]
    · rw [if_neg h, if_neg (by omega)]
  unfold QRect.normalized
  rw [hx, hy]
  exact ⟨rfl, rfl, rfl, rfl⟩

/-- C29: under the conventions of Qt, a point contained in `a` or in `b` is
contained in `a | b`; when neither is null, the edges of `a | b` are the least
left and top edge and the greatest right and bottom edge of the two normalised
rectangles, and its width and height are not negative; when `a` is null the
result is `b`, and when `b` is null and `a` is not, the result is `a`. -/
theorem operator_or_bounding (H : QRectHeader) (hH : QtConventions H) (a b : QRect)
    (p : QPoint) :
    (a.contains p false = true ∨ b.contains p false = true →
        (QRect.operator_or H a b).contains p false = true) ∧
      (H.isNull a = false → H.isNull b = false →
        QRect.operator_or H a b =
          { x1 := min a.normalized.x1 b.normalized.x1
            y1 := min a.normalized.y1 b.normalized.y1
            x2 := max a.normalized.x2 b.normalized.x2
            y2 := max a.normalized.y2 b.normalized.y2 } ∧
        0 ≤ (QRect.operator_or H a b).x2 - (QRect.operator_or H a b).x1 + 1 ∧
        0 ≤ (QRect.operator_or H a b).y2 - (QRect.operator_or H a b).y1 + 1) ∧
      (H.isNull a = true → QRect.operator_or H a b = b) ∧
      (H.isNull a = false → H.isNull b = true → QRect.operator_or H a b = a) := by
  have hsa := span_le a.x1 a.x2
  have hsb := span_le b.x1 b.x2
  have hta := span_le a.y1 a.y2
  have htb := span_le b.y1 b.y2
  obtain ⟨a1, a2, a3, a4⟩ := normalized_eq_span a
  obtain ⟨b1, b2, b3, b4⟩ := normalized_eq_span b
  have hboth : H.isNull a = false → H.isNull b = false →
      QRect.operator_or H a b =
        { x1 := min (span a.x1 a.x2).1 (span b.x1 b.x2).1
          y1 := min (span a.y1 a.y2).1 (span b.y1 b.y2).1
          x2 := max (span a.x1 a.x2).2 (span b.x1 b.x2).2
          y2 := max (span a.y1 a.y2).2 (span b.y1 b.y2).2 } := by
    intro na nb
    unfold QRect.operator_or
    simp only [na, nb, Bool.false_eq_true, if_false]
  have hnulla : H.isNull a = true → QRect.operator_or H a b = b := by
    intro na; unfold QRect.operator_or; rw [if_pos na]
  have hnullb : H.isNull a = false → H.isNull b = true → QRect.operator_or H a b = a := by
    intro na nb; unfold QRect.operator_or
    rw [if_neg (by rw [na]; simp), if_pos nb]
  refine ⟨?_, ?_, hnulla, hnullb⟩
  · intro hp
    cases na : H.isNull a with
    | true =>
      rw [hnulla na]
      rcases hp with hp | hp
      · rw [contains_null H hH a p na] at hp; simp at hp
      · exact hp
    | false =>
      cases nb : H.isNull b with
      | true =>
        rw [hnullb na nb]
        rcases hp with hp | hp
        · exact hp
        · rw [contains_null H hH b p nb] at hp; simp at hp
      | false =>
        rw [hboth na nb, contains_iff_of_nonneg _ p (by simp only; omega)
          (by simp only; omega)]
        simp only
        rcases hp with hp | hp
        · rw [contains_iff] at hp; omega
        · rw [contains_iff] at hp; omega
  · intro na nb
    rw [hboth na nb, a1, a2, a3, a4, b1, b2, b3, b4]
    refine ⟨rfl, ?_, ?_⟩
    · simp only; omega
    · simp only; omega

/-- C29 at the 10x10 square and the rectangle with swapped edges: the union is
the rectangle from (0, 0) to (14, 14), which contains the point (12, 3) of
neither; and the union with a null rectangle is the other operand. -/
theorem operator_or_bounding_witness :
    QtConventions qtHeader ∧
      QRect.operator_or qtHeader squareRect swappedRect =
        { x1 := 0, y1 := 0, x2 := 14, y2 := 14 } ∧
      (squareRect.contains ⟨9, 9⟩ false = true ∨ swappedRect.contains ⟨9, 9⟩ false = true) ∧
      (QRect.operator_or qtHeader squareRect swappedRect).contains ⟨9, 9⟩ false = true ∧
      (QRect.operator_or qtHeader squareRect swappedRect).contains ⟨12, 3⟩ false = true ∧
      squareRect.contains ⟨12, 3⟩ false = false ∧
      swappedRect.contains ⟨12, 3⟩ false = false ∧
      QRect.operator_or qtHeader { x1 := 3, y1 := 3, x2 := 2, y2 := 2 } swappedRect =
        swappedRect :=
  ⟨qtHeader_conventions, by decide, by decide,
    (operator_or_bounding qtHeader qtHeader_conventions squareRect swappedRect ⟨9, 9⟩).1
      (by decide),
    by decide, by decide, by decide,
    (operator_or_bounding qtHeader qtHeader_conventions { x1 := 3, y1 := 3, x2 := 2, y2 := 2 }
      swappedRect ⟨0, 0⟩).2.2.1 (by decide)⟩

/-! ## The shader cache -/

theorem cacheFind_none_iff (t : Int) (l : List (Int × Nat)) :
    cacheFind t l = none ↔ t ∉ l.map Prod.fst := by
  induction l with
  | nil => simp [cacheFind]
  | cons e rest ih =>
    obtain ⟨k, v⟩ := e
    unfold cacheFind
    by_cases hk : k = t
    · simp [hk]
    · simp only [hk, if_false, ih, List.map_cons, List.mem_cons, not_or]
      exact ⟨fun h => ⟨fun e => hk e.symm, h⟩, fun h => h.2⟩

theorem cacheFind_some_mem (t : Int) (v : Nat) (l : List (Int × Nat))
    (h : cacheFind t l = some v) : (t, v) ∈ l := by
  induction l with
  | nil => simp [cacheFind] at h
  | cons e rest ih =>
    obtain ⟨k, w⟩ := e
    unfold cacheFind at h
    by_cases hk : k = t
    · simp only [hk, if_true, Option.some.injEq] at h
      subst h; subst hk; simp
    · simp only [hk, if_false] at h
      exact List.mem_cons_of_mem _ (ih h)

/-- One call: the invariant is kept, the shader returned is the one the cache
holds for the effective type afterwards, entries are never replaced, and the
keys afterwards are the keys before and the effective type. -/
theorem prepareMaterial_spec (m : ShaderManager) (a b : Int) (hinv : CacheInv m) :
    CacheInv (prepareMaterial m a b).2 ∧
      cacheFind (effectiveType a b) (prepareMaterial m a b).2.shader_cache =
        some (prepareMaterial m a b).1 ∧
      (∀ t v, cacheFind t m.shader_cache = some v →
        cacheFind t (prepareMaterial m a b).2.shader_cache = some v) ∧
      (∀ t, t ∈ (prepareMaterial m a b).2.shader_cache.map Prod.fst ↔
        t ∈ m.shader_cache.map Prod.fst ∨ t = effectiveType a b) ∧
      (cacheFind (effectiveType a b) m.shader_cache ≠ none →
        (prepareMaterial m a b).2 = m) ∧
      (cacheFind (effectiveType a b) m.shader_cache = none →
        (prepareMaterial m a b).2.created = m.created + 1 ∧
        (prepareMaterial m a b).1 = m.created) := by
  obtain ⟨h1, h2, h3, h4⟩ := hinv
  unfold prepareMaterial
  cases hf : cacheFind (effectiveType a b) m.shader_cache with
  | some shader =>
    simp only []
    refine ⟨⟨h1, h2, h3, h4⟩, hf, fun t v h => h, ?_, fun _ => by simp, fun h => by simp at h⟩
    intro t
    constructor
    · intro h; exact Or.inl h
    · rintro (h | h)
      · exact h
      · rw [h]
        have := cacheFind_some_mem _ _ _ hf
        exact List.mem_map.mpr ⟨_, this, rfl⟩
  | none =>
    simp only []
    have hnot := (cacheFind_none_iff _ _).mp hf
    refine ⟨⟨?_, ?_, ?_, ?_⟩, ?_, ?_, ?_, fun h => by simp at h, fun _ => by simp⟩
    · simp only [List.map_cons, List.nodup_cons]
      exact ⟨hnot, h1⟩
    · simp only [List.map_cons, List.nodup_cons]
      refine ⟨?_, h2⟩
      intro hm
      obtain ⟨e, he, hev⟩ := List.mem_map.mp hm
      have := h3 e he
      omega
    · intro e he
      rcases List.mem_cons.mp he with he | he
      · rw [he]; simp
      · exact Nat.lt_succ_of_lt (h3 e he)
    · simp [h4]
    · simp [cacheFind]
    · intro t v htv
      unfold cacheFind
      have hne : ¬ effectiveType a b = t := by
        intro e
        rw [← e, hf] at htv
        simp at htv
      simp only [hne, if_false]
      exact htv
    · intro t
      simp only [List.map_cons, List.mem_cons]
      constructor
      · rintro (h | h)
        · exact Or.inr h
        · exact Or.inl h
      · rintro (h | h)
        · exact Or.inr h
        · exact Or.inl h

/-- A sequence of calls: the invariant is kept, there is one shader per call,
entries are never replaced, every call returned the shader that the cache holds
for its effective type at the end, and the keys at the end are the keys at the
start and the effective types requested. -/
theorem prepareRun_spec (cs : List (Int × Int)) :
    ∀ m : ShaderManager, CacheInv m →
      CacheInv (prepareRun m cs).2 ∧
      (prepareRun m cs).1.length = cs.length ∧
      (∀ t v, cacheFind t m.shader_cache = some v →
        cacheFind t (prepareRun m cs).2.shader_cache = some v) ∧
      (∀ (i : Nat) (c : Int × Int) (o : Nat), cs[i]? = some c →
        (prepareRun m cs).1[i]? = some o →
        cacheFind (effectiveType c.1 c.2) (prepareRun m cs).2.shader_cache = some o) ∧
      (∀ t, t ∈ (prepareRun m cs).2.shader_cache.map Prod.fst ↔
        t ∈ m.shader_cache.map Prod.fst ∨
          t ∈ cs.map (fun c => effectiveType c.1 c.2)) := by
  induction cs with
  | nil =>
    intro m hinv
    refine ⟨hinv, rfl, fun t v h => h, ?_, ?_⟩
    · intro i c o hc; simp at hc
    · intro t; simp [prepareRun]
  | cons c rest ih =>
    intro m hinv
    obtain ⟨s1, s2, s3, s4, -, -⟩ := prepareMaterial_spec m c.1 c.2 hinv
    obtain ⟨r1, r2, r3, r4, r5⟩ := ih (prepareMaterial m c.1 c.2).2 s1
    refine ⟨r1, ?_, ?_, ?_, ?_⟩
    · simp only [prepareRun, List.length_cons, r2]
    · intro t v h
      exact r3 t v (s3 t v h)
    · intro i d o hd ho
      cases i with
      | zero =>
        simp only [List.getElem?_cons_zero, Option.some.injEq] at hd
        subst hd
        simp only [prepareRun, List.getElem?_cons_zero, Option.some.injEq] at ho
        subst ho
        exact r3 _ _ s2
      | succ i =>
        simp only [List.getElem?_cons_succ] at hd
        simp only [prepareRun, List.getElem?_cons_succ] at ho
        exact r4 i d o hd ho
    · intro t
      show t ∈ (prepareRun (prepareMaterial m c.1 c.2).2 rest).2.shader_cache.map Prod.fst ↔ _
      rw [r5, s4]
      simp only [List.map_cons, List.mem_cons]
      constructor
      · rintro ((h | h) | h)
        · exact Or.inl h
        · exact Or.inr (Or.inl h)
        · exact Or.inr (Or.inr h)
      · rintro (h | h | h)
        · exact Or.inl (Or.inl h)
        · exact Or.inl (Or.inr h)
        · exact Or.inr h

theorem emptyManager_inv : CacheInv emptyManager := by
  refine ⟨?_, ?_, ?_, rfl⟩
  · simp [emptyManager]
  · simp [emptyManager]
  · intro e he; simp [emptyManager] at he

/-- C21: after every sequence of `prepareMaterial` calls on a manager whose
cache was empty, (1) one shader was returned per call; (2) two calls returned
the same shader if and only if their effective types are equal; (3) the keys of
`shader_cache` are pairwise distinct and are exactly the effective types
requested, and so are its shaders, all that were created; (4) a further call
whose effective type is in the cache leaves the manager as it is, and one whose
effective type is not creates exactly one shader and returns it. -/
theorem prepareRun_cache (cs : List (Int × Int)) :
    (prepareRun emptyManager cs).1.length = cs.length ∧
      (∀ (i j : Nat) (ci cj : Int × Int) (oi oj : Nat),
        cs[i]? = some ci → cs[j]? = some cj →
        (prepareRun emptyManager cs).1[i]? = some oi →
        (prepareRun emptyManager cs).1[j]? = some oj →
        (effectiveType ci.1 ci.2 = effectiveType cj.1 cj.2 ↔ oi = oj)) ∧
      ((prepareRun emptyManager cs).2.shader_cache.map Prod.fst).Nodup ∧
      ((prepareRun emptyManager cs).2.shader_cache.map Prod.snd).Nodup ∧
      (∀ t, t ∈ (prepareRun emptyManager cs).2.shader_cache.map Prod.fst ↔
        t ∈ cs.map (fun c => effectiveType c.1 c.2)) ∧
      (prepareRun emptyManager cs).2.created =
        (prepareRun emptyManager cs).2.shader_cache.length ∧
      (∀ a b : Int,
        (cacheFind (effectiveType a b) (prepareRun emptyManager cs).2.shader_cache ≠ none →
          (prepareMaterial (prepareRun emptyManager cs).2 a b).2 =
            (prepareRun emptyManager cs).2) ∧
        (cacheFind (effectiveType a b) (prepareRun emptyManager cs).2.shader_cache = none →
          (prepareMaterial (prepareRun emptyManager cs).2 a b).2.created =
            (prepareRun emptyManager cs).2.created + 1 ∧
          (prepareMaterial (prepareRun emptyManager cs).2 a b).1 =
            (prepareRun emptyManager cs).2.created)) := by
  obtain ⟨hinv, hlen, -, hout, hkeys⟩ := prepareRun_spec cs emptyManager emptyManager_inv
  obtain ⟨h1, h2, h3, h4⟩ := hinv
  refine ⟨hlen, ?_, h1, h2, ?_, h4, ?_⟩
  · intro i j ci cj oi oj hci hcj hoi hoj
    have fi := hout i ci oi hci hoi
    have fj := hout j cj oj hcj hoj
    constructor
    · intro he
      rw [he, fj] at fi
      exact (Option.some.inj fi).symm
    · intro ho
      subst ho
      have mi := cacheFind_some_mem _ _ _ fi
      have mj := cacheFind_some_mem _ _ _ fj
      have := List.inj_on_of_nodup_map h2 mi mj rfl
      exact (Prod.mk.inj this).1
  · intro t
    rw [hkeys]
    simp [emptyManager]
  · intro a b
    obtain ⟨-, -, -, -, s5, s6⟩ :=
      prepareMaterial_spec (prepareRun emptyManager cs).2 a b ⟨h1, h2, h3, h4⟩
    exact ⟨s5, s6⟩

/-- C21 on four calls with the effective types 3, 5, 3 and 5: the first and
third call return the same shader, so do the second and fourth, and the cache
holds two shaders. -/
theorem prepareRun_cache_witness :
    (prepareRun emptyManager sampleRequests).1 = [0, 1, 0, 1] ∧
      (prepareRun emptyManager sampleRequests).2.shader_cache = [(5, 1), (3, 0)] ∧
      (prepareRun emptyManager sampleRequests).1.length = sampleRequests.length ∧
      ((prepareRun emptyManager sampleRequests).2.shader_cache.map Prod.fst).Nodup :=
  ⟨by decide, by decide, (prepareRun_cache sampleRequests).1,
    (prepareRun_cache sampleRequests).2.2.1⟩

end Cicada
